import Mathlib

/-!
# YAY downloader: the multi-part downloader (`src/mpdownloader.cpp`)

A shallow embedding of `MPDownloader::download` and `MPDownloader::cancelDownload`.

* `quint64` values are natural numbers; every `+` and `-` the source performs on them
  goes through `u64Add` / `u64Sub`, which wrap modulo `2 ^ 64`.
* A `QNetworkReply` is observed through the record `Reply`
  (`isFinished()`, `error()`, `errorString()`, the status attribute, the
  `Content-Length` header and `readAll()`).
* The Qt event loop is the record `World`: what each call of `isFinished()` sees, and
  whether `cancelDownload()` ran inside a given `processEvents` call.
* The two waiting loops of `download` take fuel; `none` means the fuel ran out.
* The progress lambda of lines 152-175 runs only inside `processEvents`; it writes
  `ui64Progress` and the loop counter `ui64K`, which every loop of `download` sets
  again before reading it, so it does not appear in `download`; it is modelled on
  its own as `onDownloadProgress`.
-/

namespace MPDownloader

/-! ## Constants and 64-bit arithmetic -/

/-- Maximum number of parts a download can be split into (`MPD_MAX_DOWNLOAD_PARTS`). -/
def MPD_MAX_DOWNLOAD_PARTS : Nat := 16

/-- Minimum allowed part size in bytes (`MPD_MIN_DOWNLOAD_PART_SIZE`). -/
def MPD_MIN_DOWNLOAD_PART_SIZE : Nat := 1048576

/-- Number of values of a `quint64`. -/
def u64Size : Nat := 2 ^ 64

/-- Addition of two `quint64` values. -/
def u64Add (a b : Nat) : Nat := (a + b) % u64Size

/-- Subtraction of two `quint64` values (`a` and `b` below `2 ^ 64`). -/
def u64Sub (a b : Nat) : Nat := (a + u64Size - b) % u64Size

/-! ## Part planning (lines 108-133 and 176-177) -/

/-- Line 110: `bRanged=ui64ContentLength&&(206==uiResCode)`. -/
def bRanged (uiResCode ui64ContentLength : Nat) : Bool :=
  ui64ContentLength != 0 && uiResCode == 206

/-- Lines 116-123: the number of download parts. -/
def totalParts (uiResCode ui64ContentLength : Nat) : Nat :=
  if bRanged uiResCode ui64ContentLength then
    let n := ui64ContentLength / MPD_MIN_DOWNLOAD_PART_SIZE
    let n := if ui64ContentLength % MPD_MIN_DOWNLOAD_PART_SIZE != 0 then u64Add n 1 else n
    if n > MPD_MAX_DOWNLOAD_PARTS then MPD_MAX_DOWNLOAD_PARTS else n
  else 1

/-- Lines 125-127: the size in bytes of a part. -/
def partSize (ui64ContentLength ui64TotalParts : Nat) : Nat :=
  let s := ui64ContentLength / ui64TotalParts
  if ui64ContentLength % ui64TotalParts != 0 then u64Add s 1 else s

/-- Line 143: the text of the `Range` header of a part. -/
def rangeHeader (ui64Start ui64End : Nat) : String :=
  "bytes=" ++ toString ui64Start ++ "-" ++ toString ui64End

/-- What the launch loop hands to `namMPD->get` for one part. -/
structure PartRequest where
  /-- The `index` property of the reply. -/
  index : Nat
  /-- Value of `ui64Start` when the request is built. -/
  rangeStart : Nat
  /-- Value of `ui64End` when the request is built. -/
  rangeEnd : Nat
  /-- The `Range` raw header, set only when `bRanged`. -/
  range : Option String
deriving DecidableEq

/-- Lines 131-133: the range end of the part starting at `ui64Start`. -/
def partEnd (ui64ContentLength ui64PartSize ui64Start : Nat) : Nat :=
  let e := u64Sub (u64Add ui64Start ui64PartSize) 1
  if e > u64Sub ui64ContentLength 1 then u64Sub ui64ContentLength 1 else e

/-- Lines 129-178: the launch loop, with `n` iterations left, at `ui64K = k`. -/
def launchLoop (ranged : Bool) (ui64ContentLength ui64PartSize : Nat) :
    Nat → Nat → Nat → List PartRequest
  | 0, _, _ => []
  | n + 1, k, ui64Start =>
    let ui64End := partEnd ui64ContentLength ui64PartSize ui64Start
    { index := k, rangeStart := ui64Start, rangeEnd := ui64End,
      range := if ranged then some (rangeHeader ui64Start ui64End) else none } ::
      launchLoop ranged ui64ContentLength ui64PartSize n (k + 1)
        (u64Add ui64Start ui64PartSize)

/-- The requests `download` launches after a probe with the given status and
content length (lines 110-178). -/
def partRequests (uiResCode ui64ContentLength : Nat) : List PartRequest :=
  let n := totalParts uiResCode ui64ContentLength
  launchLoop (bRanged uiResCode ui64ContentLength) ui64ContentLength
    (partSize ui64ContentLength n) n 0 0

/-- The byte ranges `(ui64Start, ui64End)` of the launched parts, in index order. -/
def partRanges (uiResCode ui64ContentLength : Nat) : List (Nat × Nat) :=
  (partRequests uiResCode ui64ContentLength).map fun r => (r.rangeStart, r.rangeEnd)

/-! ## Replies and the event loop -/

/-- What `download` reads from a `QNetworkReply`. -/
structure Reply where
  /-- The value of `isFinished()`. -/
  finished : Bool
  /-- Whether `error()` differs from `QNetworkReply::NetworkError::NoError`. -/
  hasError : Bool
  /-- The value of `errorString()`. -/
  errorString : String
  /-- The `HttpStatusCodeAttribute` attribute, `toUInt()`. -/
  status : Nat
  /-- The `ContentLengthHeader` header, `toULongLong()`. -/
  contentLength : Nat
  /-- The bytes `readAll()` returns. -/
  body : List Nat
deriving DecidableEq

/-- The surroundings of one call of `download`. -/
structure World where
  /-- The reply of the `HEAD` request at the `t`-th test of `isFinished()` (line 89). -/
  probe : Nat → Reply
  /-- The reply of part `k` as poll `j` of the wait loop sees it (lines 183-207). -/
  parts : Nat → Nat → Reply
  /-- Whether `cancelDownload()` ran inside the `processEvents` call that follows
  poll `j` (line 211). -/
  cancel : Nat → Bool

/-- The fields of an `MPDownloader` object. -/
structure State where
  bDownloading : Bool
  sLastError : String
deriving DecidableEq

/-- Lines 38-40: the constructor. -/
def State.init : State := { bDownloading := false, sLastError := "" }

/-- Lines 51-53: `cancelDownload`. -/
def cancelDownload (self : State) : State := { self with bDownloading := false }

/-- Lines 232-234: `getLastError`. -/
def getLastError (self : State) : String := self.sLastError

/-- Lines 241-243: `isDownloading`. -/
def isDownloading (self : State) : Bool := self.bDownloading

/-- Lines 204 and 222: the text for a status other than 200 and 206. -/
def unexpectedResponse (uiResCode : Nat) : String :=
  "Unexpected response code: " ++ toString uiResCode

/-- Lines 100 and 194: `200==uiResCode||206==uiResCode`. -/
def statusOk (uiResCode : Nat) : Bool := uiResCode == 200 || uiResCode == 206

/-- The call `abtTarget.clear()` of line 77. -/
def clear (_abtTarget : List Nat) : List Nat := []

/-- Lines 89-90: wait until the `HEAD` reply is finished; `t` counts the tests made. -/
def waitProbe (probe : Nat → Reply) : Nat → Nat → Option Reply
  | 0, _ => none
  | fuel + 1, t =>
    if (probe t).finished then some (probe t) else waitProbe probe fuel (t + 1)

/-- How the `for` loop of one poll (lines 183-207) ends. -/
inductive Scan where
  /-- The loop ran to `ui64K == ui64TotalParts`. -/
  | completed
  /-- Lines 197-201: `bResult=true; break`. -/
  | success
  /-- Lines 190-191 and 204-205: `sLastError=...; break`. -/
  | failed (msg : String)
deriving DecidableEq

/-- Lines 183-207: one poll over the parts, with `n` iterations left, at `ui64K = k`
and `ui64TotalFinished = done`. -/
def scanParts (ui64TotalParts : Nat) (reply : Nat → Reply) : Nat → Nat → Nat → Scan
  | 0, _, _ => Scan.completed
  | n + 1, k, done =>
    if (reply k).finished then
      if (reply k).hasError then Scan.failed (reply k).errorString
      else if statusOk (reply k).status then
        if u64Add done 1 = ui64TotalParts then Scan.success
        else scanParts ui64TotalParts reply n (k + 1) (u64Add done 1)
      else Scan.failed (unexpectedResponse (reply k).status)
    else scanParts ui64TotalParts reply n (k + 1) done

/-- State of `download` when the wait loop is left. -/
structure WaitExit where
  /-- The value of `bResult`. -/
  bResult : Bool
  /-- The value of `sLastError`. -/
  sLastError : String
  /-- The number of the last poll made. -/
  poll : Nat
deriving DecidableEq

/-- Lines 181-212: the wait loop, entered at poll `j` with `bDownloading = true`
in `self`. -/
def waitLoop (ui64TotalParts : Nat) (w : World) : Nat → Nat → State → Option WaitExit
  | 0, _, _ => none
  | fuel + 1, j, self =>
    match scanParts ui64TotalParts (w.parts j) ui64TotalParts 0 0 with
    | Scan.success => some { bResult := true, sLastError := self.sLastError, poll := j }
    | Scan.failed msg => some { bResult := false, sLastError := msg, poll := j }
    | Scan.completed =>
      -- line 211: `processEvents`, inside which `cancelDownload()` may run
      let self := if w.cancel j then cancelDownload self else self
      -- line 181: `while(bDownloading)`
      if self.bDownloading then waitLoop ui64TotalParts w fuel (j + 1) self
      else some { bResult := false, sLastError := self.sLastError, poll := j }

/-- Lines 215-219: the join loop, with `n` iterations left, at `ui64K = k`. -/
def joinLoop (bResult : Bool) (reply : Nat → Reply) : Nat → Nat → List Nat → List Nat
  | 0, _, abtTarget => abtTarget
  | n + 1, k, abtTarget =>
    joinLoop bResult reply n (k + 1)
      (if bResult then abtTarget ++ (reply k).body else abtTarget)

/-- What a call of `download` leaves behind. -/
structure Outcome where
  /-- The returned `bResult`. -/
  bResult : Bool
  /-- The output buffer `abtTarget`. -/
  abtTarget : List Nat
  /-- The fields of the object. -/
  self : State
  /-- The requests launched with `namMPD->get`. -/
  requests : List PartRequest
deriving DecidableEq

/-- Lines 67-225: `MPDownloader::download`, called on the object `self` with the
output buffer `abtTarget`. -/
def download (self : State) (w : World) (abtTarget : List Nat) (fuel : Nat) :
    Option Outcome :=
  -- lines 76-77
  let self := { self with sLastError := "" }
  let abtTarget := clear abtTarget
  match waitProbe w.probe fuel 0 with
  | none => none
  | some nrpMainReply =>
    let uiResCode := nrpMainReply.status
    let ui64ContentLength := nrpMainReply.contentLength
    if nrpMainReply.hasError then
      some { bResult := false, abtTarget := abtTarget,
             self := { self with sLastError := nrpMainReply.errorString },
             requests := [] }
    else if statusOk uiResCode then
      let ui64TotalParts := totalParts uiResCode ui64ContentLength
      let requests := partRequests uiResCode ui64ContentLength
      -- line 180
      let self := { self with bDownloading := true }
      match waitLoop ui64TotalParts w fuel 0 self with
      | none => none
      | some x =>
        some { bResult := x.bResult,
               abtTarget := joinLoop x.bResult (w.parts x.poll) ui64TotalParts 0 abtTarget,
               -- line 213
               self := { bDownloading := false, sLastError := x.sLastError },
               requests := requests }
    else
      some { bResult := false, abtTarget := abtTarget,
             self := { self with sLastError := unexpectedResponse uiResCode },
             requests := [] }

/-! ## Vocabulary of the statements -/

/-- The arithmetic facts about the plan that the range computation rests on. -/
structure PlanFacts (L N S : Nat) : Prop where
  len_pos : 0 < L
  len_lt : L < 2 ^ 64
  parts_pos : 1 ≤ N
  size_pos : 0 < S
  before_last : (N - 1) * S < L
  covers : L ≤ N * S
  no_wrap : N * S ≤ 2 ^ 64

/-- The range of part `i` in exact integers: `[i*S, min((i+1)*S - 1, L - 1)]`. -/
def closedRange (L S i : Nat) : Nat × Nat := (i * S, min ((i + 1) * S - 1) (L - 1))

/-- A part that is finished, without transport error, with status 200 or 206. -/
def partOk (r : Reply) : Bool := r.finished && !r.hasError && statusOk r.status

/-- A part that is finished with a transport error or with another status. -/
def partFailed (r : Reply) : Bool := r.finished && (r.hasError || !statusOk r.status)

/-- The text lines 190 and 204 store in `sLastError` for a failed reply. -/
def failureText (r : Reply) : String :=
  if r.hasError then r.errorString else unexpectedResponse r.status

/-- Every one of the `N` parts is finished, without error, with status 200 or 206. -/
def allPartsOk (N : Nat) (reply : Nat → Reply) : Prop :=
  ∀ k, k < N → partOk (reply k) = true

/-- None of the `N` parts has failed. -/
def noPartFailed (N : Nat) (reply : Nat → Reply) : Prop :=
  ∀ k, k < N → partFailed (reply k) = false

/-- A poll that neither succeeds nor sees a failure. -/
def pollPending (N : Nat) (reply : Nat → Reply) : Prop :=
  noPartFailed N reply ∧ ¬ allPartsOk N reply

/-- Part `k` is the lowest-indexed failed part among the `N` parts. -/
def firstFailed (N : Nat) (reply : Nat → Reply) (k : Nat) : Prop :=
  k < N ∧ partFailed (reply k) = true ∧ ∀ i, i < k → partFailed (reply i) = false

/-- The wait loop makes poll `j`: every earlier poll was pending and no
`cancelDownload()` ran in the `processEvents` call after it. -/
def pollMade (N : Nat) (w : World) (j : Nat) : Prop :=
  ∀ i, i < j → pollPending N (w.parts i) ∧ w.cancel i = false

/-- The `HEAD` reply is first seen finished at test `p`. -/
def probeAt (w : World) (p : Nat) : Prop :=
  (w.probe p).finished = true ∧ ∀ t, t < p → (w.probe t).finished = false

instance (N : Nat) (reply : Nat → Reply) : Decidable (allPartsOk N reply) :=
  inferInstanceAs (Decidable (∀ k, k < N → partOk (reply k) = true))

instance (N : Nat) (reply : Nat → Reply) : Decidable (noPartFailed N reply) :=
  inferInstanceAs (Decidable (∀ k, k < N → partFailed (reply k) = false))

instance (N : Nat) (reply : Nat → Reply) : Decidable (pollPending N reply) :=
  inferInstanceAs (Decidable (noPartFailed N reply ∧ ¬ allPartsOk N reply))

instance (N : Nat) (reply : Nat → Reply) (k : Nat) : Decidable (firstFailed N reply k) :=
  inferInstanceAs (Decidable (k < N ∧ partFailed (reply k) = true ∧
    ∀ i, i < k → partFailed (reply i) = false))

instance (N : Nat) (w : World) (j : Nat) : Decidable (pollMade N w j) :=
  inferInstanceAs (Decidable (∀ i, i < j → pollPending N (w.parts i) ∧ w.cancel i = false))

instance (w : World) (p : Nat) : Decidable (probeAt w p) :=
  inferInstanceAs (Decidable ((w.probe p).finished = true ∧
    ∀ t, t < p → (w.probe t).finished = false))

/-- The bytes of `R` at the positions `a, ..., b`, both included: what a server
holding `R` sends for `Range: bytes=a-b`. -/
def slice (R : List Nat) (a b : Nat) : List Nat := (R.drop a).take (b + 1 - a)

/-! ## Concrete runs -/

/-- A finished reply without transport error. -/
def finishedReply (status contentLength : Nat) (body : List Nat) : Reply :=
  { finished := true, hasError := false, errorString := "", status := status,
    contentLength := contentLength, body := body }

/-- A reply that is still running. -/
def runningReply : Reply :=
  { finished := false, hasError := false, errorString := "", status := 0,
    contentLength := 0, body := [] }

/-- A run on a resource of 2 MiB (two parts): part 0 delivers its bytes, part 1
answers 404, both seen by the first poll. -/
def worldPartOneFails : World :=
  { probe := fun _ => finishedReply 206 2097152 []
    parts := fun _ k => if k = 0 then finishedReply 206 1048576 [1, 2]
                        else finishedReply 404 0 []
    cancel := fun _ => false }

/-- The failure of a download of 2 MiB whose last error is the text for status 404. -/
def outcomeStatus404 : Outcome :=
  { bResult := false, abtTarget := [],
    self := { bDownloading := false, sLastError := "Unexpected response code: 404" },
    requests := partRequests 206 2097152 }

/-- A resource of 2 MiB whose byte at position `i` is `i % 256`. -/
def resource2MiB : List Nat := (List.range 2097152).map fun i => i % 256

/-- A run on `resource2MiB` (two parts) in which part 1 finishes before part 0:
poll 0 sees only part 1 finished, poll 1 sees both. -/
def worldReversed : World :=
  { probe := fun _ => finishedReply 206 2097152 []
    parts := fun j i =>
      if i = 1 ∨ 1 ≤ j then
        finishedReply 206 1048576 (slice resource2MiB (i * 1048576) (i * 1048576 + 1048575))
      else runningReply
    cancel := fun _ => false }

/-- What `download` returns in `worldReversed`. -/
def outcomeReversed : Outcome :=
  { bResult := true,
    abtTarget := joinLoop true (worldReversed.parts 1) 2 0 [],
    self := { bDownloading := false, sLastError := "" },
    requests := partRequests 206 2097152 }

/-- A run on a resource of 2 MiB (two parts): part 0 is finished, part 1 still
running, at both polls; `cancelDownload()` runs in the `processEvents` call after
poll 1. -/
def worldCancelled : World :=
  { probe := fun _ => finishedReply 206 2097152 []
    parts := fun _ k => if k = 0 then finishedReply 206 1048576 [1, 2] else runningReply
    cancel := fun j => decide (j = 1) }

/-- A run on a resource of 2 MiB (two parts) whose first poll sees part 0 finished
with status 404 and part 1 still running. -/
def worldOnlyPartZero404 : World :=
  { probe := fun _ => finishedReply 206 2097152 []
    parts := fun _ k => if k = 0 then finishedReply 404 0 [] else runningReply
    cancel := fun _ => false }

/-- A run on a resource of 2 MiB (two parts) whose first poll sees part 1 finished
with status 404 and part 0 still running. -/
def worldOnlyPartOne404 : World :=
  { probe := fun _ => finishedReply 206 2097152 []
    parts := fun _ k => if k = 1 then finishedReply 404 0 [] else runningReply
    cancel := fun _ => false }

/-- A run whose `HEAD` reply comes back with status 404, which the transport also
reports as an error. -/
def worldProbe404 : World :=
  { probe := fun _ =>
      { finished := true, hasError := true,
        errorString := "Error transferring - server replied: Not Found",
        status := 404, contentLength := 0, body := [] }
    parts := fun _ _ => runningReply
    cancel := fun _ => false }

/-- What `download` returns in `worldProbe404`. -/
def outcomeProbe404 : Outcome :=
  { bResult := false, abtTarget := [],
    self := { bDownloading := false,
              sLastError := "Error transferring - server replied: Not Found" },
    requests := [] }

/-- A run on a resource of 2 MiB (two parts) whose first poll sees part 0 finished
with status 404 and part 1 finished with status 204, neither with a transport
error. -/
def worldTwoStatuses : World :=
  { probe := fun _ => finishedReply 206 2097152 []
    parts := fun _ k => if k = 0 then finishedReply 404 0 [] else finishedReply 204 0 []
    cancel := fun _ => false }

/-! ## The progress lambda (lines 152-175) -/

/-- A `downloadProgress` signal: the `index` property of the reply that sent it and
its `bytesReceived` argument, a `qint64` that is never negative. -/
structure ProgressSignal where
  index : Nat
  bytesReceived : Nat
deriving DecidableEq

/-- What the lambda works on: the array `ui64Progress` and the calls of
`dpcbProgress` made so far, each with its first two arguments. -/
structure ProgressState where
  ui64Progress : Nat → Nat
  calls : List (Nat × Nat)

/-- Lines 111-114: every counter starts at 0, and no call has been made. -/
def ProgressState.init : ProgressState := { ui64Progress := fun _ => 0, calls := [] }

/-- Lines 168-170: the summing loop, with `n` iterations left, at `ui64K = k` and
`ui64TotalProgress = total`. -/
def totalProgress (ui64Progress : Nat → Nat) : Nat → Nat → Nat → Nat
  | 0, _, total => total
  | n + 1, k, total => totalProgress ui64Progress n (k + 1) (u64Add total (ui64Progress k))

/-- Lines 156-174: the lambda connected to `downloadProgress`; `hasCallback` tells
whether `dpcbProgress` is not `nullptr`. -/
def onDownloadProgress (ui64TotalParts ui64ContentLength : Nat) (hasCallback : Bool)
    (st : ProgressState) (signal : ProgressSignal) : ProgressState :=
  let ui64Progress := Function.update st.ui64Progress signal.index signal.bytesReceived
  let ui64TotalProgress := totalProgress ui64Progress ui64TotalParts 0 0
  { ui64Progress := ui64Progress
    calls := if hasCallback then st.calls ++ [(ui64TotalProgress, ui64ContentLength)]
             else st.calls }

/-- The lambda run on a sequence of signals, from the initial counters. -/
def progressRun (ui64TotalParts ui64ContentLength : Nat) (hasCallback : Bool)
    (signals : List ProgressSignal) : ProgressState :=
  signals.foldl (onDownloadProgress ui64TotalParts ui64ContentLength hasCallback)
    ProgressState.init

/-- The sum of the first `N` counters in exact integers. -/
def exactProgress (N : Nat) (ui64Progress : Nat → Nat) : Nat :=
  ((List.range N).map ui64Progress).sum

/-! ## The part plan in exact integers -/

/-- The number of parts for a range-capable download of `L` bytes, computed as in
lines 116-123 but with exact integers. -/
def exactTotalParts (L : Nat) : Nat :=
  let n := L / MPD_MIN_DOWNLOAD_PART_SIZE
  let n := if L % MPD_MIN_DOWNLOAD_PART_SIZE ≠ 0 then n + 1 else n
  if n > MPD_MAX_DOWNLOAD_PARTS then MPD_MAX_DOWNLOAD_PARTS else n

/-- The part size computed as in lines 125-127 but with exact integers. -/
def exactPartSize (L N : Nat) : Nat :=
  let s := L / N
  if L % N ≠ 0 then s + 1 else s

/-- The ranges computed as in lines 128-133 and 177 but with exact integers, as
integers so that no subtraction is cut off at zero. -/
def exactLaunch (L S : Int) : Nat → Int → List (Int × Int)
  | 0, _ => []
  | n + 1, start =>
    (start, if start + S - 1 > L - 1 then L - 1 else start + S - 1) ::
      exactLaunch L S n (start + S)

/-- The part ranges of a range-capable download of `L` bytes in exact integers. -/
def exactRanges (L : Nat) : List (Int × Int) :=
  exactLaunch L (exactPartSize L (exactTotalParts L)) (exactTotalParts L) 0

/-- A world in which every transport error comes with a non-empty error text. -/
def ErrorsHaveText (w : World) : Prop :=
  (∀ t, (w.probe t).hasError = true → (w.probe t).errorString ≠ "") ∧
  (∀ j k, (w.parts j k).hasError = true → (w.parts j k).errorString ≠ "")

/-- The wait loop of a run is ended by `cancelDownload()`: the `HEAD` reply allows
the download, and at some poll that the loop makes no part has failed, not all
parts are complete, and `cancelDownload()` runs in the `processEvents` call that
follows. -/
def EndedByCancel (w : World) : Prop :=
  ∃ p j, probeAt w p ∧ (w.probe p).hasError = false ∧ statusOk (w.probe p).status = true ∧
    pollMade (totalParts (w.probe p).status (w.probe p).contentLength) w j ∧
    pollPending (totalParts (w.probe p).status (w.probe p).contentLength) (w.parts j) ∧
    w.cancel j = true

/-- What `download` returns in `worldCancelled`. -/
def outcomeCancelled : Outcome :=
  { bResult := false, abtTarget := [],
    self := { bDownloading := false, sLastError := "" },
    requests := partRequests 206 2097152 }

end MPDownloader

/-!
# Binary floating-point rounding

The values of a `float` or a `double` are rational numbers. `roundBits p` rounds a
rational number to the nearest number with `p` significant bits, ties to the even
significand: the rounding of IEEE 754 arithmetic, with `p = 24` for `float` and
`p = 53` for `double`. The exponent range is not limited: overflow to infinity and
underflow to subnormal numbers are not modelled.
-/

namespace IEEE

/-- The number of bits of `n`, with `fuel` at least `n`. -/
def bitLength : Nat → Nat → Nat
  | 0, _ => 0
  | fuel + 1, n => if n = 0 then 0 else bitLength fuel (n / 2) + 1

/-- The position of the highest bit of `n`: the floor of its binary logarithm. -/
def log2 (n : Nat) : Nat := bitLength n n - 1

/-- The integer nearest to `n / d`, the even one of two equally near. -/
def roundRatio (n d : Nat) : Nat :=
  if 2 * (n % d) > d ∨ (2 * (n % d) = d ∧ n / d % 2 = 1) then n / d + 1 else n / d

/-- The binary exponent of `a / b`, for `a` and `b` positive: the `e` with
`2 ^ e ≤ a / b < 2 ^ (e + 1)`. -/
def exponent (a b : Nat) : Int :=
  if (if log2 b ≤ log2 a then b * 2 ^ (log2 a - log2 b) ≤ a
      else b ≤ a * 2 ^ (log2 b - log2 a))
  then (log2 a : Int) - log2 b else (log2 a : Int) - log2 b - 1

/-- The ratio `a / b` rounded to `p` significant bits, for `a` and `b` positive. -/
def roundMagnitude (p : Nat) (a b : Nat) : ℚ :=
  if exponent a b ≤ (p : Int) - 1 then
    (roundRatio (a * 2 ^ ((p : Int) - 1 - exponent a b).toNat) b : ℚ)
      / (2 ^ ((p : Int) - 1 - exponent a b).toNat : Nat)
  else
    (roundRatio a (b * 2 ^ (exponent a b - ((p : Int) - 1)).toNat) : ℚ)
      * (2 ^ (exponent a b - ((p : Int) - 1)).toNat : Nat)

/-- The number with `p` significant bits nearest to `x`, the one with the even
significand of two equally near. -/
def roundBits (p : Nat) (x : ℚ) : ℚ :=
  if x = 0 then 0
  else if 0 < x then roundMagnitude p x.num.natAbs x.den
  else - roundMagnitude p x.num.natAbs x.den

/-- The `double` nearest to `x`. -/
def toDouble (x : ℚ) : ℚ := roundBits 53 x

/-- The `float` nearest to `x`. -/
def toFloat (x : ℚ) : ℚ := roundBits 24 x

end IEEE

/-!
# YAY downloader: the container tools (`src/avtools.cpp`)

A shallow embedding of the three overloads of `AVTools::saveAs`.

* A `float` or `double` value is the rational number it stands for; line 139 is
  computed with the rounding of `IEEE.toDouble` and `IEEE.toFloat`. The tests of
  line 81 depend only on the sign of a `float` and of a difference of two, which
  rounding does not change.
* `int64_t` timestamps are integers; the subtractions of lines 146-147 wrap modulo
  `2 ^ 64` (`i64Sub`).
* An opened input container is the record `Demuxer`: its streams and what the
  successive calls of `av_read_frame` return.
* The record `Lib` holds what the calls into libavformat return during one run.
* The mux loop takes fuel; `none` means the fuel ran out.
-/

namespace AVTools

/-! ## Data of libavformat -/

/-- The value `AV_NOPTS_VALUE`. -/
def AV_NOPTS_VALUE : Int := -9223372036854775808

/-- The value `AVERROR_EOF`. -/
def AVERROR_EOF : Int := -541478725

/-- The enumeration `AVMediaType`. -/
inductive AVMediaType where
  | AVMEDIA_TYPE_UNKNOWN
  | AVMEDIA_TYPE_VIDEO
  | AVMEDIA_TYPE_AUDIO
  | AVMEDIA_TYPE_DATA
  | AVMEDIA_TYPE_SUBTITLE
  | AVMEDIA_TYPE_ATTACHMENT
deriving DecidableEq

/-- The fields of `AVCodecParameters` that `saveAs` reads or writes; `codec_id`
stands for every other parameter. -/
structure AVCodecParameters where
  codec_type : AVMediaType
  codec_id : Nat
  codec_tag : Nat
deriving DecidableEq

/-- The fields of `AVStream` that `saveAs` reads. -/
structure AVStream where
  index : Nat
  codecpar : AVCodecParameters
  time_base : ℚ
deriving DecidableEq

/-- The fields of `AVPacket` that `saveAs` reads or writes; `data` stands for the
payload. -/
structure AVPacket where
  stream_index : Nat
  pts : Int
  dts : Int
  pos : Int
  data : Nat
deriving DecidableEq

/-- What one call of `av_read_frame` returns: a packet, or a negative code. -/
inductive Frame where
  | packet (pk : AVPacket)
  | error (iError : Int)
deriving DecidableEq

/-- An opened input container: its streams, and what the calls of `av_read_frame`
return one after the other once the seek is done; after the last entry every call
returns `AVERROR_EOF`. -/
structure Demuxer where
  streams : List AVStream
  frames : List Frame
deriving DecidableEq

/-- What the calls into libavformat return during one run of `saveAs`. -/
structure Lib where
  /-- The text `av_strerror` gives for a code. -/
  av_strerror : Int → String
  /-- What `av_packet_rescale_ts` makes of one timestamp, from the source and the
  target time base. -/
  av_packet_rescale_ts : ℚ → ℚ → Int → Int
  /-- Whether call `n` of `avformat_alloc_context` returns a context. -/
  avformat_alloc_context : Nat → Bool
  /-- The result of call `n` of `avformat_open_input`. -/
  avformat_open_input : Nat → Int
  /-- The result of call `n` of `avformat_find_stream_info`. -/
  avformat_find_stream_info : Nat → Int
  avformat_alloc_output_context2 : Int
  /-- Whether call `n` of `avformat_new_stream` returns a stream. -/
  avformat_new_stream : Nat → Bool
  /-- The result of call `n` of `avcodec_parameters_copy`. -/
  avcodec_parameters_copy : Nat → Int
  /-- Whether the output format has the flag `AVFMT_NOFILE`. -/
  AVFMT_NOFILE : Bool
  avio_open : Int
  av_seek_frame : Int
  avformat_write_header : Int
  /-- The time base the muxer gives output stream `k`. -/
  out_time_base : Nat → ℚ
  /-- Whether call `n` of `av_packet_alloc` returns a packet. -/
  av_packet_alloc : Nat → Bool
  /-- The result of call `n` of `av_interleaved_write_frame`. -/
  av_interleaved_write_frame : Nat → Int
  av_write_trailer : Int

/-- What a run of `saveAs` leaves behind. -/
structure Result where
  /-- The returned `bResult`. -/
  bResult : Bool
  /-- The field `sLastError` of the object. -/
  sLastError : String
  /-- How many times `avformat_open_input` was called. -/
  inputsOpened : Nat
  /-- Whether `avio_open` was called. -/
  outputOpened : Bool
  /-- The streams created with `avformat_new_stream`. -/
  outStreams : List AVStream
  /-- The packets `av_read_frame` returned, in order. -/
  read : List AVPacket
  /-- The packets passed with success to `av_interleaved_write_frame`, in order. -/
  written : List AVPacket
deriving DecidableEq

/-- Lines 168-173 and 333-338: the text the `catch` block stores for the exception
text `what` when `iError` holds `iError`. -/
def caught (lib : Lib) (what : String) (iError : Int) : String :=
  if 0 > iError then what ++ " " ++ lib.av_strerror iError else what

/-- The codec parameters of a stream that has none yet. -/
def AVCodecParameters.blank : AVCodecParameters :=
  { codec_type := AVMediaType.AVMEDIA_TYPE_UNKNOWN, codec_id := 0, codec_tag := 0 }

/-- The element `streams[k]` of a stream array. -/
def streamAt (streams : List AVStream) (k : Nat) : AVStream :=
  streams.getD k { index := k, codecpar := AVCodecParameters.blank, time_base := 0 }

/-- The stream `avformat_new_stream` adds to an output that has `k` streams. -/
def newStream (lib : Lib) (k : Nat) (codecpar : AVCodecParameters) : AVStream :=
  { index := k, codecpar := codecpar, time_base := lib.out_time_base k }

/-! ## Remux and clip (lines 44-190) -/

/-- How the stream-creating loop (lines 100-111) ends. -/
inductive Created where
  /-- The loop ran to the end, with these output streams and this `iError`. -/
  | done (outStreams : List AVStream) (iError : Int)
  /-- An exception was thrown. -/
  | thrown (outStreams : List AVStream) (what : String) (iError : Int)

/-- Lines 100-111: one output stream per input stream, at `uiK = k`. -/
def createStreams (lib : Lib) : List AVStream → Nat → List AVStream → Int → Created
  | [], _, outStreams, iError => Created.done outStreams iError
  | stIn :: rest, k, outStreams, iError =>
    if !lib.avformat_new_stream k then
      Created.thrown outStreams "avformat_new_stream(out) failed" iError
    else if 0 > lib.avcodec_parameters_copy k then
      Created.thrown (outStreams ++ [newStream lib k AVCodecParameters.blank])
        "avcodec_parameters_copy(out,in) failed" (lib.avcodec_parameters_copy k)
    else
      createStreams lib rest (k + 1)
        (outStreams ++ [newStream lib k { stIn.codecpar with codec_tag := 0 }])
        (lib.avcodec_parameters_copy k)

/-- The local state of the copy loop. -/
structure CopyState where
  i64StartDTS : Nat → Int
  fLastTime : Nat → ℚ
  read : List AVPacket
  written : List AVPacket
  iError : Int

/-- How the copy loop (lines 125-162) ends. -/
inductive Copied where
  /-- The loop was left with `break`. -/
  | done (st : CopyState)
  /-- An exception was thrown. -/
  | thrown (st : CopyState) (what : String)

/-- Lines 157-159: the value of `uiK` when the `for` loop over the streams is left,
with `n` iterations left at `uiK = k`. -/
def endScan (fEndTime : ℚ) (fLastTime : Nat → ℚ) : Nat → Nat → Nat
  | 0, k => k
  | n + 1, k =>
    if fEndTime = 0 ∨ fLastTime k ≤ fEndTime then k
    else endScan fEndTime fLastTime n (k + 1)

/-- The `int64_t` with the bits of the integer `x`. -/
def i64Wrap (x : Int) : Int := (x + 2 ^ 63) % 2 ^ 64 - 2 ^ 63

/-- Subtraction of two `int64_t` values. -/
def i64Sub (a b : Int) : Int := i64Wrap (a - b)

/-- The function `av_q2d`: the `double` quotient of a time base. -/
def av_q2d (a : ℚ) : ℚ := IEEE.toDouble a

/-- Line 139: the `float` stored in `fLastTime` for a packet with presentation
timestamp `pts` of a stream with the given time base: the `double` product of
`av_q2d(time_base)` and `pts`, converted to `float`. -/
def lastTime (time_base : ℚ) (pts : Int) : ℚ :=
  IEEE.toFloat (IEEE.toDouble (av_q2d time_base * IEEE.toDouble pts))

/-- Lines 141-150: what is done to a packet that is kept, before it is written. -/
def retime (lib : Lib) (streams : List AVStream) (fStartTime fEndTime : ℚ)
    (i64StartDTS : Nat → Int) (pkIn : AVPacket) : AVPacket :=
  let stIn := streamAt streams pkIn.stream_index
  let tbOut := lib.out_time_base pkIn.stream_index
  let pts := if fStartTime ≠ 0 ∨ fEndTime ≠ 0 then
      i64Sub pkIn.pts (i64Sub (i64StartDTS pkIn.stream_index) (i64Sub pkIn.pts pkIn.dts))
    else pkIn.pts
  let dts := if fStartTime ≠ 0 ∨ fEndTime ≠ 0 then
      i64Sub pkIn.dts (i64StartDTS pkIn.stream_index) else pkIn.dts
  { pkIn with pts := lib.av_packet_rescale_ts stIn.time_base tbOut pts
              dts := lib.av_packet_rescale_ts stIn.time_base tbOut dts
              pos := -1 }

/-- Lines 125-162: the copy loop over what `av_read_frame` returns. -/
def copyLoop (lib : Lib) (streams : List AVStream) (fStartTime fEndTime : ℚ) :
    List Frame → CopyState → Copied
  | frames, st =>
    if !lib.av_packet_alloc st.read.length then
      Copied.thrown st "av_packet_alloc(in) failed"
    else
      match frames with
      | [] => Copied.done { st with iError := AVERROR_EOF }
      | Frame.error iError :: _ =>
        if AVERROR_EOF = iError then Copied.done { st with iError := iError }
        else Copied.thrown { st with iError := iError } "av_read_frame(in) failed"
      | Frame.packet pkIn :: rest =>
        let stIn := streamAt streams pkIn.stream_index
        -- line 139
        let fLastTime := Function.update st.fLastTime pkIn.stream_index
          (lastTime stIn.time_base pkIn.pts)
        let read := st.read ++ [pkIn]
        if fEndTime = 0 ∨ fLastTime pkIn.stream_index ≤ fEndTime then
          -- lines 141-142
          let i64StartDTS :=
            if AV_NOPTS_VALUE = st.i64StartDTS pkIn.stream_index then
              Function.update st.i64StartDTS pkIn.stream_index pkIn.dts
            else st.i64StartDTS
          let pkOut := retime lib streams fStartTime fEndTime i64StartDTS pkIn
          let iError := lib.av_interleaved_write_frame st.written.length
          if 0 > iError then
            Copied.thrown { i64StartDTS := i64StartDTS, fLastTime := fLastTime, read := read,
                            written := st.written, iError := iError }
              "av_interleaved_write_frame(out) failed"
          else
            let st := { i64StartDTS := i64StartDTS, fLastTime := fLastTime, read := read,
                        written := st.written ++ [pkOut], iError := iError : CopyState }
            -- lines 157-161
            if endScan fEndTime fLastTime streams.length 0 = streams.length then Copied.done st
            else copyLoop lib streams fStartTime fEndTime rest st
        else
          let st := { i64StartDTS := st.i64StartDTS, fLastTime := fLastTime, read := read,
                      written := st.written, iError := 0 : CopyState }
          if endScan fEndTime fLastTime streams.length 0 = streams.length then Copied.done st
          else copyLoop lib streams fStartTime fEndTime rest st

/-- A run that has done nothing yet. -/
def Result.start : Result :=
  { bResult := false, sLastError := "", inputsOpened := 0, outputOpened := false,
    outStreams := [], read := [], written := [] }

/-- Lines 67-190: `AVTools::saveAs(QString,QString,float,float)`, on the input
container `sIn`. -/
def saveAs (lib : Lib) (sIn : Demuxer) (fStartTime fEndTime : ℚ) : Result :=
  let r := Result.start
  if 0 > fStartTime ∨ 0 > fEndTime ∨ 0 > fEndTime - fStartTime then
    { r with sLastError := caught lib "invalid time range" 0 }
  else if !lib.avformat_alloc_context 0 then
    { r with sLastError := caught lib "avformat_alloc_context(in) failed" 0 }
  else
    let r := { r with inputsOpened := 1 }
    if 0 > lib.avformat_open_input 0 then
      { r with sLastError := caught lib "avformat_alloc_output_context2(in) failed"
                 (lib.avformat_open_input 0) }
    else if 0 > lib.avformat_find_stream_info 0 then
      { r with sLastError := caught lib "avformat_find_stream_info(in) failed"
                 (lib.avformat_find_stream_info 0) }
    else if 0 > lib.avformat_alloc_output_context2 then
      { r with sLastError := caught lib "avformat_alloc_output_context2(out) failed"
                 lib.avformat_alloc_output_context2 }
    else
      match createStreams lib sIn.streams 0 [] lib.avformat_alloc_output_context2 with
      | Created.thrown outStreams what iError =>
        { r with outStreams := outStreams, sLastError := caught lib what iError }
      | Created.done outStreams _ =>
        let r := { r with outStreams := outStreams }
        if !lib.AVFMT_NOFILE && decide (0 > lib.avio_open) then
          { r with outputOpened := true,
                   sLastError := caught lib "avio_open(out) failed" lib.avio_open }
        else
          let r := { r with outputOpened := !lib.AVFMT_NOFILE }
          if 0 > lib.av_seek_frame then
            { r with sLastError := caught lib "av_seek_frame(in) failed" lib.av_seek_frame }
          else if 0 > lib.avformat_write_header then
            { r with sLastError := caught lib "avformat_write_header(out) failed"
                       lib.avformat_write_header }
          else
            match copyLoop lib sIn.streams fStartTime fEndTime sIn.frames
                { i64StartDTS := fun _ => AV_NOPTS_VALUE, fLastTime := fun _ => 0,
                  read := [], written := [], iError := lib.avformat_write_header } with
            | Copied.thrown st what =>
              { r with read := st.read, written := st.written,
                       sLastError := caught lib what st.iError }
            | Copied.done st =>
              let r := { r with read := st.read, written := st.written }
              if 0 > lib.av_write_trailer then
                { r with sLastError := caught lib "av_write_trailer(out) failed"
                           lib.av_write_trailer }
              else { r with bResult := true }

/-- Lines 44-46: `AVTools::saveAs(QString,QString)`. -/
def saveAsWhole (lib : Lib) (sIn : Demuxer) : Result := saveAs lib sIn 0 0

/-! ## Mux (lines 207-355) -/

/-- Lines 234-238 and 251-255: the first stream of the given type, if any. -/
def findStream (codec_type : AVMediaType) : List AVStream → Option AVStream
  | [] => none
  | st :: rest =>
    if codec_type = st.codecpar.codec_type then some st else findStream codec_type rest

/-- The local state of the mux loop. -/
structure MuxState where
  bVideoInEOF : Bool
  bAudioInEOF : Bool
  /-- What `av_read_frame` has yet to return for the video input. -/
  videoFrames : List Frame
  /-- What `av_read_frame` has yet to return for the audio input. -/
  audioFrames : List Frame
  /-- The number of calls of `av_packet_alloc` made. -/
  allocs : Nat
  readVideo : List AVPacket
  readAudio : List AVPacket
  written : List AVPacket
  iError : Int
deriving DecidableEq

/-- How a piece of the mux loop ends. -/
inductive Muxed where
  /-- It ran to its end. -/
  | done (st : MuxState)
  /-- An exception was thrown. -/
  | thrown (st : MuxState) (what : String)
deriving DecidableEq

/-- Lines 298-300 and 318-320: what is done to a packet before it is written to the
output stream `stOut`. -/
def retimeMux (lib : Lib) (stIn stOut : AVStream) (pkIn : AVPacket) : AVPacket :=
  { pkIn with pts := lib.av_packet_rescale_ts stIn.time_base stOut.time_base pkIn.pts
              dts := lib.av_packet_rescale_ts stIn.time_base stOut.time_base pkIn.dts
              pos := -1
              stream_index := stOut.index }

/-- Lines 288-305: the body of `if(!bVideoInEOF)`. -/
def muxVideo (lib : Lib) (stVideoIn stVideoOut : AVStream) (st : MuxState) : Muxed :=
  if !lib.av_packet_alloc st.allocs then
    Muxed.thrown st "av_packet_alloc(video in) failed"
  else
    let st := { st with allocs := st.allocs + 1 }
    match st.videoFrames with
    | [] => Muxed.done { st with bVideoInEOF := true, iError := AVERROR_EOF }
    | Frame.error iError :: _ =>
      if AVERROR_EOF = iError then
        Muxed.done { st with bVideoInEOF := true, iError := iError }
      else Muxed.thrown { st with iError := iError } "av_read_frame(video in) failed"
    | Frame.packet pkVideoIn :: rest =>
      let st := { st with videoFrames := rest, readVideo := st.readVideo ++ [pkVideoIn] }
      let iError := lib.av_interleaved_write_frame st.written.length
      if 0 > iError then
        Muxed.thrown { st with iError := iError }
          "av_interleaved_write_frame(video out) failed"
      else
        Muxed.done { st with
          written := st.written ++ [retimeMux lib stVideoIn stVideoOut pkVideoIn]
          iError := iError }

/-- Lines 308-325: the body of `if(!bAudioInEOF)`. -/
def muxAudio (lib : Lib) (stAudioIn stAudioOut : AVStream) (st : MuxState) : Muxed :=
  if !lib.av_packet_alloc st.allocs then
    Muxed.thrown st "av_packet_alloc(audio in) failed"
  else
    let st := { st with allocs := st.allocs + 1 }
    match st.audioFrames with
    | [] => Muxed.done { st with bAudioInEOF := true, iError := AVERROR_EOF }
    | Frame.error iError :: _ =>
      if AVERROR_EOF = iError then
        Muxed.done { st with bAudioInEOF := true, iError := iError }
      else Muxed.thrown { st with iError := iError } "av_read_frame(audio in) failed"
    | Frame.packet pkAudioIn :: rest =>
      let st := { st with audioFrames := rest, readAudio := st.readAudio ++ [pkAudioIn] }
      let iError := lib.av_interleaved_write_frame st.written.length
      if 0 > iError then
        Muxed.thrown { st with iError := iError }
          "av_interleaved_write_frame(audio out) failed"
      else
        Muxed.done { st with
          written := st.written ++ [retimeMux lib stAudioIn stAudioOut pkAudioIn]
          iError := iError }

/-- Lines 286-327: the mux loop. -/
def muxLoop (lib : Lib) (stVideoIn stAudioIn stVideoOut stAudioOut : AVStream) :
    Nat → MuxState → Option Muxed
  | 0, _ => none
  | fuel + 1, st =>
    if !st.bVideoInEOF || !st.bAudioInEOF then
      match (if !st.bVideoInEOF then muxVideo lib stVideoIn stVideoOut st
             else Muxed.done st) with
      | Muxed.thrown st what => some (Muxed.thrown st what)
      | Muxed.done st =>
        match (if !st.bAudioInEOF then muxAudio lib stAudioIn stAudioOut st
               else Muxed.done st) with
        | Muxed.thrown st what => some (Muxed.thrown st what)
        | Muxed.done st => muxLoop lib stVideoIn stAudioIn stVideoOut stAudioOut fuel st
    else some (Muxed.done st)

/-- What a run of the mux overload of `saveAs` leaves behind. -/
structure MuxResult where
  /-- The returned `bResult`. -/
  bResult : Bool
  /-- The field `sLastError` of the object. -/
  sLastError : String
  /-- How many times `avformat_open_input` was called. -/
  inputsOpened : Nat
  /-- Whether `avio_open` was called. -/
  outputOpened : Bool
  /-- The input streams chosen as `stVideoIn` and `stAudioIn`. -/
  stVideoIn : Option AVStream
  stAudioIn : Option AVStream
  /-- The streams created with `avformat_new_stream`. -/
  outStreams : List AVStream
  /-- The packets `av_read_frame` returned for each input, in order. -/
  readVideo : List AVPacket
  readAudio : List AVPacket
  /-- The packets passed with success to `av_interleaved_write_frame`, in order. -/
  written : List AVPacket
deriving DecidableEq

/-- A mux run that has done nothing yet. -/
def MuxResult.start : MuxResult :=
  { bResult := false, sLastError := "", inputsOpened := 0, outputOpened := false,
    stVideoIn := none, stAudioIn := none, outStreams := [],
    readVideo := [], readAudio := [], written := [] }

/-- Lines 207-355: `AVTools::saveAs(QString,QString,QString)`, on the input
containers `sVideoIn` and `sAudioIn`. -/
def saveAsMux (lib : Lib) (sVideoIn sAudioIn : Demuxer) (fuel : Nat) : Option MuxResult :=
  let r := MuxResult.start
  if !lib.avformat_alloc_context 0 then
    some { r with sLastError := caught lib "avformat_alloc_context(video in) failed" 0 }
  else
    let r := { r with inputsOpened := 1 }
    if 0 > lib.avformat_open_input 0 then
      some { r with sLastError := caught lib "avformat_alloc_output_context2(video in) failed"
                      (lib.avformat_open_input 0) }
    else if 0 > lib.avformat_find_stream_info 0 then
      some { r with sLastError := caught lib "avformat_find_stream_info(video in) failed"
                      (lib.avformat_find_stream_info 0) }
    else
      match findStream AVMediaType.AVMEDIA_TYPE_VIDEO sVideoIn.streams with
      | none =>
        some { r with
          sLastError := caught lib "Could not find any video stream in the video input file"
                          (lib.avformat_find_stream_info 0) }
      | some stVideoIn =>
        let r := { r with stVideoIn := some stVideoIn }
        if !lib.avformat_alloc_context 1 then
          some { r with sLastError := caught lib "avformat_alloc_context(audio in) failed"
                          (lib.avformat_find_stream_info 0) }
        else
          let r := { r with inputsOpened := 2 }
          if 0 > lib.avformat_open_input 1 then
            some { r with
              sLastError := caught lib "avformat_alloc_output_context2(audio in) failed"
                              (lib.avformat_open_input 1) }
          else if 0 > lib.avformat_find_stream_info 1 then
            some { r with sLastError := caught lib "avformat_find_stream_info(audio in) failed"
                            (lib.avformat_find_stream_info 1) }
          else
            match findStream AVMediaType.AVMEDIA_TYPE_AUDIO sAudioIn.streams with
            | none =>
              some { r with
                sLastError :=
                  caught lib "Could not find any audio stream in the audio input file"
                    (lib.avformat_find_stream_info 1) }
            | some stAudioIn =>
              let r := { r with stAudioIn := some stAudioIn }
              if 0 > lib.avformat_alloc_output_context2 then
                some { r with
                  sLastError := caught lib "avformat_alloc_output_context2(out) failed"
                                  lib.avformat_alloc_output_context2 }
              else if !lib.avformat_new_stream 0 then
                some { r with sLastError := caught lib "avformat_new_stream(video out) failed"
                                lib.avformat_alloc_output_context2 }
              else if 0 > lib.avcodec_parameters_copy 0 then
                some { r with
                  outStreams := [newStream lib 0 AVCodecParameters.blank]
                  sLastError :=
                    caught lib "avcodec_parameters_copy(video out,video in) failed"
                      (lib.avcodec_parameters_copy 0) }
              else
                let stVideoOut := newStream lib 0 { stVideoIn.codecpar with codec_tag := 0 }
                if !lib.avformat_new_stream 1 then
                  some { r with
                    outStreams := [stVideoOut]
                    sLastError := caught lib "avformat_new_stream(audio out) failed"
                                    (lib.avcodec_parameters_copy 0) }
                else if 0 > lib.avcodec_parameters_copy 1 then
                  some { r with
                    outStreams := [stVideoOut, newStream lib 1 AVCodecParameters.blank]
                    sLastError :=
                      caught lib "avcodec_parameters_copy(audio out,audio in) failed"
                        (lib.avcodec_parameters_copy 1) }
                else
                  let stAudioOut := newStream lib 1 { stAudioIn.codecpar with codec_tag := 0 }
                  let r := { r with outStreams := [stVideoOut, stAudioOut] }
                  if !lib.AVFMT_NOFILE && decide (0 > lib.avio_open) then
                    some { r with outputOpened := true,
                                  sLastError := caught lib "avio_open(out) failed" lib.avio_open }
                  else
                    let r := { r with outputOpened := !lib.AVFMT_NOFILE }
                    if 0 > lib.avformat_write_header then
                      some { r with
                        sLastError := caught lib "avformat_write_header(out) failed"
                                        lib.avformat_write_header }
                    else
                      match muxLoop lib stVideoIn stAudioIn stVideoOut stAudioOut fuel
                          { bVideoInEOF := false, bAudioInEOF := false,
                            videoFrames := sVideoIn.frames, audioFrames := sAudioIn.frames,
                            allocs := 0, readVideo := [], readAudio := [], written := [],
                            iError := lib.avformat_write_header } with
                      | none => none
                      | some (Muxed.thrown st what) =>
                        some { r with readVideo := st.readVideo, readAudio := st.readAudio,
                                      written := st.written,
                                      sLastError := caught lib what st.iError }
                      | some (Muxed.done st) =>
                        let r := { r with readVideo := st.readVideo, readAudio := st.readAudio,
                                          written := st.written }
                        if 0 > lib.av_write_trailer then
                          some { r with sLastError := caught lib "av_write_trailer(out) failed"
                                          lib.av_write_trailer }
                        else some { r with bResult := true }

/-! ## Vocabulary of the statements -/

/-- Every call into libavformat of a run succeeds. -/
structure LibOk (lib : Lib) : Prop where
  alloc_context : ∀ n, lib.avformat_alloc_context n = true
  open_input : ∀ n, 0 ≤ lib.avformat_open_input n
  find_stream_info : ∀ n, 0 ≤ lib.avformat_find_stream_info n
  alloc_output : 0 ≤ lib.avformat_alloc_output_context2
  new_stream : ∀ n, lib.avformat_new_stream n = true
  parameters_copy : ∀ n, 0 ≤ lib.avcodec_parameters_copy n
  avio_open : 0 ≤ lib.avio_open
  seek_frame : 0 ≤ lib.av_seek_frame
  write_header : 0 ≤ lib.avformat_write_header
  packet_alloc : ∀ n, lib.av_packet_alloc n = true
  write_frame : ∀ n, 0 ≤ lib.av_interleaved_write_frame n
  write_trailer : 0 ≤ lib.av_write_trailer

/-- The window passes the test of line 81. -/
def ValidWindow (fStartTime fEndTime : ℚ) : Prop :=
  ¬ (0 > fStartTime ∨ 0 > fEndTime ∨ 0 > fEndTime - fStartTime)

/-- The input yields the packets `pks` and then the end of file, and every packet
belongs to one of the streams. -/
def Yields (sIn : Demuxer) (pks : List AVPacket) : Prop :=
  sIn.frames = pks.map Frame.packet ∧ ∀ pk ∈ pks, pk.stream_index < sIn.streams.length

/-- The presentation time of a packet in seconds as line 139 computes it: its `pts`
times the time base of its input stream, in `double`, stored as a `float`. -/
def seconds (streams : List AVStream) (pk : AVPacket) : ℚ :=
  lastTime (streamAt streams pk.stream_index).time_base pk.pts

/-- The presentation time of a packet in seconds in exact arithmetic: its `pts`
times the time base of its input stream. -/
def exactSeconds (streams : List AVStream) (pk : AVPacket) : ℚ :=
  (streamAt streams pk.stream_index).time_base * pk.pts

/-- The test of line 140 on a packet. -/
def inWindow (streams : List AVStream) (fEndTime : ℚ) (pk : AVPacket) : Bool :=
  decide (fEndTime = 0 ∨ seconds streams pk ≤ fEndTime)

/-- The array `fLastTime` after one more packet. -/
def lastSeen (streams : List AVStream) (fLastTime : Nat → ℚ) (pk : AVPacket) : Nat → ℚ :=
  Function.update fLastTime pk.stream_index (seconds streams pk)

/-- The packets the copy loop reads out of `pks` when it starts with the array
`fLastTime`: it stops after the first packet that leaves every stream past
`fEndTime`. -/
def readUpTo (streams : List AVStream) (fEndTime : ℚ) :
    List AVPacket → (Nat → ℚ) → List AVPacket
  | [], _ => []
  | pk :: rest, fLastTime =>
    pk :: (if endScan fEndTime (lastSeen streams fLastTime pk) streams.length 0
              = streams.length then []
           else readUpTo streams fEndTime rest (lastSeen streams fLastTime pk))

/-- The array `i64StartDTS` after one more kept packet (lines 141-142). -/
def startDTSAfter (i64StartDTS : Nat → Int) (pk : AVPacket) : Nat → Int :=
  if AV_NOPTS_VALUE = i64StartDTS pk.stream_index then
    Function.update i64StartDTS pk.stream_index pk.dts
  else i64StartDTS

/-- The packets written for the kept packets `pks`, from the array `i64StartDTS`. -/
def writeAll (lib : Lib) (streams : List AVStream) (fStartTime fEndTime : ℚ) :
    List AVPacket → (Nat → Int) → List AVPacket
  | [], _ => []
  | pk :: rest, i64StartDTS =>
    retime lib streams fStartTime fEndTime (startDTSAfter i64StartDTS pk) pk ::
      writeAll lib streams fStartTime fEndTime rest (startDTSAfter i64StartDTS pk)

/-- The output streams made for the input streams, the first with index `k`. -/
def outStreamsFor (lib : Lib) : List AVStream → Nat → List AVStream
  | [], _ => []
  | stIn :: rest, k =>
    newStream lib k { stIn.codecpar with codec_tag := 0 } :: outStreamsFor lib rest (k + 1)

/-- The decode timestamp of the first packet of stream `s` in `pks`, or
`AV_NOPTS_VALUE` when there is none. -/
def firstDTS (pks : List AVPacket) (s : Nat) : Int :=
  match pks.find? (fun pk => pk.stream_index = s) with
  | some pk => pk.dts
  | none => AV_NOPTS_VALUE

/-- The packets `saveAs` reads that pass the test of line 140: the ones it writes. -/
def keptPackets (lib : Lib) (sIn : Demuxer) (fStartTime fEndTime : ℚ) : List AVPacket :=
  (saveAs lib sIn fStartTime fEndTime).read.filter (inWindow sIn.streams fEndTime)

/-- A packet with only its timestamps passed through `av_packet_rescale_ts` and its
position reset. -/
def rescaled (lib : Lib) (streams : List AVStream) (pk : AVPacket) : AVPacket :=
  { pk with
    pts := lib.av_packet_rescale_ts (streamAt streams pk.stream_index).time_base
             (lib.out_time_base pk.stream_index) pk.pts
    dts := lib.av_packet_rescale_ts (streamAt streams pk.stream_index).time_base
             (lib.out_time_base pk.stream_index) pk.dts
    pos := -1 }

/-- Round-robin merge: one of `xs`, one of `ys`, and so on; when one list is
used up, the rest of the other. -/
def interleave {α : Type} : List α → List α → List α
  | [], ys => ys
  | x :: xs, [] => x :: xs
  | x :: xs, y :: ys => x :: y :: interleave xs ys

/-- The number of passes of the mux loop still to come. -/
def muxNeed (st : MuxState) (vs as : List AVPacket) : Nat :=
  max (if st.bVideoInEOF then 0 else vs.length + 1)
    (if st.bAudioInEOF then 0 else as.length + 1)

/-- The first character of a text. -/
def firstChar (s : String) : Option Char := s.data.head?

/-! ## Concrete runs -/

/-- A library in which every call succeeds and `av_packet_rescale_ts` leaves the
timestamps as they are (equal time bases). -/
def libPlain : Lib :=
  { av_strerror := fun _ => "error", av_packet_rescale_ts := fun _ _ t => t,
    avformat_alloc_context := fun _ => true, avformat_open_input := fun _ => 0,
    avformat_find_stream_info := fun _ => 0, avformat_alloc_output_context2 := 0,
    avformat_new_stream := fun _ => true, avcodec_parameters_copy := fun _ => 0,
    AVFMT_NOFILE := false, avio_open := 0, av_seek_frame := 0, avformat_write_header := 0,
    out_time_base := fun _ => 1, av_packet_alloc := fun _ => true,
    av_interleaved_write_frame := fun _ => 0, av_write_trailer := 0 }

/-- A video stream with a time base of one second. -/
def videoStream (index : Nat) : AVStream :=
  { index := index,
    codecpar := { codec_type := AVMediaType.AVMEDIA_TYPE_VIDEO, codec_id := 27, codec_tag := 7 },
    time_base := 1 }

/-- An audio stream with a time base of one second. -/
def audioStream (index : Nat) : AVStream :=
  { index := index,
    codecpar := { codec_type := AVMediaType.AVMEDIA_TYPE_AUDIO, codec_id := 86018,
                  codec_tag := 9 },
    time_base := 1 }

/-- An input with one video stream and four packets, at 10, 40, 41 and 42 seconds;
the second one is decoded 2 seconds before it is presented. -/
def clipInput : Demuxer :=
  { streams := [videoStream 0]
    frames := [Frame.packet { stream_index := 0, pts := 10, dts := 10, pos := 0, data := 100 },
               Frame.packet { stream_index := 0, pts := 40, dts := 38, pos := 1, data := 101 },
               Frame.packet { stream_index := 0, pts := 41, dts := 41, pos := 2, data := 102 },
               Frame.packet { stream_index := 0, pts := 42, dts := 42, pos := 3, data := 103 }] }

/-- The packets of `clipInput`. -/
def clipPackets : List AVPacket :=
  [{ stream_index := 0, pts := 10, dts := 10, pos := 0, data := 100 },
   { stream_index := 0, pts := 40, dts := 38, pos := 1, data := 101 },
   { stream_index := 0, pts := 41, dts := 41, pos := 2, data := 102 },
   { stream_index := 0, pts := 42, dts := 42, pos := 3, data := 103 }]

/-- The packets of `videoOnly`; their timestamps run backwards. -/
def videoPackets : List AVPacket :=
  [{ stream_index := 0, pts := 90, dts := 90, pos := 0, data := 100 },
   { stream_index := 0, pts := 50, dts := 50, pos := 1, data := 101 },
   { stream_index := 0, pts := 10, dts := 10, pos := 2, data := 102 }]

/-- An input with one video stream and three packets. -/
def videoOnly : Demuxer :=
  { streams := [videoStream 0], frames := videoPackets.map Frame.packet }

/-- The packets of `audioOnly`. -/
def audioPackets : List AVPacket :=
  [{ stream_index := 0, pts := 0, dts := 0, pos := 0, data := 200 }]

/-- An input with one audio stream and one packet. -/
def audioOnly : Demuxer :=
  { streams := [audioStream 0], frames := audioPackets.map Frame.packet }

/-- An input whose streams are, in order, audio, video and video. -/
def mixedInput : Demuxer :=
  { streams := [audioStream 0, videoStream 1, videoStream 2], frames := [] }

end AVTools

namespace AVTools

/-! ## Vocabulary for the end of the copy loop -/

/-- The array `fLastTime` once the packets `pks` have been read, starting from the
array `fLastTime`. -/
def lastTimes (streams : List AVStream) (pks : List AVPacket) (fLastTime : Nat → ℚ) :
    Nat → ℚ :=
  pks.foldl (lastSeen streams) fLastTime

/-- Every input stream's last seen time exceeds `fEndTime`, and `fEndTime` is not 0:
the `for` loop of lines 157-159 runs to `uiK == nb_streams`. -/
def AllPast (streams : List AVStream) (fEndTime : ℚ) (fLastTime : Nat → ℚ) : Prop :=
  ∀ k, k < streams.length → fEndTime ≠ 0 ∧ fEndTime < fLastTime k

/-- Every timestamp of the packets lies strictly between `-2 ^ 61` and `2 ^ 61`: none
is `AV_NOPTS_VALUE`, and the subtractions of lines 146-147 do not overflow. -/
def TimestampsBelow (pks : List AVPacket) : Prop :=
  ∀ pk ∈ pks, -2 ^ 61 < pk.pts ∧ pk.pts < 2 ^ 61 ∧ -2 ^ 61 < pk.dts ∧ pk.dts < 2 ^ 61

/-- A video stream with a time base of 1/90000 second. -/
def tickStream : AVStream :=
  { index := 0,
    codecpar := { codec_type := AVMediaType.AVMEDIA_TYPE_VIDEO, codec_id := 27, codec_tag := 7 },
    time_base := 1 / 90000 }

/-- The packets of `tickInput`: one at second 0 and one 5 ticks after second 4000. -/
def tickPackets : List AVPacket :=
  [{ stream_index := 0, pts := 0, dts := 0, pos := 0, data := 1 },
   { stream_index := 0, pts := 360000005, dts := 360000005, pos := 1, data := 2 }]

/-- An input with one video stream of time base 1/90000 and the packets
`tickPackets`. -/
def tickInput : Demuxer :=
  { streams := [tickStream], frames := tickPackets.map Frame.packet }

/-- An input with a video and an audio stream; the audio packets run ahead of the
video packets, and the last packet is never read when the window ends at 20. -/
def twoStreamInput : Demuxer :=
  { streams := [videoStream 0, audioStream 1]
    frames := [Frame.packet { stream_index := 1, pts := 10, dts := 10, pos := 0, data := 1 },
               Frame.packet { stream_index := 1, pts := 30, dts := 30, pos := 1, data := 2 },
               Frame.packet { stream_index := 0, pts := 15, dts := 15, pos := 2, data := 3 },
               Frame.packet { stream_index := 0, pts := 25, dts := 25, pos := 3, data := 4 },
               Frame.packet { stream_index := 0, pts := 35, dts := 35, pos := 4, data := 5 }] }

/-- The packets of `twoStreamInput`. -/
def twoStreamPackets : List AVPacket :=
  [{ stream_index := 1, pts := 10, dts := 10, pos := 0, data := 1 },
   { stream_index := 1, pts := 30, dts := 30, pos := 1, data := 2 },
   { stream_index := 0, pts := 15, dts := 15, pos := 2, data := 3 },
   { stream_index := 0, pts := 25, dts := 25, pos := 3, data := 4 },
   { stream_index := 0, pts := 35, dts := 35, pos := 4, data := 5 }]

end AVTools

/-!
# YAY downloader: the main window (`src/mainwindow.cpp`)

The clip planner `MainWindow::createMultipleClips` and the choice of the audio track
in `MainWindow::slot_btnDownload_clicked`.

* `uint` values are natural numbers; every `+`, `-` and `++` the source performs on
  them goes through `u32Add` / `u32Sub`, which wrap modulo `2 ^ 32`. The planning loop
  takes fuel; `none` means the fuel ran out.
* `AVTools::saveAs` takes its times as `float`: the `uint` arguments of the call are
  converted with `floatOfUInt`, which is exact up to `2 ^ 24`.
* `QString::arg` is modelled after its documentation: a place marker is `%`, an
  optional `L`, and one or two decimal digits; a call replaces every occurrence of
  the lowest-numbered marker of the text it is called on, and the call with two texts
  replaces the two lowest-numbered markers in one pass. Digits are the ASCII digits,
  and the text for a `%L` marker is the plain decimal text.
* `MIMETools::getSubtype` matches a regular expression; it is a parameter here.
-/

namespace MainWindow

/-- Number of values of a `uint`. -/
def u32Size : Nat := 2 ^ 32

/-- Addition of two `uint` values. -/
def u32Add (a b : Nat) : Nat := (a + b) % u32Size

/-- Subtraction of two `uint` values (`a` and `b` below `2 ^ 32`). -/
def u32Sub (a b : Nat) : Nat := (a + u32Size - b) % u32Size

/-- What `createMultipleClips` asks the `QFileInfo` of the source. -/
structure QFileInfo where
  /-- The value of `exists()`. -/
  fileExists : Bool
  absolutePath : String
  completeBaseName : String
  suffix : String
deriving DecidableEq

/-! ## `QString::arg` -/

/-- A piece of a format text: a character, or a place marker with its number,
whether it has the `L`, and the characters that spell it. -/
inductive Piece where
  | char (c : Char)
  | marker (n : Nat) (locale : Bool) (text : List Char)
deriving DecidableEq

/-- What the scan of a format text has seen of a possible place marker. -/
inductive ArgState where
  /-- Nothing. -/
  | plain
  /-- A `%`. -/
  | percent
  /-- A `%` and an `L`. -/
  | percentL
  /-- A `%`, maybe an `L`, and the digit `d`. -/
  | digit (locale : Bool) (d : Char)
deriving DecidableEq

/-- The value of a decimal digit. -/
def digitValue (c : Char) : Nat := c.toNat - 48

/-- The place marker with the one digit `d`. -/
def marker1 (locale : Bool) (d : Char) : Piece :=
  Piece.marker (digitValue d) locale (if locale then ['%', 'L', d] else ['%', d])

/-- The place marker with the two digits `d` and `e`. -/
def marker2 (locale : Bool) (d e : Char) : Piece :=
  Piece.marker (10 * digitValue d + digitValue e) locale
    (if locale then ['%', 'L', d, e] else ['%', d, e])

/-- The pieces of a format text, scanned from left to right. -/
def pieces : ArgState → List Char → List Piece
  | ArgState.plain, [] => []
  | ArgState.percent, [] => [Piece.char '%']
  | ArgState.percentL, [] => [Piece.char '%', Piece.char 'L']
  | ArgState.digit locale d, [] => [marker1 locale d]
  | ArgState.plain, c :: cs =>
    if c = '%' then pieces ArgState.percent cs else Piece.char c :: pieces ArgState.plain cs
  | ArgState.percent, c :: cs =>
    if c = 'L' then pieces ArgState.percentL cs
    else if c.isDigit then pieces (ArgState.digit false c) cs
    else Piece.char '%' ::
      (if c = '%' then pieces ArgState.percent cs else Piece.char c :: pieces ArgState.plain cs)
  | ArgState.percentL, c :: cs =>
    if c.isDigit then pieces (ArgState.digit true c) cs
    else Piece.char '%' :: Piece.char 'L' ::
      (if c = '%' then pieces ArgState.percent cs else Piece.char c :: pieces ArgState.plain cs)
  | ArgState.digit locale d, c :: cs =>
    if c.isDigit then marker2 locale d c :: pieces ArgState.plain cs
    else marker1 locale d ::
      (if c = '%' then pieces ArgState.percent cs else Piece.char c :: pieces ArgState.plain cs)

/-- The lowest number of a place marker among the pieces, if there is a marker. -/
def minEscape : List Piece → Option Nat
  | [] => none
  | Piece.char _ :: ps => minEscape ps
  | Piece.marker n _ _ :: ps =>
    match minEscape ps with
    | none => some n
    | some m => some (min n m)

/-- The lowest number above `m` of a place marker among the pieces, if any. -/
def nextEscape (m : Nat) : List Piece → Option Nat
  | [] => none
  | Piece.char _ :: ps => nextEscape m ps
  | Piece.marker n _ _ :: ps =>
    if n ≤ m then nextEscape m ps
    else
      match nextEscape m ps with
      | none => some n
      | some k => some (min n k)

/-- The text in which every marker numbered `m` is replaced by `arg` (by `larg` for
a marker with `L`), padded on the left with `fillChar` to `fieldWidth` characters. -/
def replaceArgEscapes (m fieldWidth : Nat) (arg larg : List Char) (fillChar : Char) :
    List Piece → List Char
  | [] => []
  | Piece.char c :: ps => c :: replaceArgEscapes m fieldWidth arg larg fillChar ps
  | Piece.marker n locale text :: ps =>
    (if n = m then
      List.replicate (fieldWidth - (if locale then larg else arg).length) fillChar
        ++ (if locale then larg else arg)
     else text) ++ replaceArgEscapes m fieldWidth arg larg fillChar ps

/-- The call `s.arg(a, fieldWidth, fillChar)`, and with the decimal text of a number
for `a` and `larg` the call `s.arg(n, fieldWidth, 10, fillChar)`: the lowest-numbered
place marker of `s` is replaced; a text without a marker is returned as it is. -/
def arg (s a larg : String) (fieldWidth : Nat) (fillChar : Char) : String :=
  match minEscape (pieces ArgState.plain s.data) with
  | none => s
  | some m =>
    String.mk (replaceArgEscapes m fieldWidth a.data larg.data fillChar
      (pieces ArgState.plain s.data))

/-- The text in which the markers numbered `m1` are replaced by `a1` and the ones
numbered `m2` by `a2`. -/
def multiArg (a1 a2 : List Char) (m1 : Nat) (m2 : Option Nat) : List Piece → List Char
  | [] => []
  | Piece.char c :: ps => c :: multiArg a1 a2 m1 m2 ps
  | Piece.marker n _ text :: ps =>
    (if n = m1 then a1 else if some n = m2 then a2 else text) ++ multiArg a1 a2 m1 m2 ps

/-- The call `s.arg(a1, a2)`: the two lowest-numbered place markers of `s` are
replaced in one pass. -/
def arg2 (s a1 a2 : String) : String :=
  match minEscape (pieces ArgState.plain s.data) with
  | none => s
  | some m1 =>
    String.mk (multiArg a1.data a2.data m1 (nextEscape m1 (pieces ArgState.plain s.data))
      (pieces ArgState.plain s.data))

/-! ## The clip planner (lines 596-640) -/

/-- Lines 615-621: the name of the clip with number `uiNdx`. -/
def targetClip (fiTarget : QFileInfo) (uiNdx : Nat) : String :=
  arg (arg (arg2 "%1/%2.%3.%4" fiTarget.absolutePath fiTarget.completeBaseName)
        (toString uiNdx) (toString uiNdx) 3 '0')
    fiTarget.suffix fiTarget.suffix 0 (Char.ofNat 32)

/-- One call of `avtClipper.saveAs`: the target path and the two `float` values it
receives as start and end time. -/
structure ClipCall where
  sTargetClip : String
  fStartTime : ℚ
  fEndTime : ℚ
deriving DecidableEq

/-- The conversion of a `uint` argument to the `float` parameter of `saveAs`. -/
def floatOfUInt (n : Nat) : ℚ := IEEE.toFloat n

/-- Lines 614-637: the planning loop, at `uiK` and `uiNdx`; it returns the calls
made and the final `uiNdx`. -/
def clipLoop (fiTarget : QFileInfo) (uiSourceSize uiClipSize uiLeadingSize : Nat) :
    Nat → Nat → Nat → Option (List ClipCall × Nat)
  | 0, _, _ => none
  | fuel + 1, uiK, uiNdx =>
    if uiK < uiSourceSize then
      let uiNdx := u32Add uiNdx 1
      let call : ClipCall :=
        { sTargetClip := targetClip fiTarget uiNdx
          fStartTime := floatOfUInt (u32Add uiK uiLeadingSize)
          fEndTime := floatOfUInt (u32Add (u32Add uiK uiLeadingSize) uiClipSize) }
      match clipLoop fiTarget uiSourceSize uiClipSize uiLeadingSize fuel
          (u32Add uiK uiClipSize) uiNdx with
      | none => none
      | some (calls, uiNdx) => some (call :: calls, uiNdx)
    else some ([], uiNdx)

/-- What a call of `createMultipleClips` does. -/
structure Plan where
  /-- The calls of `avtClipper.saveAs`, in order. -/
  calls : List ClipCall
  /-- The number logged as "Total clips", when that line is logged. -/
  totalClips : Option Nat
deriving DecidableEq

/-- Lines 596-640: `MainWindow::createMultipleClips`. -/
def createMultipleClips (fiTarget : QFileInfo)
    (uiSourceSize uiClipSize uiLeadingSize uiTrailingSize : Nat) (fuel : Nat) : Option Plan :=
  if fiTarget.fileExists then
    if uiClipSize ≠ 0 then
      -- line 609
      let uiSourceSize := u32Sub uiSourceSize (u32Add uiLeadingSize uiTrailingSize)
      let uiClipSize := if uiClipSize > uiSourceSize then uiSourceSize else uiClipSize
      match clipLoop fiTarget uiSourceSize uiClipSize uiLeadingSize fuel 0 0 with
      | none => none
      | some (calls, uiNdx) => some { calls := calls, totalClips := some uiNdx }
    else some { calls := [], totalClips := none }
  else some { calls := [], totalClips := none }

/-! ## The audio track for a video-only entry (lines 353-382) -/

/-- The enumeration `MediaType`. -/
inductive MediaType where
  | MT_INVALID
  | MT_VIDEO_AND_AUDIO
  | MT_VIDEO_ONLY
  | MT_AUDIO_ONLY
deriving DecidableEq

/-- The fields of `MediaEntry` that the search reads. -/
structure MediaEntry where
  mtMediaType : MediaType
  sMIMEType : String
  sVideoQuality : String
  sAudioQuality : String
deriving DecidableEq

/-- The element `melList.at(i)`, for an index of the list. -/
def entryAt (melList : List MediaEntry) (i : Nat) : MediaEntry :=
  melList.getD i { mtMediaType := MediaType.MT_INVALID, sMIMEType := "", sVideoQuality := "",
                   sAudioQuality := "" }

/-- The three indices the search keeps. -/
structure AudioSearch where
  iAudioIndex : Int
  i2ndBestAudioIndex : Int
  iWorstAudioIndex : Int
deriving DecidableEq

/-- Lines 361-371: the search loop, with `n` iterations left, at `iK`. -/
def searchAudio (getSubtype : String → String) (melList : List MediaEntry) (iMediaIndex : Nat)
    (sVideoSubtype sVideoQuality : String) : Nat → Nat → AudioSearch → AudioSearch
  | 0, _, st => st
  | n + 1, iK, st =>
    if MediaType.MT_AUDIO_ONLY = (entryAt melList iK).mtMediaType then
      let st := { st with iWorstAudioIndex := iK }
      if sVideoSubtype = getSubtype (entryAt melList iK).sMIMEType then
        let st := { st with i2ndBestAudioIndex := iK }
        -- line 366
        if sVideoQuality = (entryAt melList iMediaIndex).sAudioQuality then
          { st with iAudioIndex := iK }
        else
          searchAudio getSubtype melList iMediaIndex sVideoSubtype sVideoQuality n (iK + 1) st
      else searchAudio getSubtype melList iMediaIndex sVideoSubtype sVideoQuality n (iK + 1) st
    else searchAudio getSubtype melList iMediaIndex sVideoSubtype sVideoQuality n (iK + 1) st

/-- Lines 348 and 353-382: the value of `iAudioIndex` for the selected media index
`iMediaIndex` (-1 when nothing is selected). -/
def audioIndex (getSubtype : String → String) (melList : List MediaEntry) (iMediaIndex : Int) :
    Int :=
  if -1 ≠ iMediaIndex then
    if MediaType.MT_VIDEO_ONLY = (entryAt melList iMediaIndex.toNat).mtMediaType then
      let st := searchAudio getSubtype melList iMediaIndex.toNat
        (getSubtype (entryAt melList iMediaIndex.toNat).sMIMEType)
        (entryAt melList iMediaIndex.toNat).sVideoQuality melList.length 0
        { iAudioIndex := -1, i2ndBestAudioIndex := -1, iWorstAudioIndex := -1 }
      if -1 = st.iAudioIndex then
        if -1 = st.i2ndBestAudioIndex then st.iWorstAudioIndex else st.i2ndBestAudioIndex
      else st.iAudioIndex
    else -1
  else -1

/-! ## Vocabulary of the statements -/

/-- The windows of a plan: the start and end time of each call. -/
def Plan.windows (plan : Plan) : List (ℚ × ℚ) :=
  plan.calls.map fun call => (call.fStartTime, call.fEndTime)

/-- The call of `avtClipper.saveAs` in pass `k` of the planning loop (counted from
0) when `uiK` has not wrapped. -/
def plannedCall (fiTarget : QFileInfo) (uiClipSize uiLeadingSize k : Nat) : ClipCall :=
  { sTargetClip := targetClip fiTarget (k + 1)
    fStartTime := floatOfUInt (u32Add (k * uiClipSize) uiLeadingSize)
    fEndTime := floatOfUInt (u32Add (u32Add (k * uiClipSize) uiLeadingSize) uiClipSize) }

/-- The trimmed duration: `uiSourceSize` after line 609. -/
def trimmed (uiSourceSize uiLeadingSize uiTrailingSize : Nat) : Nat :=
  u32Sub uiSourceSize (u32Add uiLeadingSize uiTrailingSize)

/-- The clip length after lines 610-611. -/
def clamped (uiClipSize uiSourceSize : Nat) : Nat :=
  if uiClipSize > uiSourceSize then uiSourceSize else uiClipSize

/-- The text of a number in decimal, padded on the left with '0' to at least 3
characters. -/
def padded (uiNdx : Nat) : String :=
  String.mk (List.replicate (3 - (toString uiNdx).length) '0') ++ toString uiNdx

/-- The clip name written as the words "directory/base name.number.suffix" say. -/
def namedClip (fiTarget : QFileInfo) (k : Nat) : String :=
  fiTarget.absolutePath ++ "/" ++ fiTarget.completeBaseName ++ "." ++ padded k ++ "."
    ++ fiTarget.suffix

/-- The index of the first entry from position `i` on that passes `p`, or -1. -/
def firstIndex (p : MediaEntry → Bool) : List MediaEntry → Nat → Int
  | [], _ => -1
  | e :: rest, i => if p e then i else firstIndex p rest (i + 1)

/-- The index of the last entry from position `i` on that passes `p`, or -1. -/
def lastIndex (p : MediaEntry → Bool) : List MediaEntry → Nat → Int
  | [], _ => -1
  | e :: rest, i =>
    if lastIndex p rest (i + 1) ≠ -1 then lastIndex p rest (i + 1)
    else if p e then i else -1

/-- An audio-only entry. -/
def isAudio (e : MediaEntry) : Bool := decide (e.mtMediaType = MediaType.MT_AUDIO_ONLY)

/-- An audio-only entry with the subtype of the entry `video`. -/
def sameSubtype (getSubtype : String → String) (video e : MediaEntry) : Bool :=
  isAudio e && decide (getSubtype video.sMIMEType = getSubtype e.sMIMEType)

/-- An audio-only entry with the subtype of the entry `video` and an audio quality
equal to the video quality of `video`. -/
def isPerfect (getSubtype : String → String) (video e : MediaEntry) : Bool :=
  sameSubtype getSubtype video e && decide (video.sVideoQuality = e.sAudioQuality)

/-- The audio track written as the words say: the first audio-only entry with the
subtype of the video and an audio quality equal to the video quality; failing that
the last audio-only entry with that subtype; failing that the last audio-only
entry; -1 when there is none. -/
def perfectAudioIndex (getSubtype : String → String) (melList : List MediaEntry)
    (video : MediaEntry) : Int :=
  if firstIndex (isPerfect getSubtype video) melList 0 ≠ -1 then
    firstIndex (isPerfect getSubtype video) melList 0
  else if lastIndex (sameSubtype getSubtype video) melList 0 ≠ -1 then
    lastIndex (sameSubtype getSubtype video) melList 0
  else lastIndex isAudio melList 0

/-! ## Concrete runs -/

/-- The file information of an existing source `/videos/talk.mp4`. -/
def fiTalk : QFileInfo :=
  { fileExists := true, absolutePath := "/videos", completeBaseName := "talk",
    suffix := "mp4" }

/-- The file information of an existing source `/videos/%1/talk.mp4`, in a
directory named `%1`. -/
def fiMarker : QFileInfo :=
  { fileExists := true, absolutePath := "/videos/%1", completeBaseName := "talk",
    suffix := "mp4" }

/-- The file information of an existing source `/videos/%%1/talk.mp4`, in a
directory named `%%1`. -/
def fiTwoPercent : QFileInfo :=
  { fileExists := true, absolutePath := "/videos/%%1", completeBaseName := "talk",
    suffix := "mp4" }

/-- A media list with a video-only entry of quality "medium" and two audio-only
entries with the same container, of audio quality "medium" and "low". -/
def melTwoAudio : List MediaEntry :=
  [{ mtMediaType := MediaType.MT_VIDEO_ONLY, sMIMEType := "video/mp4",
     sVideoQuality := "medium", sAudioQuality := "" },
   { mtMediaType := MediaType.MT_AUDIO_ONLY, sMIMEType := "audio/mp4",
     sVideoQuality := "", sAudioQuality := "medium" },
   { mtMediaType := MediaType.MT_AUDIO_ONLY, sMIMEType := "audio/mp4",
     sVideoQuality := "", sAudioQuality := "low" }]

/-- The subtype of the MIME types of `melTwoAudio`. -/
def subtypeMp4 (_sMIME : String) : String := "mp4"

end MainWindow

/-! ## Theorems -/

namespace MPDownloader

/-! ## The part plan in closed form -/

theorem totalParts_of_not_ranged (uiResCode L : Nat) (h : bRanged uiResCode L = false) :
    totalParts uiResCode L = 1 := by
  simp [totalParts, h]

theorem totalParts_of_ranged (uiResCode L : Nat) (h : bRanged uiResCode L = true)
    (hL : L < 2 ^ 64) :
    totalParts uiResCode L = min 16 ((L + 1048575) / 1048576) := by
  simp only [totalParts, h, if_true]
  unfold MPD_MAX_DOWNLOAD_PARTS MPD_MIN_DOWNLOAD_PART_SIZE u64Add u64Size
  simp only [bne_iff_ne, ne_eq, ite_not]
  split <;> split <;> omega

theorem totalParts_bounds (uiResCode L : Nat) (hL : L < 2 ^ 64) :
    1 ≤ totalParts uiResCode L ∧ totalParts uiResCode L ≤ 16 := by
  cases hr : bRanged uiResCode L
  · rw [totalParts_of_not_ranged _ _ hr]; omega
  · rw [totalParts_of_ranged _ _ hr hL]
    have h0 : L ≠ 0 := by
      intro h
      simp [bRanged, h] at hr
    omega

theorem partSize_eq_ceil (L N : Nat) (hN : 1 ≤ N) (hN16 : N ≤ 16) (hL : L < 2 ^ 64) :
    partSize L N = (L + N - 1) / N := by
  unfold partSize u64Add u64Size
  simp only [bne_iff_ne, ne_eq, ite_not]
  interval_cases N <;> split <;> omega

theorem planFacts (uiResCode L : Nat) (h0 : 0 < L) (hL : L < 2 ^ 64) :
    PlanFacts L (totalParts uiResCode L) (partSize L (totalParts uiResCode L)) := by
  have hb := totalParts_bounds uiResCode L hL
  rw [partSize_eq_ceil L _ hb.1 hb.2 hL]
  cases hr : bRanged uiResCode L
  · rw [totalParts_of_not_ranged _ _ hr]
    constructor <;> omega
  · have hN := totalParts_of_ranged _ _ hr hL
    generalize totalParts uiResCode L = N at hb hN ⊢
    obtain ⟨h1, h16⟩ := hb
    interval_cases N <;> constructor <;> omega

theorem partEnd_eq_min (L S a : Nat) (h0 : 0 < L) (hL : L < 2 ^ 64) (hS : 0 < S)
    (h : a + S ≤ 2 ^ 64) : partEnd L S a = min (a + S - 1) (L - 1) := by
  unfold partEnd u64Sub u64Add u64Size
  simp only []
  split <;> omega

theorem launchLoop_length (ranged : Bool) (L S : Nat) :
    ∀ n k start, (launchLoop ranged L S n k start).length = n := by
  intro n
  induction n with
  | zero => intro k start; rfl
  | succ n ih => intro k start; simp [launchLoop, ih]

theorem launchLoop_index (ranged : Bool) (L S : Nat) :
    ∀ n k start, (launchLoop ranged L S n k start).map (fun r => r.index)
      = List.range' k n := by
  intro n
  induction n with
  | zero => intro k start; rfl
  | succ n ih => intro k start; simp [launchLoop, ih, List.range'_succ]

theorem launchLoop_header (ranged : Bool) (L S : Nat) :
    ∀ n k start, ∀ r ∈ launchLoop ranged L S n k start,
      r.range = if ranged then some (rangeHeader r.rangeStart r.rangeEnd) else none := by
  intro n
  induction n with
  | zero => intro k start r hr; simp [launchLoop] at hr
  | succ n ih =>
    intro k start r hr
    simp only [launchLoop, List.mem_cons] at hr
    rcases hr with h | hr
    · rw [h]
    · exact ih _ _ r hr

theorem launchLoop_ranges (ranged : Bool) (L N S : Nat) (h : PlanFacts L N S) :
    ∀ n k start, k + n = N → (0 < n → start = k * S) →
      (launchLoop ranged L S n k start).map (fun r => (r.rangeStart, r.rangeEnd))
        = (List.range' k n).map (closedRange L S) := by
  intro n
  induction n with
  | zero => intro k start _ _; rfl
  | succ n ih =>
    intro k start hk hstart
    obtain ⟨h0, hL, h1, hS, hbefore, hcov, hwrap⟩ := h
    have hs : start = k * S := hstart (Nat.succ_pos n)
    have hkS : k * S ≤ (N - 1) * S := Nat.mul_le_mul_right S (by omega)
    have hk1 : (k + 1) * S = k * S + S := Nat.succ_mul k S
    have hk1N : (k + 1) * S ≤ N * S := Nat.mul_le_mul_right S (by omega)
    have hend : partEnd L S start = min ((k + 1) * S - 1) (L - 1) := by
      rw [partEnd_eq_min L S start h0 hL hS (by omega), hs, hk1]
    have hnext : 0 < n → u64Add start S = (k + 1) * S := by
      intro hn
      have : (k + 1) * S ≤ (N - 1) * S := Nat.mul_le_mul_right S (by omega)
      unfold u64Add u64Size
      omega
    simp only [launchLoop, List.map_cons, List.range'_succ, closedRange, hend]
    rw [ih (k + 1) (u64Add start S) (by omega) hnext, hs]

theorem partRequests_length (uiResCode L : Nat) :
    (partRequests uiResCode L).length = totalParts uiResCode L := by
  simp [partRequests, launchLoop_length]

theorem partRanges_length (uiResCode L : Nat) :
    (partRanges uiResCode L).length = totalParts uiResCode L := by
  simp [partRanges, partRequests_length]

theorem partRanges_eq_closed (uiResCode L : Nat) (h0 : 0 < L) (hL : L < 2 ^ 64) :
    partRanges uiResCode L
      = (List.range (totalParts uiResCode L)).map
          (closedRange L (partSize L (totalParts uiResCode L))) := by
  unfold partRanges partRequests
  simp only []
  rw [launchLoop_ranges _ L _ _ (planFacts uiResCode L h0 hL) _ 0 0 (by omega) (by intro; omega),
    List.range_eq_range']

theorem closedRange_snd (L N S i : Nat) (h : PlanFacts L N S) (hi : i < N) :
    (closedRange L S i).2 = if i + 1 < N then (i + 1) * S - 1 else L - 1 := by
  obtain ⟨h0, hL, h1, hS, hbefore, hcov, hwrap⟩ := h
  unfold closedRange
  simp only []
  split
  · have : (i + 1) * S ≤ (N - 1) * S := Nat.mul_le_mul_right S (by omega)
    omega
  · have : i + 1 = N := by omega
    subst this
    omega

theorem closedRange_le (L N S i : Nat) (h : PlanFacts L N S) (hi : i < N) :
    (closedRange L S i).1 ≤ (closedRange L S i).2 := by
  obtain ⟨h0, hL, h1, hS, hbefore, hcov, hwrap⟩ := h
  have h1 : i * S ≤ (N - 1) * S := Nat.mul_le_mul_right S (by omega)
  have h2 : (i + 1) * S = i * S + S := Nat.succ_mul i S
  unfold closedRange
  simp only []
  omega

theorem closedRange_next (L N S i : Nat) (h : PlanFacts L N S) (hi : i + 1 < N) :
    (closedRange L S (i + 1)).1 = (closedRange L S i).2 + 1 := by
  rw [closedRange_snd L N S i h (by omega), if_pos hi]
  have h2 : (i + 1) * S = i * S + S := Nat.succ_mul i S
  have := h.size_pos
  unfold closedRange
  simp only []
  omega

theorem closedRange_sum (L N S : Nat) (h : PlanFacts L N S) :
    ∀ m, m ≤ N →
      (((List.range m).map (closedRange L S)).map fun r => r.2 - r.1 + 1).sum
        = min (m * S) L := by
  intro m
  induction m with
  | zero => intro _; simp
  | succ m ih =>
    intro hm
    have hle := closedRange_le L N S m h (by omega)
    obtain ⟨h0, hL, h1, hS, hbefore, hcov, hwrap⟩ := h
    have h1 : m * S ≤ (N - 1) * S := Nat.mul_le_mul_right S (by omega)
    have h2 : (m + 1) * S = m * S + S := Nat.succ_mul m S
    rw [List.range_succ, List.map_append, List.map_append, List.sum_append, ih (by omega)]
    unfold closedRange at hle ⊢
    simp only [List.map_cons, List.map_nil, List.sum_cons, List.sum_nil] at hle ⊢
    omega

/-- C1: for a probe with status 206 and content length `0 < L < 2 ^ 64`, the ranges
the launch loop assigns partition `[0, L)`: the first starts at 0, no part is empty,
each next part starts right after the previous one ends, the last ends at `L - 1`,
and the part lengths add up to `L`. -/
theorem partRanges_partition (L : Nat) (h0 : 0 < L) (hL : L < 2 ^ 64) :
    ((partRanges 206 L).head?.map fun r => r.1) = some 0 ∧
    (∀ r ∈ partRanges 206 L, r.1 ≤ r.2) ∧
    (∀ i a b, (partRanges 206 L)[i]? = some a → (partRanges 206 L)[i + 1]? = some b →
      b.1 = a.2 + 1) ∧
    ((partRanges 206 L).getLast?.map fun r => r.2) = some (L - 1) ∧
    ((partRanges 206 L).map fun r => r.2 - r.1 + 1).sum = L := by
  have hf := planFacts 206 L h0 hL
  have hN := hf.parts_pos
  rw [partRanges_eq_closed 206 L h0 hL]
  generalize totalParts 206 L = N at hf hN ⊢
  generalize partSize L N = S at hf ⊢
  refine ⟨?_, ?_, ?_, ?_, ?_⟩
  · obtain ⟨n, rfl⟩ : ∃ n, N = n + 1 := ⟨N - 1, by omega⟩
    simp [List.range_succ_eq_map, closedRange]
  · intro r hr
    obtain ⟨i, hi, rfl⟩ := List.mem_map.1 hr
    exact closedRange_le L N S i hf (List.mem_range.1 hi)
  · intro i a b ha hb
    rw [List.getElem?_map] at ha hb
    have hi : i + 1 < N := by
      by_contra hc
      rw [List.getElem?_eq_none (by simp; omega)] at hb
      simp at hb
    rw [List.getElem?_range (by omega)] at ha
    rw [List.getElem?_range hi] at hb
    simp only [Option.map_some', Option.some.injEq] at ha hb
    rw [← ha, ← hb]
    exact closedRange_next L N S i hf hi
  · rw [List.getLast?_map, List.range_eq_range', List.getLast?_range', if_neg (by omega)]
    simp only [Option.map_some', Option.some.injEq]
    rw [closedRange_snd L N S _ hf (by omega), if_neg (by omega)]
  · have := closedRange_sum L N S hf N (le_refl N)
    rw [this]
    have := hf.covers
    omega

theorem partRanges_partition_witness :
    ((partRanges 206 3145733).head?.map fun r => r.1) = some 0 ∧
    (∀ r ∈ partRanges 206 3145733, r.1 ≤ r.2) ∧
    (∀ i a b, (partRanges 206 3145733)[i]? = some a →
      (partRanges 206 3145733)[i + 1]? = some b → b.1 = a.2 + 1) ∧
    ((partRanges 206 3145733).getLast?.map fun r => r.2) = some (3145733 - 1) ∧
    ((partRanges 206 3145733).map fun r => r.2 - r.1 + 1).sum = 3145733 :=
  partRanges_partition 3145733 (by decide) (by decide)


/-- C3: for a 64-bit content length `L` (in particular every `L > 0`), the part count is 1 when the download
is not range-capable and `min(16, ceil(L / 1048576))` when it is. -/
theorem totalParts_eq (uiResCode L : Nat) (hL : L < 2 ^ 64) :
    totalParts uiResCode L =
      if bRanged uiResCode L then
        min MPD_MAX_DOWNLOAD_PARTS (L ⌈/⌉ MPD_MIN_DOWNLOAD_PART_SIZE)
      else 1 := by
  cases hr : bRanged uiResCode L
  · simp [totalParts_of_not_ranged _ _ hr]
  · rw [totalParts_of_ranged _ _ hr hL, Nat.ceilDiv_eq_add_pred_div]
    simp [MPD_MAX_DOWNLOAD_PARTS, MPD_MIN_DOWNLOAD_PART_SIZE]

theorem totalParts_eq_witness :
    totalParts 206 3145733 =
      if bRanged 206 3145733 then
        min MPD_MAX_DOWNLOAD_PARTS (3145733 ⌈/⌉ MPD_MIN_DOWNLOAD_PART_SIZE)
      else 1 :=
  totalParts_eq 206 3145733 (by decide)

/-- C4: for every 64-bit content length, 0 included, and every probe status, the part
count lies between 1 and 16, and the launched parts carry the indices
`0, ..., totalParts - 1`, all below the 16 slots of the progress, request and reply
arrays. -/
theorem totalParts_in_range (uiResCode L : Nat) (hL : L < 2 ^ 64) :
    1 ≤ totalParts uiResCode L ∧
    totalParts uiResCode L ≤ MPD_MAX_DOWNLOAD_PARTS ∧
    (partRequests uiResCode L).map (fun r => r.index)
      = List.range (totalParts uiResCode L) ∧
    ∀ r ∈ partRequests uiResCode L, r.index < MPD_MAX_DOWNLOAD_PARTS := by
  have hb := totalParts_bounds uiResCode L hL
  have hidx : (partRequests uiResCode L).map (fun r => r.index)
      = List.range (totalParts uiResCode L) := by
    simp [partRequests, launchLoop_index, List.range_eq_range']
  refine ⟨hb.1, hb.2, hidx, ?_⟩
  intro r hr
  have : r.index ∈ List.range (totalParts uiResCode L) := by
    rw [← hidx]
    exact List.mem_map.2 ⟨r, hr, rfl⟩
  have := List.mem_range.1 this
  unfold MPD_MAX_DOWNLOAD_PARTS
  omega

theorem totalParts_in_range_witness :
    1 ≤ totalParts 200 0 ∧
    totalParts 200 0 ≤ MPD_MAX_DOWNLOAD_PARTS ∧
    (partRequests 200 0).map (fun r => r.index) = List.range (totalParts 200 0) ∧
    ∀ r ∈ partRequests 200 0, r.index < MPD_MAX_DOWNLOAD_PARTS :=
  totalParts_in_range 200 0 (by decide)

/-- C5: for a probe with status 206 and content length `0 < L < 2 ^ 64`, the part size
is `ceil(L / N)` and the range the launch loop gives part `i`, for every `i < N`, is
`[i * partSize, min((i + 1) * partSize - 1, L - 1)]` in exact integers. -/
theorem partRanges_closed_form (L : Nat) (h0 : 0 < L) (hL : L < 2 ^ 64) :
    partSize L (totalParts 206 L) = L ⌈/⌉ totalParts 206 L ∧
    (partRanges 206 L).length = totalParts 206 L ∧
    ∀ i, i < totalParts 206 L →
      (partRanges 206 L)[i]? =
        some (i * partSize L (totalParts 206 L),
              min ((i + 1) * partSize L (totalParts 206 L) - 1) (L - 1)) := by
  have hb := totalParts_bounds 206 L hL
  refine ⟨?_, partRanges_length 206 L, ?_⟩
  · rw [partSize_eq_ceil L _ hb.1 hb.2 hL, Nat.ceilDiv_eq_add_pred_div]
  · intro i hi
    rw [partRanges_eq_closed 206 L h0 hL, List.getElem?_map, List.getElem?_range hi]
    rfl

theorem partRanges_closed_form_witness :
    partSize 3145733 (totalParts 206 3145733) = 3145733 ⌈/⌉ totalParts 206 3145733 ∧
    (partRanges 206 3145733).length = totalParts 206 3145733 ∧
    ∀ i, i < totalParts 206 3145733 →
      (partRanges 206 3145733)[i]? =
        some (i * partSize 3145733 (totalParts 206 3145733),
              min ((i + 1) * partSize 3145733 (totalParts 206 3145733) - 1)
                (3145733 - 1)) :=
  partRanges_closed_form 3145733 (by decide) (by decide)

/-- C6: the download is range-capable exactly when the probe status is 206 and the
content length is not 0; with status 200, or with content length 0, one part is
requested and no request carries a `Range` header, and in general a request
carries the header exactly when the download is range-capable. -/
theorem bRanged_iff (uiResCode L : Nat) :
    (bRanged uiResCode L = true ↔ uiResCode = 206 ∧ L ≠ 0) ∧
    (uiResCode = 200 ∨ L = 0 →
      (partRequests uiResCode L).length = 1 ∧
      ∀ r ∈ partRequests uiResCode L, r.range = none) ∧
    ∀ r ∈ partRequests uiResCode L,
      (r.range ≠ none ↔ uiResCode = 206 ∧ L ≠ 0) := by
  have hiff : bRanged uiResCode L = true ↔ uiResCode = 206 ∧ L ≠ 0 := by
    simp [bRanged, and_comm]
  have hhdr := fun r hr =>
    launchLoop_header (bRanged uiResCode L) L
      (partSize L (totalParts uiResCode L)) (totalParts uiResCode L) 0 0 r hr
  refine ⟨hiff, ?_, ?_⟩
  · intro h
    have hr : bRanged uiResCode L = false := by
      rcases h with h | h <;> simp [bRanged, h]
    refine ⟨by rw [partRequests_length, totalParts_of_not_ranged _ _ hr], ?_⟩
    intro r hmem
    have := hhdr r hmem
    simpa [hr] using this
  · intro r hmem
    have := hhdr r hmem
    rw [← hiff]
    cases hr : bRanged uiResCode L <;> simp [hr] at this ⊢ <;> simp [this]

theorem bRanged_iff_witness :
    (partRequests 200 5).length = 1 ∧ ∀ r ∈ partRequests 200 5, r.range = none :=
  (bRanged_iff 200 5).2.1 (Or.inl rfl)
/-! ## One poll of the wait loop -/

theorem partOk_not_failed (r : Reply) (h : partOk r = true) : partFailed r = false := by
  unfold partOk at h
  unfold partFailed
  cases hf : r.finished <;> cases he : r.hasError <;> cases hs : statusOk r.status <;>
    simp_all

theorem scanParts_spec (N : Nat) (reply : Nat → Reply) (hN : N < 2 ^ 64) :
    ∀ n k done, k + n = N → done ≤ k → done < N →
      (done = k ↔ ∀ i, i < k → partOk (reply i) = true) →
      (∀ i, i < k → partFailed (reply i) = false) →
      match scanParts N reply n k done with
      | Scan.success => allPartsOk N reply
      | Scan.completed => pollPending N reply
      | Scan.failed msg => ∃ i, firstFailed N reply i ∧ msg = failureText (reply i) := by
  intro n
  induction n with
  | zero =>
    intro k done hk hdk hdN hiff hnf
    have : k = N := by omega
    subst this
    simp only [scanParts]
    exact ⟨hnf, fun hall => by have := hiff.2 hall; omega⟩
  | succ n ih =>
    intro k done hk hdk hdN hiff hnf
    have hstep : ∀ i, i < k + 1 → i < k ∨ i = k := by intro i hi; omega
    unfold scanParts
    cases hf : (reply k).finished
    · -- part `k` is still running
      simp only [Bool.false_eq_true, if_false]
      refine ih (k + 1) done (by omega) (by omega) hdN ⟨fun h => by omega, fun h => ?_⟩ ?_
      · have := h k (by omega)
        simp [partOk, hf] at this
      · intro i hi
        rcases hstep i hi with h | h
        · exact hnf i h
        · subst h; simp [partFailed, hf]
    · simp only [if_true]
      cases he : (reply k).hasError
      · simp only [Bool.false_eq_true, if_false]
        cases hs : statusOk (reply k).status
        · simp only [Bool.false_eq_true, if_false]
          exact ⟨k, ⟨by omega, by simp [partFailed, hf, he, hs], hnf⟩,
            by simp [failureText, he]⟩
        · simp only [if_true]
          have hadd : u64Add done 1 = done + 1 := by
            unfold u64Add u64Size; omega
          have hok : partOk (reply k) = true := by simp [partOk, hf, he, hs]
          rw [hadd]
          by_cases hlast : done + 1 = N
          · rw [if_pos hlast]
            intro i hi
            have hdone : done = k := by omega
            rcases hstep i (by omega) with h | h
            · exact hiff.1 hdone i h
            · subst h; exact hok
          · rw [if_neg hlast]
            refine ih (k + 1) (done + 1) (by omega) (by omega) (by omega)
              ⟨fun h i hi => ?_, fun h => ?_⟩ ?_
            · rcases hstep i hi with h' | h'
              · exact hiff.1 (by omega) i h'
              · subst h'; exact hok
            · have := hiff.2 (fun i hi => h i (by omega))
              omega
            · intro i hi
              rcases hstep i hi with h | h
              · exact hnf i h
              · subst h; exact partOk_not_failed _ hok
      · simp only [if_true]
        exact ⟨k, ⟨by omega, by simp [partFailed, hf, he], hnf⟩,
          by simp [failureText, he]⟩

theorem poll_spec (N : Nat) (reply : Nat → Reply) (h1 : 1 ≤ N) (hN : N < 2 ^ 64) :
    match scanParts N reply N 0 0 with
    | Scan.success => allPartsOk N reply
    | Scan.completed => pollPending N reply
    | Scan.failed msg => ∃ i, firstFailed N reply i ∧ msg = failureText (reply i) :=
  scanParts_spec N reply hN N 0 0 (by omega) (le_refl 0) (by omega)
    ⟨fun _ i hi => absurd hi (Nat.not_lt_zero i), fun _ => rfl⟩
    (fun i hi => absurd hi (Nat.not_lt_zero i))

theorem firstFailed_unique (N : Nat) (reply : Nat → Reply) (i j : Nat)
    (hi : firstFailed N reply i) (hj : firstFailed N reply j) : i = j := by
  obtain ⟨_, hfi, hmi⟩ := hi
  obtain ⟨_, hfj, hmj⟩ := hj
  rcases Nat.lt_trichotomy i j with h | h | h
  · have := hmj i h; simp [hfi] at this
  · exact h
  · have := hmi j h; simp [hfj] at this

theorem allPartsOk_not_firstFailed (N : Nat) (reply : Nat → Reply) (i : Nat)
    (hall : allPartsOk N reply) (hi : firstFailed N reply i) : False := by
  have := partOk_not_failed _ (hall i hi.1)
  simp [hi.2.1] at this

theorem pollPending_not_firstFailed (N : Nat) (reply : Nat → Reply) (i : Nat)
    (hp : pollPending N reply) (hi : firstFailed N reply i) : False := by
  have := hp.1 i hi.1
  simp [hi.2.1] at this

theorem poll_success_iff (N : Nat) (reply : Nat → Reply) (h1 : 1 ≤ N) (hN : N < 2 ^ 64) :
    scanParts N reply N 0 0 = Scan.success ↔ allPartsOk N reply := by
  have hspec := poll_spec N reply h1 hN
  constructor
  · intro h; rw [h] at hspec; exact hspec
  · intro hall
    cases hsc : scanParts N reply N 0 0 with
    | success => rfl
    | completed => rw [hsc] at hspec; exact absurd hall hspec.2
    | failed msg =>
      rw [hsc] at hspec
      obtain ⟨i, hi, _⟩ := hspec
      exact (allPartsOk_not_firstFailed N reply i hall hi).elim

theorem poll_completed_iff (N : Nat) (reply : Nat → Reply) (h1 : 1 ≤ N) (hN : N < 2 ^ 64) :
    scanParts N reply N 0 0 = Scan.completed ↔ pollPending N reply := by
  have hspec := poll_spec N reply h1 hN
  constructor
  · intro h; rw [h] at hspec; exact hspec
  · intro hp
    cases hsc : scanParts N reply N 0 0 with
    | success => rw [hsc] at hspec; exact absurd hspec hp.2
    | completed => rfl
    | failed msg =>
      rw [hsc] at hspec
      obtain ⟨i, hi, _⟩ := hspec
      exact (pollPending_not_firstFailed N reply i hp hi).elim

theorem poll_failed_iff (N : Nat) (reply : Nat → Reply) (h1 : 1 ≤ N) (hN : N < 2 ^ 64)
    (msg : String) :
    scanParts N reply N 0 0 = Scan.failed msg ↔
      ∃ i, firstFailed N reply i ∧ msg = failureText (reply i) := by
  have hspec := poll_spec N reply h1 hN
  constructor
  · intro h; rw [h] at hspec; exact hspec
  · rintro ⟨i, hi, hmsg⟩
    cases hsc : scanParts N reply N 0 0 with
    | success => rw [hsc] at hspec; exact (allPartsOk_not_firstFailed N reply i hspec hi).elim
    | completed => rw [hsc] at hspec; exact (pollPending_not_firstFailed N reply i hspec hi).elim
    | failed msg' =>
      rw [hsc] at hspec
      obtain ⟨j, hj, hmsg'⟩ := hspec
      rw [hmsg, hmsg', firstFailed_unique N reply i j hi hj]

/-! ## The two waiting loops -/

theorem waitProbe_skip (probe : Nat → Reply) :
    ∀ d t, (∀ i, t ≤ i → i < t + d → (probe i).finished = false) →
      ∀ fuel, waitProbe probe (d + fuel) t = waitProbe probe fuel (t + d) := by
  intro d
  induction d with
  | zero => intro t _ fuel; simp
  | succ d ih =>
    intro t h fuel
    have h0 := h t (le_refl t) (by omega)
    rw [show d + 1 + fuel = (d + fuel) + 1 by omega, waitProbe, if_neg (by simp [h0]),
      ih (t + 1) (fun i hi hi' => h i (by omega) (by omega)) fuel]
    congr 1
    omega

theorem waitProbe_of_probeAt (w : World) (p fuel : Nat) (h : probeAt w p) (hp : p < fuel) :
    waitProbe w.probe fuel 0 = some (w.probe p) := by
  obtain ⟨f, rfl⟩ : ∃ f, fuel = p + (f + 1) := ⟨fuel - p - 1, by omega⟩
  rw [waitProbe_skip w.probe p 0 (fun i _ hi => h.2 i (by omega)) (f + 1)]
  simp [waitProbe, h.1]

theorem waitProbe_some (probe : Nat → Reply) :
    ∀ fuel t r, waitProbe probe fuel t = some r →
      ∃ p, t ≤ p ∧ p < t + fuel ∧ r = probe p ∧ (probe p).finished = true ∧
        ∀ i, t ≤ i → i < p → (probe i).finished = false := by
  intro fuel
  induction fuel with
  | zero => intro t r h; simp [waitProbe] at h
  | succ fuel ih =>
    intro t r h
    unfold waitProbe at h
    by_cases hf : (probe t).finished = true
    · rw [if_pos hf] at h
      exact ⟨t, le_refl t, by omega, by simpa using h.symm, hf, fun i h1 h2 => by omega⟩
    · rw [if_neg hf] at h
      obtain ⟨p, h1, h2, h3, h4, h5⟩ := ih (t + 1) r h
      refine ⟨p, by omega, by omega, h3, h4, fun i hi hip => ?_⟩
      by_cases hit : i = t
      · subst hit; simpa using hf
      · exact h5 i (by omega) hip

theorem waitProbe_some_probeAt (w : World) (fuel : Nat) (r : Reply)
    (h : waitProbe w.probe fuel 0 = some r) : ∃ p, p < fuel ∧ probeAt w p ∧ r = w.probe p := by
  obtain ⟨p, _, h2, h3, h4, h5⟩ := waitProbe_some w.probe fuel 0 r h
  exact ⟨p, by omega, ⟨h4, fun t ht => h5 t (Nat.zero_le t) ht⟩, h3⟩

theorem waitLoop_skip (N : Nat) (w : World) (self : State)
    (hself : self.bDownloading = true) :
    ∀ d j, (∀ i, j ≤ i → i < j + d →
        scanParts N (w.parts i) N 0 0 = Scan.completed ∧ w.cancel i = false) →
      ∀ fuel, waitLoop N w (d + fuel) j self = waitLoop N w fuel (j + d) self := by
  intro d
  induction d with
  | zero => intro j _ fuel; simp
  | succ d ih =>
    intro j h fuel
    have h0 := h j (le_refl j) (by omega)
    rw [show d + 1 + fuel = (d + fuel) + 1 by omega, waitLoop, h0.1]
    simp only [h0.2, Bool.false_eq_true, if_false, hself, if_true]
    rw [ih (j + 1) (fun i hi hi' => h i (by omega) (by omega)) fuel]
    congr 1
    omega

/-- How the wait loop was left at poll `x.poll`. -/
theorem waitLoop_some (N : Nat) (w : World) (self : State)
    (hself : self.bDownloading = true) :
    ∀ fuel j x, waitLoop N w fuel j self = some x →
      j ≤ x.poll ∧ x.poll < j + fuel ∧
      (∀ i, j ≤ i → i < x.poll →
        scanParts N (w.parts i) N 0 0 = Scan.completed ∧ w.cancel i = false) ∧
      ((scanParts N (w.parts x.poll) N 0 0 = Scan.success ∧
          x.bResult = true ∧ x.sLastError = self.sLastError) ∨
       (scanParts N (w.parts x.poll) N 0 0 = Scan.failed x.sLastError ∧
          x.bResult = false) ∨
       (scanParts N (w.parts x.poll) N 0 0 = Scan.completed ∧ w.cancel x.poll = true ∧
          x.bResult = false ∧ x.sLastError = self.sLastError)) := by
  intro fuel
  induction fuel with
  | zero => intro j x h; simp [waitLoop] at h
  | succ fuel ih =>
    intro j x h
    unfold waitLoop at h
    cases hsc : scanParts N (w.parts j) N 0 0 with
    | success =>
      rw [hsc] at h
      simp only [Option.some.injEq] at h
      subst h
      exact ⟨le_refl j, by simp, fun i h1 h2 => by simp at h2; omega, Or.inl ⟨hsc, rfl, rfl⟩⟩
    | failed msg =>
      rw [hsc] at h
      simp only [Option.some.injEq] at h
      subst h
      exact ⟨le_refl j, by simp, fun i h1 h2 => by simp at h2; omega,
        Or.inr (Or.inl ⟨hsc, rfl⟩)⟩
    | completed =>
      rw [hsc] at h
      simp only at h
      by_cases hc : w.cancel j = true
      · simp only [hc, if_true, cancelDownload, Bool.false_eq_true, if_false,
          Option.some.injEq] at h
        subst h
        exact ⟨le_refl j, by simp, fun i h1 h2 => by simp at h2; omega,
          Or.inr (Or.inr ⟨hsc, hc, rfl, rfl⟩)⟩
      · have hc' : w.cancel j = false := by simpa using hc
        simp only [hc', Bool.false_eq_true, if_false, hself, if_true] at h
        obtain ⟨h1, h2, h3, h4⟩ := ih (j + 1) x h
        refine ⟨by omega, by omega, fun i hi hip => ?_, h4⟩
        by_cases hij : i = j
        · subst hij; exact ⟨hsc, hc'⟩
        · exact h3 i (by omega) hip

theorem waitLoop_of_pollMade (N : Nat) (w : World) (self : State)
    (hself : self.bDownloading = true) (h1 : 1 ≤ N)
    (hN : N < 2 ^ 64) (j fuel : Nat) (hm : pollMade N w j) (hj : j < fuel) :
    waitLoop N w fuel 0 self =
      match scanParts N (w.parts j) N 0 0 with
      | Scan.success => some { bResult := true, sLastError := self.sLastError, poll := j }
      | Scan.failed msg => some { bResult := false, sLastError := msg, poll := j }
      | Scan.completed =>
        if w.cancel j then
          some { bResult := false, sLastError := self.sLastError, poll := j }
        else waitLoop N w (fuel - j - 1) (j + 1) self := by
  obtain ⟨f, rfl⟩ : ∃ f, fuel = j + (f + 1) := ⟨fuel - j - 1, by omega⟩
  rw [waitLoop_skip N w self hself j 0
    (fun i _ hi => ⟨(poll_completed_iff N _ h1 hN).2 (hm i (by omega)).1, (hm i (by omega)).2⟩)
    (f + 1)]
  simp only [Nat.zero_add]
  rw [waitLoop]
  have : j + (f + 1) - j - 1 = f := by omega
  rw [this]
  cases hc : w.cancel j <;> simp [hself, cancelDownload]

theorem waitLoop_some_pollMade (N : Nat) (w : World) (self : State)
    (hself : self.bDownloading = true) (h1 : 1 ≤ N)
    (hN : N < 2 ^ 64) (fuel : Nat) (x : WaitExit) (h : waitLoop N w fuel 0 self = some x) :
    x.poll < fuel ∧ pollMade N w x.poll ∧
      ((allPartsOk N (w.parts x.poll) ∧ x.bResult = true ∧
          x.sLastError = self.sLastError) ∨
       ((∃ i, firstFailed N (w.parts x.poll) i ∧
            x.sLastError = failureText (w.parts x.poll i)) ∧ x.bResult = false) ∨
       (pollPending N (w.parts x.poll) ∧ w.cancel x.poll = true ∧
          x.bResult = false ∧ x.sLastError = self.sLastError)) := by
  obtain ⟨_, h2, h3, h4⟩ := waitLoop_some N w self hself fuel 0 x h
  refine ⟨by omega, fun i hi => ?_, ?_⟩
  · have := h3 i (Nat.zero_le i) hi
    exact ⟨(poll_completed_iff N _ h1 hN).1 this.1, this.2⟩
  · rcases h4 with ⟨ha, hb, hc⟩ | ⟨ha, hb⟩ | ⟨ha, hb, hc, hd⟩
    · exact Or.inl ⟨(poll_success_iff N _ h1 hN).1 ha, hb, hc⟩
    · exact Or.inr (Or.inl ⟨(poll_failed_iff N _ h1 hN _).1 ha, hb⟩)
    · exact Or.inr (Or.inr ⟨(poll_completed_iff N _ h1 hN).1 ha, hb, hc, hd⟩)

/-! ## The join loop -/

theorem joinLoop_false (reply : Nat → Reply) :
    ∀ n k acc, joinLoop false reply n k acc = acc := by
  intro n
  induction n with
  | zero => intro k acc; rfl
  | succ n ih => intro k acc; simp [joinLoop, ih]

theorem joinLoop_true (reply : Nat → Reply) :
    ∀ n k acc, joinLoop true reply n k acc
      = acc ++ ((List.range' k n).map fun i => (reply i).body).flatten := by
  intro n
  induction n with
  | zero => intro k acc; simp [joinLoop]
  | succ n ih => intro k acc; simp [joinLoop, ih, List.range'_succ]

/-! ## `download` as a whole -/

theorem download_probe_failed (self : State) (w : World) (t : List Nat) (p fuel : Nat)
    (hp : probeAt w p) (hfuel : p < fuel)
    (hbad : (w.probe p).hasError = true ∨ statusOk (w.probe p).status = false) :
    download self w t fuel =
      some { bResult := false, abtTarget := [],
             self := { bDownloading := self.bDownloading,
                       sLastError := failureText (w.probe p) },
             requests := [] } := by
  unfold download
  simp only [waitProbe_of_probeAt w p fuel hp hfuel, clear, failureText]
  cases he : (w.probe p).hasError
  · rcases hbad with h | h
    · simp [he] at h
    · simp [h]
  · simp

theorem download_probe_ok (self : State) (w : World) (t : List Nat) (p fuel : Nat)
    (hp : probeAt w p) (hfuel : p < fuel)
    (he : (w.probe p).hasError = false) (hs : statusOk (w.probe p).status = true) :
    download self w t fuel =
      (waitLoop (totalParts (w.probe p).status (w.probe p).contentLength) w fuel 0
          { bDownloading := true, sLastError := "" }).map
        fun x =>
          { bResult := x.bResult,
            abtTarget := joinLoop x.bResult (w.parts x.poll)
              (totalParts (w.probe p).status (w.probe p).contentLength) 0 [],
            self := { bDownloading := false, sLastError := x.sLastError },
            requests := partRequests (w.probe p).status (w.probe p).contentLength } := by
  unfold download
  simp only [waitProbe_of_probeAt w p fuel hp hfuel, clear, he, hs, Bool.false_eq_true,
    if_false, if_true]
  cases waitLoop (totalParts (w.probe p).status (w.probe p).contentLength) w fuel 0
    { bDownloading := true, sLastError := "" } <;> rfl

theorem probeAt_unique (w : World) (p q : Nat) (hp : probeAt w p) (hq : probeAt w q) :
    p = q := by
  rcases Nat.lt_trichotomy p q with h | h | h
  · have := hq.2 p h; simp [hp.1] at this
  · exact h
  · have := hp.2 q h; simp [hq.1] at this

theorem download_some (self : State) (w : World) (t : List Nat) (fuel : Nat) (o : Outcome)
    (h : download self w t fuel = some o) : ∃ p, p < fuel ∧ probeAt w p := by
  unfold download at h
  cases hwp : waitProbe w.probe fuel 0 with
  | none => simp [hwp] at h
  | some r =>
    obtain ⟨p, hp, hat, _⟩ := waitProbe_some_probeAt w fuel r hwp
    exact ⟨p, hp, hat⟩

/-- The three ways in which `download` returns. -/
theorem download_cases (self : State) (w : World) (t : List Nat) (fuel : Nat) (o : Outcome)
    (h : download self w t fuel = some o) :
    ∃ p, p < fuel ∧ probeAt w p ∧
      ((((w.probe p).hasError = true ∨ statusOk (w.probe p).status = false) ∧
        o = { bResult := false, abtTarget := [],
              self := { bDownloading := self.bDownloading,
                        sLastError := failureText (w.probe p) },
              requests := [] }) ∨
       ((w.probe p).hasError = false ∧ statusOk (w.probe p).status = true ∧
        ∃ x, waitLoop (totalParts (w.probe p).status (w.probe p).contentLength) w fuel 0
              { bDownloading := true, sLastError := "" } = some x ∧
          o = { bResult := x.bResult,
                abtTarget := joinLoop x.bResult (w.parts x.poll)
                  (totalParts (w.probe p).status (w.probe p).contentLength) 0 [],
                self := { bDownloading := false, sLastError := x.sLastError },
                requests := partRequests (w.probe p).status (w.probe p).contentLength })) := by
  obtain ⟨p, hp, hat⟩ := download_some self w t fuel o h
  refine ⟨p, hp, hat, ?_⟩
  by_cases hbad : (w.probe p).hasError = true ∨ statusOk (w.probe p).status = false
  · rw [download_probe_failed self w t p fuel hat hp hbad] at h
    exact Or.inl ⟨hbad, by simpa using h.symm⟩
  · have he : (w.probe p).hasError = false := by
      cases hh : (w.probe p).hasError <;> simp [hh] at hbad ⊢
    have hs : statusOk (w.probe p).status = true := by
      cases hh : statusOk (w.probe p).status <;> simp [hh] at hbad ⊢
    rw [download_probe_ok self w t p fuel hat hp he hs] at h
    cases hwl : waitLoop (totalParts (w.probe p).status (w.probe p).contentLength) w fuel 0
        { bDownloading := true, sLastError := "" } with
    | none => simp [hwl] at h
    | some x =>
      rw [hwl] at h
      exact Or.inr ⟨he, hs, x, rfl, by simpa using h.symm⟩

/-! ## More fuel never changes what is returned -/

theorem waitLoop_fuel_succ (N : Nat) (w : World) :
    ∀ fuel j self x, waitLoop N w fuel j self = some x →
      waitLoop N w (fuel + 1) j self = some x := by
  intro fuel
  induction fuel with
  | zero => intro j self x h; simp [waitLoop] at h
  | succ fuel ih =>
    intro j self x h
    rw [waitLoop] at h ⊢
    cases hsc : scanParts N (w.parts j) N 0 0 with
    | success => rw [hsc] at h; exact h
    | failed msg => rw [hsc] at h; exact h
    | completed =>
      rw [hsc] at h
      simp only at h ⊢
      generalize (if w.cancel j = true then cancelDownload self else self) = next at h ⊢
      by_cases hd : next.bDownloading = true
      · rw [if_pos hd] at h ⊢
        exact ih _ _ _ h
      · rw [if_neg hd] at h ⊢
        exact h

theorem waitLoop_fuel_mono (N : Nat) (w : World) (j : Nat) (self : State) (x : WaitExit)
    (fuel : Nat) (h : waitLoop N w fuel j self = some x) :
    ∀ more, waitLoop N w (fuel + more) j self = some x := by
  intro more
  induction more with
  | zero => exact h
  | succ more ih => exact waitLoop_fuel_succ N w (fuel + more) j self x ih

theorem download_fuel_mono (self : State) (w : World) (t : List Nat) (fuel more : Nat)
    (o : Outcome) (h : download self w t fuel = some o) :
    download self w t (fuel + more) = some o := by
  obtain ⟨p, hp, hat, hcase⟩ := download_cases self w t fuel o h
  rcases hcase with ⟨hbad, ho⟩ | ⟨he, hs, x, hx, ho⟩
  · rw [download_probe_failed self w t p (fuel + more) hat (by omega) hbad, ho]
  · rw [download_probe_ok self w t p (fuel + more) hat (by omega) he hs,
      waitLoop_fuel_mono _ w 0 _ x fuel hx more, ho]
    rfl

/-- C9: whenever `download` returns failure, the output buffer is empty, whatever it
held before the call and whatever the parts had delivered. -/
theorem download_failure_empty (self : State) (w : World) (abtTarget : List Nat)
    (fuel : Nat) (o : Outcome) (h : download self w abtTarget fuel = some o)
    (hres : o.bResult = false) : o.abtTarget = [] := by
  obtain ⟨p, _, _, hcase⟩ := download_cases self w abtTarget fuel o h
  rcases hcase with ⟨_, ho⟩ | ⟨_, _, x, _, ho⟩
  · rw [ho]
  · rw [ho] at hres ⊢
    simp only at hres
    simp only [hres, joinLoop_false]

theorem download_failure_empty_witness :
    download State.init worldPartOneFails [9, 9] 1 = some outcomeStatus404 ∧
    outcomeStatus404.abtTarget = [] :=
  ⟨by decide,
   download_failure_empty State.init worldPartOneFails [9, 9] 1 outcomeStatus404
     (by decide) (by decide)⟩

/-! ## Reassembly -/

theorem slices_flatten (R : List Nat) (N S : Nat) (h : PlanFacts R.length N S) :
    ∀ m, m ≤ N →
      ((List.range m).map fun i =>
          slice R (closedRange R.length S i).1 (closedRange R.length S i).2).flatten
        = R.take (min (m * S) R.length) := by
  intro m
  induction m with
  | zero => intro _; simp
  | succ m ih =>
    intro hm
    obtain ⟨h0, hL, h1, hS, hbefore, hcov, hwrap⟩ := h
    have h1 : m * S ≤ (N - 1) * S := Nat.mul_le_mul_right S (by omega)
    have h2 : (m + 1) * S = m * S + S := Nat.succ_mul m S
    rw [List.range_succ, List.map_append, List.flatten_append, ih (by omega)]
    simp only [List.map_cons, List.map_nil, List.flatten_cons, List.flatten_nil,
      List.append_nil, slice, closedRange]
    have ha : min (m * S) R.length = m * S := by omega
    have hb : min ((m + 1) * S) R.length
        = m * S + (min ((m + 1) * S - 1) (R.length - 1) + 1 - m * S) := by omega
    rw [ha, hb, List.take_add]

/-- C2: if every finished part holds the slice of the resource `R` at its assigned
range, then whenever `download` returns success the output buffer, joined in index
order, is `R`, whatever the order in which the parts finished. -/
theorem download_reassembles (self : State) (w : World) (abtTarget : List Nat)
    (fuel : Nat) (o : Outcome) (R : List Nat) (p : Nat)
    (hp : probeAt w p) (hlen : (w.probe p).contentLength = R.length)
    (h0 : 0 < R.length) (hL : R.length < 2 ^ 64)
    (hbody : ∀ j i a b, (partRanges (w.probe p).status R.length)[i]? = some (a, b) →
      (w.parts j i).finished = true → (w.parts j i).body = slice R a b)
    (h : download self w abtTarget fuel = some o) (hres : o.bResult = true) :
    o.abtTarget = R := by
  obtain ⟨q, _, hq, hcase⟩ := download_cases self w abtTarget fuel o h
  have hpq := probeAt_unique w p q hp hq
  subst hpq
  rcases hcase with ⟨_, ho⟩ | ⟨_, _, x, hx, ho⟩
  · rw [ho] at hres; simp at hres
  · rw [hlen] at hx ho
    have hf := planFacts (w.probe p).status R.length h0 hL
    have hclosed := partRanges_eq_closed (w.probe p).status R.length h0 hL
    have hN16 : totalParts (w.probe p).status R.length < 2 ^ 64 := by
      have := (totalParts_bounds (w.probe p).status R.length hL).2
      omega
    generalize totalParts (w.probe p).status R.length = N at hx ho hf hclosed hN16
    generalize partSize R.length N = S at hf hclosed
    obtain ⟨_, _, hexit⟩ := waitLoop_some_pollMade N w _ rfl hf.parts_pos hN16 fuel x hx
    rw [ho] at hres ⊢
    simp only at hres
    rcases hexit with ⟨hall, _, _⟩ | ⟨_, hb⟩ | ⟨_, _, hb, _⟩
    · simp only [hres, joinLoop_true, List.nil_append]
      have hmap : ((List.range' 0 N).map fun i => (w.parts x.poll i).body)
          = (List.range N).map fun i =>
              slice R (closedRange R.length S i).1 (closedRange R.length S i).2 := by
        rw [← List.range_eq_range']
        apply List.map_congr_left
        intro i hi
        have hi := List.mem_range.1 hi
        have hfin : (w.parts x.poll i).finished = true := by
          have := hall i hi
          simp only [partOk, Bool.and_eq_true] at this
          exact this.1.1
        refine hbody x.poll i _ _ ?_ hfin
        rw [hclosed, List.getElem?_map, List.getElem?_range hi]
        rfl
      rw [hmap, slices_flatten R N S hf N (le_refl N)]
      have := hf.covers
      rw [Nat.min_eq_right this, List.take_length]
    · rw [hb] at hres; simp at hres
    · rw [hb] at hres; simp at hres

theorem partRanges_2MiB : partRanges 206 2097152 = [(0, 1048575), (1048576, 2097151)] := by
  decide

theorem resource2MiB_length : resource2MiB.length = 2097152 := by
  simp [resource2MiB]

theorem worldReversed_body (j i a b : Nat)
    (h : (partRanges (worldReversed.probe 0).status resource2MiB.length)[i]? = some (a, b))
    (hfin : (worldReversed.parts j i).finished = true) :
    (worldReversed.parts j i).body = slice resource2MiB a b := by
  have hst : (worldReversed.probe 0).status = 206 := rfl
  rw [hst, resource2MiB_length, partRanges_2MiB] at h
  by_cases hc : i = 1 ∨ 1 ≤ j
  · have hb : (worldReversed.parts j i).body
        = slice resource2MiB (i * 1048576) (i * 1048576 + 1048575) := by
      simp [worldReversed, hc, finishedReply]
    rw [hb]
    match i, h with
    | 0, h => simp at h; rw [← h.1, ← h.2]
    | 1, h => simp at h; rw [← h.1, ← h.2]
    | n + 2, h => simp at h
  · have : (worldReversed.parts j i).finished = false := by
      simp [worldReversed, hc, runningReply]
    rw [this] at hfin
    exact absurd hfin (by decide)

theorem download_reassembles_witness :
    download State.init worldReversed [9] 2 = some outcomeReversed ∧
    outcomeReversed.abtTarget = resource2MiB :=
  ⟨rfl,
   download_reassembles State.init worldReversed [9] 2 outcomeReversed resource2MiB 0
     (by decide) (by rw [resource2MiB_length]; rfl) (by rw [resource2MiB_length]; decide)
     (by rw [resource2MiB_length]; decide) worldReversed_body rfl rfl⟩

theorem unexpectedResponse_ne_empty (code : Nat) : unexpectedResponse code ≠ "" := by
  intro h
  have := congrArg String.length h
  simp only [unexpectedResponse, String.length_append] at this
  have hlen : "Unexpected response code: ".length = 26 := by decide
  have h0 : "".length = 0 := rfl
  omega

theorem failureText_ne_empty (r : Reply) (h : r.hasError = false ∨ r.errorString ≠ "") :
    failureText r ≠ "" := by
  unfold failureText
  cases he : r.hasError
  · simpa using unexpectedResponse_ne_empty r.status
  · rcases h with h | h
    · simp [he] at h
    · simpa using h

/-- The outcome of `download` when the wait loop is left at a poll it makes. -/
theorem download_at_poll (self : State) (w : World) (t : List Nat) (p j fuel : Nat)
    (hp : probeAt w p) (he : (w.probe p).hasError = false)
    (hs : statusOk (w.probe p).status = true)
    (hL : (w.probe p).contentLength < 2 ^ 64)
    (hm : pollMade (totalParts (w.probe p).status (w.probe p).contentLength) w j)
    (hpf : p < fuel) (hjf : j < fuel) :
    (allPartsOk (totalParts (w.probe p).status (w.probe p).contentLength) (w.parts j) →
      download self w t fuel = some
        { bResult := true,
          abtTarget := joinLoop true (w.parts j)
            (totalParts (w.probe p).status (w.probe p).contentLength) 0 [],
          self := { bDownloading := false, sLastError := "" },
          requests := partRequests (w.probe p).status (w.probe p).contentLength }) ∧
    (∀ i, firstFailed (totalParts (w.probe p).status (w.probe p).contentLength) (w.parts j) i →
      download self w t fuel = some
        { bResult := false, abtTarget := [],
          self := { bDownloading := false, sLastError := failureText (w.parts j i) },
          requests := partRequests (w.probe p).status (w.probe p).contentLength }) ∧
    (pollPending (totalParts (w.probe p).status (w.probe p).contentLength) (w.parts j) →
      w.cancel j = true →
      download self w t fuel = some
        { bResult := false, abtTarget := [],
          self := { bDownloading := false, sLastError := "" },
          requests := partRequests (w.probe p).status (w.probe p).contentLength }) := by
  have hb := totalParts_bounds (w.probe p).status (w.probe p).contentLength hL
  have h1 := hb.1
  have hN : totalParts (w.probe p).status (w.probe p).contentLength < 2 ^ 64 := by omega
  rw [download_probe_ok self w t p fuel hp hpf he hs,
    waitLoop_of_pollMade _ w _ rfl h1 hN j fuel hm hjf]
  refine ⟨fun hall => ?_, fun i hi => ?_, fun hpend hc => ?_⟩
  · rw [(poll_success_iff _ _ h1 hN).2 hall]
    rfl
  · rw [(poll_failed_iff _ _ h1 hN _).2 ⟨i, hi, rfl⟩]
    simp [joinLoop_false]
  · rw [(poll_completed_iff _ _ h1 hN).2 hpend]
    simp [hc, joinLoop_false]

/-- C10: if `cancelDownload()` runs in the `processEvents` call after poll `j` of the
wait loop, and no poll up to `j` saw a failed part, then `download` returns without
another poll, with failure, an empty last-error text and an empty buffer, and
`isDownloading()` is false afterwards; the empty text differs from every status
error text and from every non-empty transport error text. -/
theorem download_cancelled (self : State) (w : World) (abtTarget : List Nat)
    (p j fuel : Nat)
    (hp : probeAt w p) (he : (w.probe p).hasError = false)
    (hs : statusOk (w.probe p).status = true)
    (hL : (w.probe p).contentLength < 2 ^ 64)
    (hm : pollMade (totalParts (w.probe p).status (w.probe p).contentLength) w j)
    (hpend : pollPending (totalParts (w.probe p).status (w.probe p).contentLength)
      (w.parts j))
    (hc : w.cancel j = true) (hpf : p < fuel) (hjf : j < fuel) :
    (∃ o, download self w abtTarget fuel = some o ∧ o.bResult = false ∧
      getLastError o.self = "" ∧ isDownloading o.self = false ∧ o.abtTarget = []) ∧
    (∀ code, unexpectedResponse code ≠ "") ∧
    (∀ r : Reply, r.errorString ≠ "" → failureText r ≠ "") := by
  refine ⟨⟨_, (download_at_poll self w abtTarget p j fuel hp he hs hL hm hpf hjf).2.2 hpend hc,
    rfl, rfl, rfl, rfl⟩, unexpectedResponse_ne_empty, fun r hr => ?_⟩
  exact failureText_ne_empty r (Or.inr hr)

theorem download_cancelled_witness :
    (∃ o, download State.init worldCancelled [9] 2 = some o ∧ o.bResult = false ∧
      getLastError o.self = "" ∧ isDownloading o.self = false ∧ o.abtTarget = []) ∧
    (∀ code, unexpectedResponse code ≠ "") ∧
    (∀ r : Reply, r.errorString ≠ "" → failureText r ≠ "") :=
  download_cancelled State.init worldCancelled [9] 0 1 2 (by decide) rfl rfl (by decide)
    (by decide) (by decide) rfl (by decide) (by decide)

theorem exists_firstFailed (N : Nat) (reply : Nat → Reply) (k : Nat) (hk : k < N)
    (hf : partFailed (reply k) = true) : ∃ i, i ≤ k ∧ firstFailed N reply i := by
  have hex : ∃ i, partFailed (reply i) = true := ⟨k, hf⟩
  refine ⟨Nat.find hex, Nat.find_le hf, ?_, Nat.find_spec hex, fun i hi => ?_⟩
  · exact Nat.lt_of_le_of_lt (Nat.find_le hf) hk
  · have := Nat.find_min hex hi
    simpa using this

/-- C7, counterexample: on a download in two parts, the failure of part 0 alone and
the failure of part 1 alone, both with status 404, give the same outcome and the same
error text, so no reading of the reported error tells which part failed. -/
theorem download_error_names_no_part :
    firstFailed 2 (worldOnlyPartZero404.parts 0) 0 ∧
    firstFailed 2 (worldOnlyPartOne404.parts 0) 1 ∧
    download State.init worldOnlyPartZero404 [] 1 = some outcomeStatus404 ∧
    download State.init worldOnlyPartOne404 [] 1 = some outcomeStatus404 ∧
    getLastError outcomeStatus404.self = "Unexpected response code: 404" ∧
    ¬ ∃ partOf : String → Nat,
        (∀ o, download State.init worldOnlyPartZero404 [] 1 = some o →
          partOf (getLastError o.self) = 0) ∧
        (∀ o, download State.init worldOnlyPartOne404 [] 1 = some o →
          partOf (getLastError o.self) = 1) := by
  have hA : download State.init worldOnlyPartZero404 [] 1 = some outcomeStatus404 := by decide
  have hB : download State.init worldOnlyPartOne404 [] 1 = some outcomeStatus404 := by decide
  refine ⟨by decide, by decide, hA, hB, by decide, ?_⟩
  rintro ⟨partOf, h0, h1⟩
  have e0 := h0 _ hA
  have e1 := h1 _ hB
  omega

/-- C7, amended: if a poll that the wait loop makes finds part `k` finished with a
status outside 200..299, `download` returns failure, and the last error is the text
of the lowest-indexed part `i <= k` which that poll finds failed: its transport error
string, or else "Unexpected response code: " followed by its status. -/
theorem download_fails_on_failed_part (self : State) (w : World) (abtTarget : List Nat)
    (p j k fuel : Nat)
    (hp : probeAt w p) (he : (w.probe p).hasError = false)
    (hs : statusOk (w.probe p).status = true)
    (hL : (w.probe p).contentLength < 2 ^ 64)
    (hm : pollMade (totalParts (w.probe p).status (w.probe p).contentLength) w j)
    (hk : k < totalParts (w.probe p).status (w.probe p).contentLength)
    (hfin : (w.parts j k).finished = true)
    (hst : (w.parts j k).status < 200 ∨ 299 < (w.parts j k).status)
    (hpf : p < fuel) (hjf : j < fuel) :
    ∃ o i, download self w abtTarget fuel = some o ∧ o.bResult = false ∧ i ≤ k ∧
      firstFailed (totalParts (w.probe p).status (w.probe p).contentLength) (w.parts j) i ∧
      getLastError o.self =
        (if (w.parts j i).hasError then (w.parts j i).errorString
         else unexpectedResponse (w.parts j i).status) := by
  have hbad : statusOk (w.parts j k).status = false := by
    unfold statusOk
    have h200 : (w.parts j k).status ≠ 200 := by omega
    have h206 : (w.parts j k).status ≠ 206 := by omega
    simp [h200, h206]
  have hfail : partFailed (w.parts j k) = true := by
    simp [partFailed, hfin, hbad]
  obtain ⟨i, hik, hi⟩ := exists_firstFailed _ (w.parts j) k hk hfail
  exact ⟨_, i, (download_at_poll self w abtTarget p j fuel hp he hs hL hm hpf hjf).2.1 i hi,
    rfl, hik, hi, rfl⟩

theorem download_fails_on_failed_part_witness :
    ∃ o i, download State.init worldPartOneFails [9] 1 = some o ∧ o.bResult = false ∧
      i ≤ 1 ∧
      firstFailed (totalParts (worldPartOneFails.probe 0).status
        (worldPartOneFails.probe 0).contentLength) (worldPartOneFails.parts 0) i ∧
      getLastError o.self =
        (if (worldPartOneFails.parts 0 i).hasError then
          (worldPartOneFails.parts 0 i).errorString
         else unexpectedResponse (worldPartOneFails.parts 0 i).status) :=
  download_fails_on_failed_part State.init worldPartOneFails [9] 0 0 1 1
    (by decide) rfl rfl (by decide) (by decide) (by decide) rfl (by decide)
    (by decide) (by decide)

/-- C8, counterexample: a `HEAD` reply with status 404 that also carries a transport
error makes `download` fail with the transport's error string, not with the text for
status 404; and when one poll finds part 0 finished with status 404 and part 1
finished with status 204, the last error is the text for 404, not the one for 204. -/
theorem download_message_not_always_status :
    ((worldProbe404.probe 0).finished = true ∧ (worldProbe404.probe 0).status = 404 ∧
      download State.init worldProbe404 [] 1 = some outcomeProbe404 ∧
      outcomeProbe404.bResult = false ∧
      getLastError outcomeProbe404.self ≠ unexpectedResponse 404) ∧
    ((worldTwoStatuses.parts 0 1).finished = true ∧
      (worldTwoStatuses.parts 0 1).hasError = false ∧
      (worldTwoStatuses.parts 0 1).status = 204 ∧
      download State.init worldTwoStatuses [] 1 = some outcomeStatus404 ∧
      outcomeStatus404.bResult = false ∧
      getLastError outcomeStatus404.self ≠ unexpectedResponse 204) := by
  decide

/-- C8, amended: `download` returns success exactly when the `HEAD` reply finished
without transport error with status 200 or 206 and some poll that the wait loop
makes finds every part finished, without transport error, with status 200 or 206.
A `HEAD` reply that finished without transport error with another status makes it
fail with "Unexpected response code: " followed by that status, and so does the
lowest-indexed failed part a poll finds, when that part has no transport error. -/
theorem download_success_iff (self : State) (w : World) (abtTarget : List Nat)
    (hL : ∀ q, (w.probe q).contentLength < 2 ^ 64) :
    ((∃ fuel o, download self w abtTarget fuel = some o ∧ o.bResult = true) ↔
      ∃ p j, probeAt w p ∧ (w.probe p).hasError = false ∧
        statusOk (w.probe p).status = true ∧
        pollMade (totalParts (w.probe p).status (w.probe p).contentLength) w j ∧
        allPartsOk (totalParts (w.probe p).status (w.probe p).contentLength) (w.parts j)) ∧
    (∀ p fuel, probeAt w p → p < fuel → (w.probe p).hasError = false →
      statusOk (w.probe p).status = false →
      ∃ o, download self w abtTarget fuel = some o ∧ o.bResult = false ∧
        getLastError o.self = unexpectedResponse (w.probe p).status) ∧
    (∀ p j k fuel, probeAt w p → p < fuel → j < fuel → (w.probe p).hasError = false →
      statusOk (w.probe p).status = true →
      pollMade (totalParts (w.probe p).status (w.probe p).contentLength) w j →
      firstFailed (totalParts (w.probe p).status (w.probe p).contentLength) (w.parts j) k →
      (w.parts j k).hasError = false →
      ∃ o, download self w abtTarget fuel = some o ∧ o.bResult = false ∧
        getLastError o.self = unexpectedResponse (w.parts j k).status) := by
  refine ⟨⟨?_, ?_⟩, ?_, ?_⟩
  · rintro ⟨fuel, o, h, hres⟩
    obtain ⟨p, _, hp, hcase⟩ := download_cases self w abtTarget fuel o h
    rcases hcase with ⟨_, ho⟩ | ⟨he, hs, x, hx, ho⟩
    · rw [ho] at hres; simp at hres
    · have hb := totalParts_bounds (w.probe p).status (w.probe p).contentLength (hL p)
      obtain ⟨_, hm, hexit⟩ :=
        waitLoop_some_pollMade _ w _ rfl hb.1 (by omega) fuel x hx
      rw [ho] at hres
      simp only at hres
      rcases hexit with ⟨hall, _, _⟩ | ⟨_, hb⟩ | ⟨_, _, hb, _⟩
      · exact ⟨p, x.poll, hp, he, hs, hm, hall⟩
      · rw [hb] at hres; simp at hres
      · rw [hb] at hres; simp at hres
  · rintro ⟨p, j, hp, he, hs, hm, hall⟩
    exact ⟨max p j + 1, _,
      (download_at_poll self w abtTarget p j (max p j + 1) hp he hs (hL p) hm
        (by omega) (by omega)).1 hall, rfl⟩
  · intro p fuel hp hpf he hs
    refine ⟨_, download_probe_failed self w abtTarget p fuel hp hpf (Or.inr hs), rfl, ?_⟩
    simp [getLastError, failureText, he]
  · intro p j k fuel hp hpf hjf he hs hm hk hek
    refine ⟨_, (download_at_poll self w abtTarget p j fuel hp he hs (hL p) hm hpf hjf).2.1 k hk,
      rfl, ?_⟩
    simp [getLastError, failureText, hek]

theorem download_success_iff_witness :
    (∃ fuel o, download State.init worldReversed [9] fuel = some o ∧ o.bResult = true) ∧
    (∃ o, download State.init worldTwoStatuses [9] 1 = some o ∧ o.bResult = false ∧
      getLastError o.self = unexpectedResponse (worldTwoStatuses.parts 0 0).status) :=
  ⟨(download_success_iff State.init worldReversed [9] (fun _ => show 2097152 < 2 ^ 64 by decide)).1.2
      ⟨0, 1, by decide, rfl, rfl, by decide, by decide⟩,
   (download_success_iff State.init worldTwoStatuses [9] (fun _ => show 2097152 < 2 ^ 64 by decide)).2.2
      0 0 0 1 (by decide) (by decide) (by decide) rfl rfl (by decide) (by decide) rfl⟩


/-! ## The progress lambda -/

theorem totalProgress_eq (p : Nat → Nat) :
    ∀ n k total, total + ((List.range' k n).map p).sum < 2 ^ 64 →
      totalProgress p n k total = total + ((List.range' k n).map p).sum := by
  intro n
  induction n with
  | zero => intro k total _; simp [totalProgress]
  | succ n ih =>
    intro k total h
    simp only [List.range'_succ, List.map_cons, List.sum_cons] at h ⊢
    have hadd : u64Add total (p k) = total + p k := by
      unfold u64Add u64Size; omega
    rw [totalProgress, hadd, ih (k + 1) (total + p k) (by omega)]
    omega

theorem totalProgress_exact (N : Nat) (p : Nat → Nat) (h : exactProgress N p < 2 ^ 64) :
    totalProgress p N 0 0 = exactProgress N p := by
  unfold exactProgress at h ⊢
  rw [List.range_eq_range'] at h ⊢
  rw [totalProgress_eq p N 0 0 (by omega)]
  omega

theorem exactProgress_mono (p q : Nat → Nat) (h : ∀ k, p k ≤ q k) :
    ∀ N, exactProgress N p ≤ exactProgress N q := by
  intro N
  induction N with
  | zero => simp [exactProgress]
  | succ N ih =>
    unfold exactProgress at ih ⊢
    simp only [List.range_succ, List.map_append, List.sum_append, List.map_cons, List.map_nil,
      List.sum_cons, List.sum_nil]
    have := h N
    omega

theorem exactProgress_lt (p : Nat → Nat) (B : Nat) (h : ∀ k, p k < B) :
    ∀ N, exactProgress N p ≤ N * (B - 1) := by
  intro N
  induction N with
  | zero => simp [exactProgress]
  | succ N ih =>
    unfold exactProgress at ih ⊢
    simp only [List.range_succ, List.map_append, List.sum_append, List.map_cons, List.map_nil,
      List.sum_cons, List.sum_nil]
    have := h N
    have : (N + 1) * (B - 1) = N * (B - 1) + (B - 1) := Nat.succ_mul N (B - 1)
    omega
/-- The run invariant behind the monotone aggregate. -/
theorem progress_fold_sorted (N L : Nat) (hN : N ≤ 16) :
    ∀ (signals : List ProgressSignal) (st : ProgressState),
      (∀ s ∈ signals, s.bytesReceived < 2 ^ 60) →
      signals.Pairwise (fun a b => a.index = b.index → a.bytesReceived ≤ b.bytesReceived) →
      (∀ k, st.ui64Progress k < 2 ^ 60) →
      (∀ s ∈ signals, st.ui64Progress s.index ≤ s.bytesReceived) →
      (st.calls.map Prod.fst).Pairwise (fun a b => a ≤ b) →
      (∀ c ∈ st.calls, c.1 ≤ exactProgress N st.ui64Progress) →
      (((signals.foldl (onDownloadProgress N L true) st).calls).map Prod.fst).Pairwise
        (fun a b => a ≤ b) := by
  intro signals
  induction signals with
  | nil => intro st _ _ _ _ hs _; exact hs
  | cons s rest ih =>
    intro st hb hp hlt hle hs hc
    rw [List.foldl_cons]
    have hs60 := hb s (List.mem_cons_self s rest)
    have hold := hle s (List.mem_cons_self s rest)
    have hnew : ∀ k, Function.update st.ui64Progress s.index s.bytesReceived k < 2 ^ 60 := by
      intro k
      by_cases hk : k = s.index
      · subst hk; simpa using hs60
      · simpa [Function.update_noteq hk] using hlt k
    have hge : ∀ k, st.ui64Progress k ≤
        Function.update st.ui64Progress s.index s.bytesReceived k := by
      intro k
      by_cases hk : k = s.index
      · subst hk; simpa using hold
      · simp [Function.update_noteq hk]
    have hsum := exactProgress_mono _ _ hge N
    have hbound := exactProgress_lt _ (2 ^ 60) hnew N
    have htot : totalProgress (Function.update st.ui64Progress s.index s.bytesReceived) N 0 0
        = exactProgress N (Function.update st.ui64Progress s.index s.bytesReceived) := by
      apply totalProgress_exact
      have : N * (2 ^ 60 - 1) ≤ 16 * (2 ^ 60 - 1) := Nat.mul_le_mul_right _ hN
      omega
    apply ih
    · exact fun t ht => hb t (List.mem_cons_of_mem s ht)
    · exact (List.pairwise_cons.1 hp).2
    · exact hnew
    · intro t ht
      simp only [onDownloadProgress]
      by_cases hk : t.index = s.index
      · rw [hk, Function.update_same]
        exact (List.pairwise_cons.1 hp).1 t ht hk.symm
      · rw [Function.update_noteq hk]
        exact hle t (List.mem_cons_of_mem s ht)
    · simp only [onDownloadProgress, if_true, List.map_append, List.map_cons, List.map_nil]
      rw [List.pairwise_append]
      refine ⟨hs, List.pairwise_singleton _ _, ?_⟩
      intro a ha b hb'
      simp only [List.mem_singleton] at hb'
      obtain ⟨c, hcm, rfl⟩ := List.mem_map.1 ha
      rw [hb', htot]
      exact le_trans (hc c hcm) hsum
    · intro c hcm
      simp only [onDownloadProgress, if_true, List.mem_append, List.mem_singleton] at hcm ⊢
      rcases hcm with hcm | rfl
      · exact le_trans (hc c hcm) hsum
      · simp only [htot]; exact le_refl _

/-- C11: on a progress signal of part `i` with `b` received bytes the lambda sets
counter `i` to `b` and leaves every other counter as it was; with a callback it makes
one more call, with the sum of the `N` counters (the exact sum whenever that is below
`2 ^ 64`) and the content length, and without a callback none. Hence, for at most 16
parts whose reported counts never decrease and stay below `2 ^ 60`, the aggregates
passed to the callback never decrease. -/
theorem progress_callback (N L : Nat) (hasCallback : Bool) (st : ProgressState)
    (signal : ProgressSignal) :
    (onDownloadProgress N L hasCallback st signal).ui64Progress signal.index
      = signal.bytesReceived ∧
    (∀ k, k ≠ signal.index →
      (onDownloadProgress N L hasCallback st signal).ui64Progress k = st.ui64Progress k) ∧
    (onDownloadProgress N L hasCallback st signal).calls =
      (if hasCallback then
        st.calls ++ [(totalProgress
          (onDownloadProgress N L hasCallback st signal).ui64Progress N 0 0, L)]
       else st.calls) ∧
    (exactProgress N (onDownloadProgress N L hasCallback st signal).ui64Progress < 2 ^ 64 →
      totalProgress (onDownloadProgress N L hasCallback st signal).ui64Progress N 0 0
        = exactProgress N (onDownloadProgress N L hasCallback st signal).ui64Progress) ∧
    (∀ signals : List ProgressSignal, N ≤ 16 →
      (∀ s ∈ signals, s.bytesReceived < 2 ^ 60) →
      signals.Pairwise (fun a b => a.index = b.index → a.bytesReceived ≤ b.bytesReceived) →
      ((progressRun N L true signals).calls.map Prod.fst).Pairwise (fun a b => a ≤ b)) := by
  refine ⟨by simp [onDownloadProgress], ?_, by rfl, totalProgress_exact N _, ?_⟩
  · intro k hk
    simp [onDownloadProgress, Function.update_noteq hk]
  · intro signals hN hb hp
    exact progress_fold_sorted N L hN signals ProgressState.init hb hp
      (fun _ => by simp [ProgressState.init])
      (fun s _ => by simp [ProgressState.init])
      (by simp [ProgressState.init])
      (by simp [ProgressState.init])

theorem progress_callback_witness :
    (progressRun 2 100 true [⟨0, 10⟩, ⟨1, 5⟩, ⟨0, 20⟩]).calls = [(10, 100), (15, 100), (25, 100)] ∧
    ((progressRun 2 100 true [⟨0, 10⟩, ⟨1, 5⟩, ⟨0, 20⟩]).calls.map Prod.fst).Pairwise
      (fun a b => a ≤ b) :=
  ⟨by decide,
   (progress_callback 2 100 true ProgressState.init ⟨0, 0⟩).2.2.2.2
     [⟨0, 10⟩, ⟨1, 5⟩, ⟨0, 20⟩] (by decide) (by decide) (by decide)⟩


/-! ## The documented minimum part size -/

/-- C25, at a failing input: a range-capable download of 1 MiB + 1 bytes is split into
two parts, of 524289 and 524288 bytes, both below `MPD_MIN_DOWNLOAD_PART_SIZE`. -/
theorem partRanges_below_minimum :
    totalParts 206 1048577 = 2 ∧
    partRanges 206 1048577 = [(0, 524288), (524289, 1048576)] ∧
    ∀ r ∈ partRanges 206 1048577, r.2 + 1 - r.1 < MPD_MIN_DOWNLOAD_PART_SIZE := by
  decide

/-! ## Wrap-around against exact integers -/

theorem exactTotalParts_eq (L : Nat) (h0 : 0 < L) (hL : L < 2 ^ 64) :
    exactTotalParts L = totalParts 206 L := by
  have hr : bRanged 206 L = true := by simp [bRanged]; omega
  rw [totalParts_of_ranged 206 L hr hL]
  unfold exactTotalParts MPD_MAX_DOWNLOAD_PARTS MPD_MIN_DOWNLOAD_PART_SIZE
  simp only [ne_eq, ite_not]
  split <;> split <;> omega

theorem exactPartSize_eq (L N : Nat) (hN : 1 ≤ N) (hN16 : N ≤ 16) (hL : L < 2 ^ 64) :
    exactPartSize L N = partSize L N := by
  rw [partSize_eq_ceil L N hN hN16 hL]
  unfold exactPartSize
  simp only [ne_eq, ite_not]
  interval_cases N <;> split <;> omega

theorem exactLaunch_closed (L S : Nat) (hS : 0 < S) (h0 : 0 < L) :
    ∀ n k : Nat, exactLaunch L S n ((k * S : Nat) : Int)
      = (List.range' k n).map
          (fun i => (((closedRange L S i).1 : Int), ((closedRange L S i).2 : Int))) := by
  intro n
  induction n with
  | zero => intro k; rfl
  | succ n ih =>
    intro k
    have hk1 : (k + 1) * S = k * S + S := Nat.succ_mul k S
    have hnext : ((k * S : Nat) : Int) + (S : Int) = (((k + 1) * S : Nat) : Int) := by
      rw [hk1]; push_cast; ring
    simp only [exactLaunch, List.range'_succ, List.map_cons, closedRange]
    rw [hnext, ih (k + 1)]
    congr 1
    rw [hk1]
    refine Prod.ext rfl ?_
    simp only
    split <;> omega

theorem wrap_only_last (L N S i : Nat) (h1 : 1 ≤ L) (hL : L < 2 ^ 64)
    (hN : N = min 16 ((L + 1048575) / 1048576)) (hS : S = (L + N - 1) / N) (hi : i < N) :
    (2 ^ 64 ≤ i * S + S ↔ (i = 15 ∧ 2 ^ 64 - 16 < L)) := by
  have hN1 : 1 ≤ N := by omega
  have hN16 : N ≤ 16 := by omega
  interval_cases N <;> interval_cases i <;> omega

/-- C28: for a range-capable download of `1 ≤ L ≤ 2 ^ 64 - 1` bytes the part ranges
computed with `quint64` wrap-around arithmetic are the ranges computed with exact
integers; `ui64Start + ui64PartSize` reaches `2 ^ 64` only for part 15 of 16 and
only when `L > 2 ^ 64 - 16`, and there the sum wraps to 0, the `- 1` that follows
gives `2 ^ 64 - 1`, and the clamp gives `L - 1`. -/
theorem partRanges_no_overflow (L : Nat) (h1 : 1 ≤ L) (hL : L ≤ 2 ^ 64 - 1) :
    totalParts 206 L = exactTotalParts L ∧
    partSize L (totalParts 206 L) = exactPartSize L (exactTotalParts L) ∧
    (partRanges 206 L).map (fun r => ((r.1 : Int), (r.2 : Int))) = exactRanges L ∧
    (∀ i, i < totalParts 206 L →
      ∃ r, (partRanges 206 L)[i]? = some r ∧
        r.1 = i * partSize L (totalParts 206 L) ∧
        (2 ^ 64 ≤ r.1 + partSize L (totalParts 206 L) ↔ (i = 15 ∧ 2 ^ 64 - 16 < L))) ∧
    (2 ^ 64 - 16 < L →
      totalParts 206 L = 16 ∧
      15 * partSize L 16 + partSize L 16 = 2 ^ 64 ∧
      u64Add (15 * partSize L 16) (partSize L 16) = 0 ∧
      u64Sub (u64Add (15 * partSize L 16) (partSize L 16)) 1 = 2 ^ 64 - 1 ∧
      partEnd L (partSize L 16) (15 * partSize L 16) = L - 1) := by
  have hL' : L < 2 ^ 64 := by omega
  have hr : bRanged 206 L = true := by simp [bRanged]; omega
  have hN := totalParts_of_ranged 206 L hr hL'
  have hb := totalParts_bounds 206 L hL'
  have hS := partSize_eq_ceil L _ hb.1 hb.2 hL'
  have hpf := planFacts 206 L h1 hL'
  refine ⟨(exactTotalParts_eq L h1 hL').symm, ?_, ?_, ?_, ?_⟩
  · rw [exactTotalParts_eq L h1 hL', exactPartSize_eq L _ hb.1 hb.2 hL']
  · rw [partRanges_eq_closed 206 L h1 hL', exactRanges, exactTotalParts_eq L h1 hL',
      exactPartSize_eq L _ hb.1 hb.2 hL']
    have := exactLaunch_closed L (partSize L (totalParts 206 L)) hpf.size_pos h1
      (totalParts 206 L) 0
    simp only [Nat.zero_mul, Nat.cast_zero] at this
    rw [this, List.map_map, List.range_eq_range']
    rfl
  · intro i hi
    refine ⟨closedRange L (partSize L (totalParts 206 L)) i, ?_, rfl, ?_⟩
    · rw [partRanges_eq_closed 206 L h1 hL', List.getElem?_map, List.getElem?_range hi]
      rfl
    · exact wrap_only_last L _ _ i h1 hL' hN hS hi
  · intro hbig
    have hN16 : totalParts 206 L = 16 := by omega
    have hS16 : partSize L 16 = (L + 16 - 1) / 16 := partSize_eq_ceil L 16 (by omega) (by omega) hL'
    refine ⟨hN16, by omega, ?_, ?_, ?_⟩
    · unfold u64Add u64Size; omega
    · unfold u64Sub u64Add u64Size; omega
    · unfold partEnd u64Sub u64Add u64Size
      simp only []
      split <;> omega

theorem partRanges_no_overflow_witness :
    totalParts 206 (2 ^ 64 - 1) = exactTotalParts (2 ^ 64 - 1) ∧
    partSize (2 ^ 64 - 1) (totalParts 206 (2 ^ 64 - 1))
      = exactPartSize (2 ^ 64 - 1) (exactTotalParts (2 ^ 64 - 1)) ∧
    (partRanges 206 (2 ^ 64 - 1)).map (fun r => ((r.1 : Int), (r.2 : Int)))
      = exactRanges (2 ^ 64 - 1) ∧
    (∀ i, i < totalParts 206 (2 ^ 64 - 1) →
      ∃ r, (partRanges 206 (2 ^ 64 - 1))[i]? = some r ∧
        r.1 = i * partSize (2 ^ 64 - 1) (totalParts 206 (2 ^ 64 - 1)) ∧
        (2 ^ 64 ≤ r.1 + partSize (2 ^ 64 - 1) (totalParts 206 (2 ^ 64 - 1))
          ↔ (i = 15 ∧ 2 ^ 64 - 16 < 2 ^ 64 - 1))) ∧
    (2 ^ 64 - 16 < 2 ^ 64 - 1 →
      totalParts 206 (2 ^ 64 - 1) = 16 ∧
      15 * partSize (2 ^ 64 - 1) 16 + partSize (2 ^ 64 - 1) 16 = 2 ^ 64 ∧
      u64Add (15 * partSize (2 ^ 64 - 1) 16) (partSize (2 ^ 64 - 1) 16) = 0 ∧
      u64Sub (u64Add (15 * partSize (2 ^ 64 - 1) 16) (partSize (2 ^ 64 - 1) 16)) 1
        = 2 ^ 64 - 1 ∧
      partEnd (2 ^ 64 - 1) (partSize (2 ^ 64 - 1) 16) (15 * partSize (2 ^ 64 - 1) 16)
        = 2 ^ 64 - 1 - 1) :=
  partRanges_no_overflow (2 ^ 64 - 1) (by decide) (by decide)

/-! ## The last-error text tells a cancelled download from a failed one -/

theorem failureText_of_text (r : Reply) (h : r.hasError = true → r.errorString ≠ "") :
    failureText r ≠ "" := by
  cases he : r.hasError
  · exact failureText_ne_empty r (Or.inl he)
  · exact failureText_ne_empty r (Or.inr (h he))

/-- C30: in a world whose transport errors all carry a non-empty text, a call of
`download` that returns success leaves an empty last-error text; one that returns
failure leaves an empty last-error text exactly when its wait loop was ended by
`cancelDownload()`; a failed `HEAD` probe and a failed part seen by a poll each
make it return failure with a non-empty text. -/
theorem download_error_text (self : State) (w : World) (abtTarget : List Nat) (fuel : Nat)
    (o : Outcome) (hw : ErrorsHaveText w)
    (hlen : ∀ t, (w.probe t).contentLength < 2 ^ 64)
    (h : download self w abtTarget fuel = some o) :
    (o.bResult = true → getLastError o.self = "") ∧
    (o.bResult = false → (getLastError o.self = "" ↔ EndedByCancel w)) ∧
    (∀ p, probeAt w p →
      ((w.probe p).hasError = true ∨ statusOk (w.probe p).status = false) →
      o.bResult = false ∧ getLastError o.self ≠ "") ∧
    (∀ p j i, probeAt w p → (w.probe p).hasError = false →
      statusOk (w.probe p).status = true →
      pollMade (totalParts (w.probe p).status (w.probe p).contentLength) w j →
      firstFailed (totalParts (w.probe p).status (w.probe p).contentLength) (w.parts j) i →
      o.bResult = false ∧ getLastError o.self ≠ "") := by
  have hmono := fun more => download_fuel_mono self w abtTarget fuel more o h
  obtain ⟨p, hp, hat, hcase⟩ := download_cases self w abtTarget fuel o h
  have hb := totalParts_bounds (w.probe p).status (w.probe p).contentLength (hlen p)
  have hN : totalParts (w.probe p).status (w.probe p).contentLength < 2 ^ 64 := by omega
  refine ⟨?_, ?_, ?_, ?_⟩
  · intro hres
    rcases hcase with ⟨_, ho⟩ | ⟨_, _, x, hx, ho⟩
    · rw [ho] at hres; simp at hres
    · obtain ⟨_, _, hexit⟩ := waitLoop_some_pollMade _ w _ rfl hb.1 hN fuel x hx
      rw [ho] at hres ⊢
      simp only at hres
      rcases hexit with ⟨_, _, hc⟩ | ⟨_, hb'⟩ | ⟨_, _, hb', _⟩
      · simpa [getLastError] using hc
      · rw [hb'] at hres; simp at hres
      · rw [hb'] at hres; simp at hres
  · intro hres
    constructor
    · intro hempty
      rcases hcase with ⟨_, ho⟩ | ⟨he, hs, x, hx, ho⟩
      · rw [ho] at hempty
        exact absurd hempty (failureText_of_text _ (hw.1 p))
      · obtain ⟨_, hmade, hexit⟩ := waitLoop_some_pollMade _ w _ rfl hb.1 hN fuel x hx
        rw [ho] at hres hempty
        simp only [getLastError] at hres hempty
        rcases hexit with ⟨_, hb', _⟩ | ⟨⟨i, _, hmsg⟩, _⟩ | ⟨hpend, hc, _, _⟩
        · rw [hb'] at hres; simp at hres
        · rw [hmsg] at hempty
          exact absurd hempty (failureText_of_text _ (hw.2 x.poll i))
        · exact ⟨p, x.poll, hat, he, hs, hmade, hpend, hc⟩
    · rintro ⟨q, j, hq, he, hs, hmade, hpend, hc⟩
      have hthis := (download_at_poll self w abtTarget q j (fuel + (q + j + 1)) hq he hs
        (hlen q) hmade (by omega) (by omega)).2.2 hpend hc
      rw [hmono (q + j + 1)] at hthis
      simp only [Option.some.injEq] at hthis
      rw [hthis]
      rfl
  · intro q hq hbad
    have hthis := download_probe_failed self w abtTarget q (fuel + (q + 1)) hq (by omega) hbad
    rw [hmono (q + 1)] at hthis
    simp only [Option.some.injEq] at hthis
    rw [hthis]
    exact ⟨rfl, failureText_of_text _ (hw.1 q)⟩
  · intro q j i hq he hs hmade hfail
    have hthis := (download_at_poll self w abtTarget q j (fuel + (q + j + 1)) hq he hs
      (hlen q) hmade (by omega) (by omega)).2.1 i hfail
    rw [hmono (q + j + 1)] at hthis
    simp only [Option.some.injEq] at hthis
    rw [hthis]
    exact ⟨rfl, failureText_of_text _ (hw.2 j i)⟩

theorem errorsHaveText_worldCancelled : ErrorsHaveText worldCancelled :=
  ⟨fun _ h => by simp [worldCancelled, finishedReply] at h,
   fun j k h => by
     by_cases hk : k = 0 <;> simp [worldCancelled, finishedReply, runningReply, hk] at h⟩

theorem download_error_text_witness :
    ErrorsHaveText worldCancelled ∧
    download State.init worldCancelled [9] 2 = some outcomeCancelled ∧
    (outcomeCancelled.bResult = true → getLastError outcomeCancelled.self = "") ∧
    (outcomeCancelled.bResult = false →
      (getLastError outcomeCancelled.self = "" ↔ EndedByCancel worldCancelled)) ∧
    (∀ p, probeAt worldCancelled p →
      ((worldCancelled.probe p).hasError = true ∨
        statusOk (worldCancelled.probe p).status = false) →
      outcomeCancelled.bResult = false ∧ getLastError outcomeCancelled.self ≠ "") ∧
    (∀ p j i, probeAt worldCancelled p → (worldCancelled.probe p).hasError = false →
      statusOk (worldCancelled.probe p).status = true →
      pollMade (totalParts (worldCancelled.probe p).status
        (worldCancelled.probe p).contentLength) worldCancelled j →
      firstFailed (totalParts (worldCancelled.probe p).status
        (worldCancelled.probe p).contentLength) (worldCancelled.parts j) i →
      outcomeCancelled.bResult = false ∧ getLastError outcomeCancelled.self ≠ "") :=
  ⟨errorsHaveText_worldCancelled, by decide,
   download_error_text State.init worldCancelled [9] 2 outcomeCancelled
     errorsHaveText_worldCancelled (fun _ => (by decide : (2097152 : Nat) < 2 ^ 64)) (by decide)⟩

end MPDownloader

namespace IEEE

/-! ## Small whole numbers are `float` values -/

theorem bitLength_spec :
    ∀ fuel n, n ≤ fuel →
      n < 2 ^ bitLength fuel n ∧ (0 < n → 2 ^ (bitLength fuel n - 1) ≤ n) := by
  intro fuel
  induction fuel with
  | zero =>
    intro n hn
    have : n = 0 := by omega
    subst this
    simp [bitLength]
  | succ fuel ih =>
    intro n hn
    rw [bitLength]
    by_cases h0 : n = 0
    · subst h0; simp
    · rw [if_neg h0]
      obtain ⟨h1, h2⟩ := ih (n / 2) (by omega)
      have hp : 2 ^ (bitLength fuel (n / 2) + 1) = 2 * 2 ^ bitLength fuel (n / 2) := by
        rw [Nat.pow_succ, Nat.mul_comm]
      refine ⟨by omega, fun _ => ?_⟩
      simp only [Nat.add_sub_cancel]
      by_cases hh : n / 2 = 0
      · rw [hh]
        have : bitLength fuel 0 = 0 := by cases fuel <;> simp [bitLength]
        rw [this]
        simp
        omega
      · have h3 := h2 (by omega)
        have hb : 1 ≤ bitLength fuel (n / 2) := by
          by_contra hcon
          have hz : bitLength fuel (n / 2) = 0 := by omega
          rw [hz] at h1
          simp at h1
          exact hh h1
        obtain ⟨m, hm⟩ : ∃ m, bitLength fuel (n / 2) = m + 1 :=
          ⟨bitLength fuel (n / 2) - 1, by omega⟩
        rw [hm] at h3 ⊢
        simp only [Nat.add_sub_cancel] at h3
        rw [Nat.pow_succ]
        omega

theorem log2_spec (n : Nat) (h : 0 < n) : 2 ^ log2 n ≤ n ∧ n < 2 ^ (log2 n + 1) := by
  obtain ⟨h1, h2⟩ := bitLength_spec n n (le_refl n)
  have hb : 1 ≤ bitLength n n := by
    by_contra hcon
    have hz : bitLength n n = 0 := by omega
    rw [hz] at h1
    simp at h1
    omega
  unfold log2
  refine ⟨h2 h, ?_⟩
  rw [Nat.sub_add_cancel hb]
  exact h1

theorem exponent_one (n : Nat) (h : 0 < n) : exponent n 1 = log2 n := by
  have h1 : log2 1 = 0 := by decide
  unfold exponent
  rw [h1]
  simp only [Nat.zero_le, if_true, Nat.sub_zero, Nat.one_mul, (log2_spec n h).1,
    Nat.cast_zero, sub_zero]

theorem roundRatio_one (n : Nat) : roundRatio n 1 = n := by
  unfold roundRatio
  simp [Nat.mod_one]

/-- A whole number up to `2 ^ 24` is a `float` value: the conversion of a `uint`
of that size to `float` is exact. -/
theorem toFloat_natCast (n : Nat) (h : n ≤ 2 ^ 24) : toFloat (n : ℚ) = n := by
  unfold toFloat roundBits
  rcases Nat.eq_zero_or_pos n with h0 | h0
  · subst h0; simp
  · have hne : ((n : ℚ)) ≠ 0 := by exact_mod_cast (by omega : n ≠ 0)
    have hpos : (0 : ℚ) < n := by exact_mod_cast h0
    rw [if_neg hne, if_pos hpos]
    simp only [Rat.num_natCast, Int.natAbs_ofNat, Rat.den_natCast]
    unfold roundMagnitude
    rw [exponent_one n h0]
    obtain ⟨hlo, hhi⟩ := log2_spec n h0
    by_cases he : (log2 n : Int) ≤ ((24 : Nat) : Int) - 1
    · rw [if_pos he, roundRatio_one]
      have hpow : ((2 ^ (((24 : Nat) : Int) - 1 - (log2 n : Int)).toNat : Nat) : ℚ) ≠ 0 := by
        exact_mod_cast (Nat.pos_pow_of_pos _ (by decide)).ne'
      push_cast
      push_cast at hpow
      field_simp
    · have he' : 24 ≤ log2 n := by omega
      have h2 : 2 ^ 24 ≤ 2 ^ log2 n := Nat.pow_le_pow_right (by decide) he'
      have hn : n = 2 ^ 24 := by omega
      subst hn
      decide!

end IEEE

namespace AVTools

/-! ## The copy loop -/

theorem copyLoop_spec (lib : Lib) (hlib : LibOk lib) (streams : List AVStream)
    (fStartTime fEndTime : ℚ) :
    ∀ (pks : List AVPacket) (st : CopyState),
      ∃ st', copyLoop lib streams fStartTime fEndTime (pks.map Frame.packet) st
          = Copied.done st' ∧
        st'.read = st.read ++ readUpTo streams fEndTime pks st.fLastTime ∧
        st'.written = st.written ++
          writeAll lib streams fStartTime fEndTime
            ((readUpTo streams fEndTime pks st.fLastTime).filter (inWindow streams fEndTime))
            st.i64StartDTS := by
  intro pks
  induction pks with
  | nil =>
    intro st
    refine ⟨{ st with iError := AVERROR_EOF }, ?_, by simp [readUpTo], by simp [readUpTo, writeAll]⟩
    unfold copyLoop
    simp [hlib.packet_alloc]
  | cons pk rest ih =>
    intro st
    unfold copyLoop
    simp only [List.map_cons, hlib.packet_alloc, Bool.not_true, Bool.false_eq_true, if_false]
    have hw : ¬ (0 > lib.av_interleaved_write_frame st.written.length) := by
      have := hlib.write_frame st.written.length
      omega
    have hlast : Function.update st.fLastTime pk.stream_index
        (lastTime (streamAt streams pk.stream_index).time_base pk.pts)
          = lastSeen streams st.fLastTime pk := rfl
    simp only [hlast]
    have hsame : lastSeen streams st.fLastTime pk pk.stream_index = seconds streams pk := by
      simp [lastSeen]
    by_cases hk : fEndTime = 0 ∨ seconds streams pk ≤ fEndTime
    · have hin : inWindow streams fEndTime pk = true := by simp [inWindow, hk]
      simp only [hsame, hk, if_true, hw, if_false]
      by_cases hend : endScan fEndTime (lastSeen streams st.fLastTime pk) streams.length 0
          = streams.length
      · simp only [hend, if_true]
        refine ⟨_, rfl, ?_, ?_⟩
        · simp [readUpTo, hend]
        · simp [readUpTo, hend, hin, writeAll, startDTSAfter]
      · simp only [hend, if_false]
        obtain ⟨st', h1, h2, h3⟩ := ih
          { i64StartDTS := startDTSAfter st.i64StartDTS pk,
            fLastTime := lastSeen streams st.fLastTime pk,
            read := st.read ++ [pk],
            written := st.written ++
              [retime lib streams fStartTime fEndTime (startDTSAfter st.i64StartDTS pk) pk],
            iError := lib.av_interleaved_write_frame st.written.length }
        refine ⟨st', h1, ?_, ?_⟩
        · rw [h2]; simp [readUpTo, hend]
        · rw [h3]; simp [readUpTo, hend, hin, writeAll]
    · have hin : inWindow streams fEndTime pk = false := by simp [inWindow, hk]
      simp only [hsame, hk, if_false]
      by_cases hend : endScan fEndTime (lastSeen streams st.fLastTime pk) streams.length 0
          = streams.length
      · simp only [hend, if_true]
        refine ⟨_, rfl, ?_, ?_⟩
        · simp [readUpTo, hend]
        · simp [readUpTo, hend, hin, writeAll]
      · simp only [hend, if_false]
        obtain ⟨st', h1, h2, h3⟩ := ih
          { i64StartDTS := st.i64StartDTS,
            fLastTime := lastSeen streams st.fLastTime pk,
            read := st.read ++ [pk],
            written := st.written,
            iError := 0 }
        refine ⟨st', h1, ?_, ?_⟩
        · rw [h2]; simp [readUpTo, hend]
        · rw [h3]; simp [readUpTo, hend, hin]


theorem createStreams_spec (lib : Lib) (hlib : LibOk lib) :
    ∀ (streams : List AVStream) (k : Nat) (outStreams : List AVStream) (iError : Int),
      ∃ e, createStreams lib streams k outStreams iError
        = Created.done (outStreams ++ outStreamsFor lib streams k) e := by
  intro streams
  induction streams with
  | nil => intro k outs e; exact ⟨e, by simp [createStreams, outStreamsFor]⟩
  | cons stIn rest ih =>
    intro k outs e
    have hc : ¬ (0 > lib.avcodec_parameters_copy k) := by
      have := hlib.parameters_copy k
      omega
    obtain ⟨e', h⟩ := ih (k + 1)
      (outs ++ [newStream lib k { stIn.codecpar with codec_tag := 0 }])
      (lib.avcodec_parameters_copy k)
    refine ⟨e', ?_⟩
    simp only [createStreams, hlib.new_stream, Bool.not_true, Bool.false_eq_true, if_false, hc]
    rw [h]
    simp [outStreamsFor]

theorem outStreamsFor_length (lib : Lib) :
    ∀ (streams : List AVStream) (k : Nat), (outStreamsFor lib streams k).length = streams.length := by
  intro streams
  induction streams with
  | nil => intro k; rfl
  | cons st rest ih => intro k; simp [outStreamsFor, ih]

theorem outStreamsFor_getElem? (lib : Lib) :
    ∀ (streams : List AVStream) (k i : Nat),
      (outStreamsFor lib streams k)[i]? =
        (streams[i]?).map fun stIn =>
          newStream lib (k + i) { stIn.codecpar with codec_tag := 0 } := by
  intro streams
  induction streams with
  | nil => intro k i; simp [outStreamsFor]
  | cons st rest ih =>
    intro k i
    cases i with
    | zero => simp [outStreamsFor]
    | succ i =>
      simp only [outStreamsFor, List.getElem?_cons_succ, ih]
      have : k + 1 + i = k + (i + 1) := by omega
      rw [this]

/-- A run of `saveAs` in which every library call succeeds. -/
theorem saveAs_ok (lib : Lib) (hlib : LibOk lib) (sIn : Demuxer) (pks : List AVPacket)
    (hy : Yields sIn pks) (fStartTime fEndTime : ℚ) (hv : ValidWindow fStartTime fEndTime) :
    saveAs lib sIn fStartTime fEndTime =
      { bResult := true, sLastError := "", inputsOpened := 1,
        outputOpened := !lib.AVFMT_NOFILE,
        outStreams := outStreamsFor lib sIn.streams 0,
        read := readUpTo sIn.streams fEndTime pks (fun _ => 0),
        written := writeAll lib sIn.streams fStartTime fEndTime
          ((readUpTo sIn.streams fEndTime pks (fun _ => 0)).filter
            (inWindow sIn.streams fEndTime))
          (fun _ => AV_NOPTS_VALUE) } := by
  obtain ⟨e, hcs⟩ := createStreams_spec lib hlib sIn.streams 0 []
    lib.avformat_alloc_output_context2
  obtain ⟨st', hcl, hread, hwritten⟩ := copyLoop_spec lib hlib sIn.streams fStartTime fEndTime
    pks { i64StartDTS := fun _ => AV_NOPTS_VALUE, fLastTime := fun _ => 0, read := [],
          written := [], iError := lib.avformat_write_header }
  have h1 : ¬ (0 > lib.avformat_open_input 0) := by have := hlib.open_input 0; omega
  have h2 : ¬ (0 > lib.avformat_find_stream_info 0) := by
    have := hlib.find_stream_info 0; omega
  have h3 : ¬ (0 > lib.avformat_alloc_output_context2) := by have := hlib.alloc_output; omega
  have h4 : ¬ (0 > lib.avio_open) := by have := hlib.avio_open; omega
  have h5 : ¬ (0 > lib.av_seek_frame) := by have := hlib.seek_frame; omega
  have h6 : ¬ (0 > lib.avformat_write_header) := by have := hlib.write_header; omega
  have h7 : ¬ (0 > lib.av_write_trailer) := by have := hlib.write_trailer; omega
  unfold ValidWindow at hv
  unfold saveAs
  simp only [hv, if_false, hlib.alloc_context, Bool.not_true, Bool.false_eq_true, h1, h2, h3,
    hcs, List.nil_append, h4, decide_False, Bool.and_false, h5, h6, hy.1, hcl, h7, hread,
    hwritten, Result.start]
/-! ## Error texts -/

theorem firstChar_append (a b : String) (h : a ≠ "") : firstChar (a ++ b) = firstChar a := by
  unfold firstChar
  rw [String.data_append]
  have : a.data ≠ [] := by
    intro hd
    apply h
    exact String.ext hd
  cases hd : a.data with
  | nil => exact absurd hd this
  | cons c cs => simp

theorem firstChar_caught (lib : Lib) (what : String) (iError : Int) (h : what ≠ "") :
    firstChar (caught lib what iError) = firstChar what := by
  unfold caught
  split
  · rw [firstChar_append _ _ (by
      intro hh
      have := congrArg String.length hh
      simp only [String.length_append] at this
      have h1 : " ".length = 1 := by decide
      have h0 : "".length = 0 := rfl
      omega), firstChar_append _ _ h]
  · rfl

theorem copyLoop_thrown (lib : Lib) (streams : List AVStream) (fStartTime fEndTime : ℚ) :
    ∀ (frames : List Frame) (st st' : CopyState) (what : String),
      copyLoop lib streams fStartTime fEndTime frames st = Copied.thrown st' what →
      firstChar what = some 'a' ∧ what ≠ "" := by
  intro frames
  induction frames with
  | nil =>
    intro st st' what h
    unfold copyLoop at h
    split at h
    · simp only [Copied.thrown.injEq] at h; rw [← h.2]; decide
    · simp at h
  | cons f rest ih =>
    intro st st' what h
    unfold copyLoop at h
    split at h
    · simp only [Copied.thrown.injEq] at h; rw [← h.2]; decide
    · cases f with
      | error e =>
        simp only at h
        split at h
        · simp at h
        · simp only [Copied.thrown.injEq] at h; rw [← h.2]; decide
      | packet pk =>
        simp only at h
        split at h
        · split at h
          · simp only [Copied.thrown.injEq] at h; rw [← h.2]; decide
          · split at h
            · simp at h
            · exact ih _ _ _ h
        · split at h
          · simp at h
          · exact ih _ _ _ h

theorem createStreams_thrown (lib : Lib) :
    ∀ (streams : List AVStream) (k : Nat) (outs outs' : List AVStream) (e e' : Int)
      (what : String),
      createStreams lib streams k outs e = Created.thrown outs' what e' →
      firstChar what = some 'a' ∧ what ≠ "" := by
  intro streams
  induction streams with
  | nil => intro k outs outs' e e' what h; simp [createStreams] at h
  | cons st rest ih =>
    intro k outs outs' e e' what h
    unfold createStreams at h
    split at h
    · simp only [Created.thrown.injEq] at h; rw [← h.2.1]; decide
    · split at h
      · simp only [Created.thrown.injEq] at h; rw [← h.2.1]; decide
      · exact ih _ _ _ _ _ _ h

/-- Past the test of line 81, the last error is empty or starts with the letter a. -/
theorem saveAs_valid_firstChar (lib : Lib) (sIn : Demuxer) (fStartTime fEndTime : ℚ)
    (hv : ValidWindow fStartTime fEndTime) :
    firstChar (saveAs lib sIn fStartTime fEndTime).sLastError ≠ some 'i' := by
  unfold ValidWindow at hv
  unfold saveAs
  simp only [hv, if_false]
  have hc : ∀ (what : String) (e : Int), firstChar what = some 'a' ∧ what ≠ "" →
      firstChar (caught lib what e) ≠ some 'i' := by
    intro what e h
    rw [firstChar_caught lib what e h.2, h.1]
    decide
  split
  · exact hc _ _ (by decide)
  · split
    · exact hc _ _ (by decide)
    · split
      · exact hc _ _ (by decide)
      · split
        · exact hc _ _ (by decide)
        · split
          · rename_i hcs
            exact hc _ _ (createStreams_thrown lib _ _ _ _ _ _ _ hcs)
          · split
            · exact hc _ _ (by decide)
            · split
              · exact hc _ _ (by decide)
              · split
                · exact hc _ _ (by decide)
                · split
                  · rename_i hcl
                    exact hc _ _ (copyLoop_thrown lib _ _ _ _ _ _ _ hcl)
                  · split
                    · exact hc _ _ (by decide)
                    · simp [Result.start, firstChar]

theorem libPlain_ok : LibOk libPlain :=
  { alloc_context := fun _ => rfl, open_input := fun _ => Int.le_refl 0,
    find_stream_info := fun _ => Int.le_refl 0, alloc_output := Int.le_refl 0,
    new_stream := fun _ => rfl, parameters_copy := fun _ => Int.le_refl 0,
    avio_open := Int.le_refl 0, seek_frame := Int.le_refl 0, write_header := Int.le_refl 0,
    packet_alloc := fun _ => rfl, write_frame := fun _ => Int.le_refl 0,
    write_trailer := Int.le_refl 0 }

theorem clipInput_yields : Yields clipInput clipPackets := by
  refine ⟨rfl, ?_⟩
  decide

/-! ## The time window (line 81) -/

/-- C12, counterexample: the window with start 5 and end 0 satisfies the invariant
(start >= 0, end = 0), yet `saveAs` rejects it with "invalid time range". -/
theorem saveAs_rejects_open_ended :
    ((0 : ℚ) ≤ 5 ∧ ((0 : ℚ) = 0 ∨ (0 : ℚ) ≥ 5)) ∧
    (saveAs libPlain clipInput 5 0).bResult = false ∧
    (saveAs libPlain clipInput 5 0).sLastError = "invalid time range" := by
  decide!

/-- C12, amended: `saveAs` rejects the window with "invalid time range" exactly when
start < 0, or end < 0, or end < start, and then it has opened no file, created no
stream and read no packet; so a window with end = 0 is accepted only with
start = 0. -/
theorem saveAs_invalid_time_range (lib : Lib) (sIn : Demuxer) (fStartTime fEndTime : ℚ) :
    ((saveAs lib sIn fStartTime fEndTime).sLastError = "invalid time range" ↔
      (fStartTime < 0 ∨ fEndTime < 0 ∨ fEndTime < fStartTime)) ∧
    ((fStartTime < 0 ∨ fEndTime < 0 ∨ fEndTime < fStartTime) →
      saveAs lib sIn fStartTime fEndTime =
        { bResult := false, sLastError := "invalid time range", inputsOpened := 0,
          outputOpened := false, outStreams := [], read := [], written := [] }) ∧
    (fEndTime = 0 →
      ((saveAs lib sIn fStartTime fEndTime).sLastError ≠ "invalid time range" ↔
        fStartTime = 0)) := by
  have hguard : (0 > fStartTime ∨ 0 > fEndTime ∨ 0 > fEndTime - fStartTime) ↔
      (fStartTime < 0 ∨ fEndTime < 0 ∨ fEndTime < fStartTime) := by
    constructor
    · rintro (h | h | h)
      · exact Or.inl h
      · exact Or.inr (Or.inl h)
      · exact Or.inr (Or.inr (by linarith))
    · rintro (h | h | h)
      · exact Or.inl h
      · exact Or.inr (Or.inl h)
      · exact Or.inr (Or.inr (by linarith))
  have hrej : (fStartTime < 0 ∨ fEndTime < 0 ∨ fEndTime < fStartTime) →
      saveAs lib sIn fStartTime fEndTime =
        { bResult := false, sLastError := "invalid time range", inputsOpened := 0,
          outputOpened := false, outStreams := [], read := [], written := [] } := by
    intro h
    have hg := hguard.2 h
    unfold saveAs
    simp only [hg, if_true, caught, Result.start]
    simp
  have hiff : (saveAs lib sIn fStartTime fEndTime).sLastError = "invalid time range" ↔
      (fStartTime < 0 ∨ fEndTime < 0 ∨ fEndTime < fStartTime) := by
    constructor
    · intro h
      by_contra hn
      have hv : ValidWindow fStartTime fEndTime := fun hg => hn (hguard.1 hg)
      have := saveAs_valid_firstChar lib sIn fStartTime fEndTime hv
      rw [h] at this
      exact this (by decide)
    · intro h
      rw [hrej h]
  refine ⟨hiff, hrej, ?_⟩
  intro he
  rw [Ne, hiff, he]
  constructor
  · intro h
    by_contra hs
    apply h
    rcases lt_or_gt_of_ne hs with h1 | h1
    · exact Or.inl h1
    · exact Or.inr (Or.inr h1)
  · intro hs
    rw [hs]
    simp

theorem saveAs_invalid_time_range_witness :
    saveAs libPlain clipInput 40 10 =
      { bResult := false, sLastError := "invalid time range", inputsOpened := 0,
        outputOpened := false, outStreams := [], read := [], written := [] } :=
  (saveAs_invalid_time_range libPlain clipInput 40 10).2.1 (Or.inr (Or.inr (by norm_num)))

/-! ## Remux -/

theorem endScan_unbounded (fLastTime : Nat → ℚ) (n : Nat) (hn : 0 < n) :
    endScan 0 fLastTime n 0 ≠ n := by
  obtain ⟨m, rfl⟩ : ∃ m, n = m + 1 := ⟨n - 1, by omega⟩
  simp [endScan]

theorem readUpTo_unbounded (streams : List AVStream) :
    ∀ (pks : List AVPacket) (fLastTime : Nat → ℚ),
      (∀ pk ∈ pks, pk.stream_index < streams.length) →
      readUpTo streams 0 pks fLastTime = pks := by
  intro pks
  induction pks with
  | nil => intro _ _; rfl
  | cons pk rest ih =>
    intro fLastTime h
    have hn : 0 < streams.length :=
      Nat.lt_of_le_of_lt (Nat.zero_le _) (h pk (List.mem_cons_self pk rest))
    rw [readUpTo, if_neg (endScan_unbounded _ _ hn),
      ih _ (fun q hq => h q (List.mem_cons_of_mem pk hq))]

theorem writeAll_plain (lib : Lib) (streams : List AVStream) :
    ∀ (pks : List AVPacket) (i64StartDTS : Nat → Int),
      writeAll lib streams 0 0 pks i64StartDTS = pks.map (rescaled lib streams) := by
  intro pks
  induction pks with
  | nil => intro _; rfl
  | cons pk rest ih =>
    intro D
    rw [writeAll, ih]
    simp [retime, rescaled]

theorem validWindow_zero : ValidWindow 0 0 := by
  unfold ValidWindow
  norm_num

/-- C13: when every library call succeeds, `saveAs(in, out)` creates one output
stream per input stream, with the codec parameters of that stream and tag 0, reads
every packet of the input, and writes each of them once, in read order, to the same
stream index, with `pts` and `dts` passed only through `av_packet_rescale_ts`; so
each stream keeps its number of packets. -/
theorem saveAsWhole_copies (lib : Lib) (hlib : LibOk lib) (sIn : Demuxer)
    (pks : List AVPacket) (hy : Yields sIn pks) :
    (saveAsWhole lib sIn).bResult = true ∧
    (saveAsWhole lib sIn).outStreams.length = sIn.streams.length ∧
    (∀ k, (saveAsWhole lib sIn).outStreams[k]? =
      (sIn.streams[k]?).map fun stIn =>
        ({ index := k, codecpar := { stIn.codecpar with codec_tag := 0 },
           time_base := lib.out_time_base k } : AVStream)) ∧
    (saveAsWhole lib sIn).read = pks ∧
    (saveAsWhole lib sIn).written = pks.map (fun pk =>
      { pk with
        pts := lib.av_packet_rescale_ts (streamAt sIn.streams pk.stream_index).time_base
                 (lib.out_time_base pk.stream_index) pk.pts
        dts := lib.av_packet_rescale_ts (streamAt sIn.streams pk.stream_index).time_base
                 (lib.out_time_base pk.stream_index) pk.dts
        pos := -1 }) ∧
    ∀ s, (saveAsWhole lib sIn).written.countP (fun pk => pk.stream_index = s)
      = pks.countP (fun pk => pk.stream_index = s) := by
  have hres := saveAs_ok lib hlib sIn pks hy 0 0 validWindow_zero
  have hread : readUpTo sIn.streams 0 pks (fun _ => 0) = pks :=
    readUpTo_unbounded sIn.streams pks _ hy.2
  have hall : pks.filter (inWindow sIn.streams 0) = pks := by
    apply List.filter_eq_self.2
    intro pk _
    simp [inWindow]
  rw [hread, hall, writeAll_plain] at hres
  unfold saveAsWhole
  rw [hres]
  refine ⟨rfl, outStreamsFor_length lib _ 0, ?_, rfl, rfl, ?_⟩
  · intro k
    simp only [outStreamsFor_getElem?, Nat.zero_add]
    rfl
  · intro s
    simp only [List.countP_map]
    rfl

theorem saveAsWhole_copies_witness :
    (saveAsWhole libPlain clipInput).bResult = true ∧
    (saveAsWhole libPlain clipInput).written.length = 4 ∧
    (saveAsWhole libPlain clipInput).read = clipPackets :=
  ⟨(saveAsWhole_copies libPlain libPlain_ok clipInput clipPackets clipInput_yields).1,
   by decide!,
   (saveAsWhole_copies libPlain libPlain_ok clipInput clipPackets clipInput_yields).2.2.2.1⟩

/-! ## Clip -/

theorem readUpTo_initial (streams : List AVStream) (fEndTime : ℚ) :
    ∀ (pks : List AVPacket) (fLastTime : Nat → ℚ),
      readUpTo streams fEndTime pks fLastTime <+: pks := by
  intro pks
  induction pks with
  | nil => intro _; exact List.prefix_refl _
  | cons pk rest ih =>
    intro fLastTime
    rw [readUpTo]
    split
    · exact List.prefix_iff_eq_take.2 (by simp)
    · exact (List.prefix_cons_inj pk).2 (ih _)

theorem writeAll_same_packets (lib : Lib) (streams : List AVStream) (fStartTime fEndTime : ℚ) :
    ∀ (pks : List AVPacket) (i64StartDTS : Nat → Int),
      List.Forall₂ (fun w pk => w.stream_index = pk.stream_index ∧ w.data = pk.data)
        (writeAll lib streams fStartTime fEndTime pks i64StartDTS) pks := by
  intro pks
  induction pks with
  | nil => intro _; exact List.Forall₂.nil
  | cons pk rest ih =>
    intro D
    rw [writeAll]
    exact List.Forall₂.cons ⟨rfl, rfl⟩ (ih _)

theorem same_packets_per_stream (s : Nat) (ws ks : List AVPacket)
    (h : List.Forall₂ (fun w pk => w.stream_index = pk.stream_index ∧ w.data = pk.data)
      ws ks) :
    (ws.filter fun w => w.stream_index = s).map (fun w => w.data)
      = (ks.filter fun pk => pk.stream_index = s).map (fun pk => pk.data) := by
  induction h with
  | nil => rfl
  | @cons w pk ws' ks' hab _ ih =>
    by_cases hs : pk.stream_index = s
    · have hw : w.stream_index = s := by rw [hab.1]; exact hs
      simp [List.filter_cons, hs, hw, hab.2, ih]
    · have hw : ¬ w.stream_index = s := by rw [hab.1]; exact hs
      simp [List.filter_cons, hs, hw, ih]

/-- C14, counterexample: with a time base of 1/90000 and the window from 0 to 4000
the packet with `pts` 360000005 is written although `pts` times the time base
exceeds 4000: line 139 stores the product as the `float` 4000. -/
theorem saveAs_keeps_packet_past_end :
    (saveAs libPlain tickInput 0 4000).read = tickPackets ∧
    (saveAs libPlain tickInput 0 4000).written.map (fun w => w.data) = [1, 2] ∧
    (tickPackets.map fun pk => exactSeconds tickInput.streams pk)
      = [0, 4000 + 1 / 18000] ∧
    (tickPackets.map fun pk => seconds tickInput.streams pk) = [0, 4000] ∧
    ¬ ((4000 : ℚ) + 1 / 18000 ≤ 4000) := by
  decide!

/-- C14, amended: when every library call succeeds, the packets `saveAs` reads are
a prefix of what the input yields, and the packets it writes are, in read order and
one for one, the read packets for which the end time is 0 or the presentation time
as line 139 computes it (`pts` times the time base in `double`, stored as a `float`)
is at most the end time; a packet whose computed time is the end time is written. -/
theorem saveAs_writes_window (lib : Lib) (hlib : LibOk lib) (sIn : Demuxer)
    (pks : List AVPacket) (hy : Yields sIn pks) (fStartTime fEndTime : ℚ)
    (hv : ValidWindow fStartTime fEndTime) :
    (saveAs lib sIn fStartTime fEndTime).bResult = true ∧
    (saveAs lib sIn fStartTime fEndTime).read <+: pks ∧
    List.Forall₂ (fun w pk => w.stream_index = pk.stream_index ∧ w.data = pk.data)
      (saveAs lib sIn fStartTime fEndTime).written
      ((saveAs lib sIn fStartTime fEndTime).read.filter fun pk =>
        decide (fEndTime = 0 ∨ seconds sIn.streams pk ≤ fEndTime)) ∧
    (∀ s, ((saveAs lib sIn fStartTime fEndTime).written.filter
            fun w => w.stream_index = s).map (fun w => w.data)
        = (((saveAs lib sIn fStartTime fEndTime).read.filter fun pk =>
            decide (fEndTime = 0 ∨ seconds sIn.streams pk ≤ fEndTime)).filter
            fun pk => pk.stream_index = s).map (fun pk => pk.data)) ∧
    (∀ pk, seconds sIn.streams pk = lastTime (streamAt sIn.streams pk.stream_index).time_base
        pk.pts) := by
  have hres := saveAs_ok lib hlib sIn pks hy fStartTime fEndTime hv
  have hF := writeAll_same_packets lib sIn.streams fStartTime fEndTime
    ((readUpTo sIn.streams fEndTime pks (fun _ => 0)).filter (inWindow sIn.streams fEndTime))
    (fun _ => AV_NOPTS_VALUE)
  rw [hres]
  refine ⟨rfl, readUpTo_initial _ _ _ _, hF, ?_, fun _ => rfl⟩
  intro s
  simp only
  generalize writeAll lib sIn.streams fStartTime fEndTime
    ((readUpTo sIn.streams fEndTime pks (fun _ => 0)).filter (inWindow sIn.streams fEndTime))
    (fun _ => AV_NOPTS_VALUE) = ws at hF
  have hfilter : (readUpTo sIn.streams fEndTime pks (fun _ => 0)).filter (fun pk =>
        decide (fEndTime = 0 ∨ seconds sIn.streams pk ≤ fEndTime))
      = (readUpTo sIn.streams fEndTime pks (fun _ => 0)).filter (inWindow sIn.streams fEndTime) :=
    rfl
  rw [hfilter]
  generalize (readUpTo sIn.streams fEndTime pks (fun _ => 0)).filter
    (inWindow sIn.streams fEndTime) = ks at hF
  exact same_packets_per_stream s ws ks hF

theorem saveAs_writes_window_witness :
    (saveAs libPlain clipInput 10 40).bResult = true ∧
    (saveAs libPlain clipInput 10 40).read.length = 3 ∧
    (saveAs libPlain clipInput 10 40).written.map (fun w => w.data) = [100, 101] :=
  ⟨(saveAs_writes_window libPlain libPlain_ok clipInput clipPackets clipInput_yields 10 40
      (by unfold ValidWindow; norm_num)).1,
   by decide!, by decide!⟩

/-! ## Rebasing (lines 141-148) -/

theorem retime_congr (lib : Lib) (streams : List AVStream) (fStartTime fEndTime : ℚ)
    (D D' : Nat → Int) (pk : AVPacket) (h : D pk.stream_index = D' pk.stream_index) :
    retime lib streams fStartTime fEndTime D pk = retime lib streams fStartTime fEndTime D' pk := by
  simp only [retime, h]

theorem firstDTS_cons_same (pk : AVPacket) (rest : List AVPacket) :
    firstDTS (pk :: rest) pk.stream_index = pk.dts := by
  simp [firstDTS]

theorem firstDTS_cons_other (pk : AVPacket) (rest : List AVPacket) (s : Nat)
    (h : pk.stream_index ≠ s) : firstDTS (pk :: rest) s = firstDTS rest s := by
  simp [firstDTS, h]

theorem writeAll_firstDTS (lib : Lib) (streams : List AVStream) (fStartTime fEndTime : ℚ) :
    ∀ (pks : List AVPacket) (D : Nat → Int),
      (∀ pk ∈ pks, pk.dts ≠ AV_NOPTS_VALUE) →
      writeAll lib streams fStartTime fEndTime pks D =
        pks.map (fun pk => retime lib streams fStartTime fEndTime
          (fun s => if AV_NOPTS_VALUE = D s then firstDTS pks s else D s) pk) := by
  intro pks
  induction pks with
  | nil => intro _ _; rfl
  | cons pk rest ih =>
    intro D hd
    have hpk := hd pk (List.mem_cons_self pk rest)
    rw [writeAll, ih _ (fun q hq => hd q (List.mem_cons_of_mem pk hq)), List.map_cons]
    congr 1
    · apply retime_congr
      simp only [startDTSAfter, firstDTS_cons_same]
      by_cases h : AV_NOPTS_VALUE = D pk.stream_index
      · simp [h]
      · simp [h]
    · apply List.map_congr_left
      intro q _
      apply retime_congr
      show (if AV_NOPTS_VALUE = startDTSAfter D pk q.stream_index then
              firstDTS rest q.stream_index else startDTSAfter D pk q.stream_index)
          = (if AV_NOPTS_VALUE = D q.stream_index then firstDTS (pk :: rest) q.stream_index
              else D q.stream_index)
      by_cases hs : pk.stream_index = q.stream_index
      · rw [← hs, firstDTS_cons_same]
        by_cases h : AV_NOPTS_VALUE = D pk.stream_index
        · have hnew : startDTSAfter D pk pk.stream_index = pk.dts := by
            unfold startDTSAfter
            rw [if_pos h, Function.update_same]
          rw [hnew, if_neg (fun hh => hpk hh.symm), if_pos h]
        · have hnew : startDTSAfter D pk pk.stream_index = D pk.stream_index := by
            unfold startDTSAfter
            rw [if_neg h]
          rw [hnew, if_neg h, if_neg h]
      · rw [firstDTS_cons_other pk rest _ hs]
        have hnew : startDTSAfter D pk q.stream_index = D q.stream_index := by
          unfold startDTSAfter
          by_cases h : AV_NOPTS_VALUE = D pk.stream_index
          · rw [if_pos h, Function.update_noteq (Ne.symm hs)]
          · rw [if_neg h]
        rw [hnew]

/-- What a clip run writes, in closed form, in the 64-bit arithmetic of lines
146-147. -/
theorem saveAs_written (lib : Lib) (hlib : LibOk lib) (sIn : Demuxer)
    (pks : List AVPacket) (hy : Yields sIn pks) (fStartTime fEndTime : ℚ)
    (hv : ValidWindow fStartTime fEndTime) (hw : fStartTime ≠ 0 ∨ fEndTime ≠ 0)
    (hd : ∀ pk ∈ pks, pk.dts ≠ AV_NOPTS_VALUE) :
    (saveAs lib sIn fStartTime fEndTime).written =
      (keptPackets lib sIn fStartTime fEndTime).map fun pk =>
        { pk with
          pts := lib.av_packet_rescale_ts (streamAt sIn.streams pk.stream_index).time_base
            (lib.out_time_base pk.stream_index)
            (i64Sub pk.pts
              (i64Sub (firstDTS (keptPackets lib sIn fStartTime fEndTime) pk.stream_index)
                (i64Sub pk.pts pk.dts)))
          dts := lib.av_packet_rescale_ts (streamAt sIn.streams pk.stream_index).time_base
            (lib.out_time_base pk.stream_index)
            (i64Sub pk.dts
              (firstDTS (keptPackets lib sIn fStartTime fEndTime) pk.stream_index))
          pos := -1 } := by
  have hres := saveAs_ok lib hlib sIn pks hy fStartTime fEndTime hv
  unfold keptPackets
  rw [hres]
  simp only
  have hsub : ∀ pk ∈ (readUpTo sIn.streams fEndTime pks (fun _ => 0)).filter
      (inWindow sIn.streams fEndTime), pk.dts ≠ AV_NOPTS_VALUE := by
    intro pk hpk
    exact hd pk ((readUpTo_initial _ _ _ _).subset (List.mem_of_mem_filter hpk))
  rw [writeAll_firstDTS lib sIn.streams fStartTime fEndTime _ _ hsub]
  apply List.map_congr_left
  intro pk _
  simp [retime, hw]

theorem i64Sub_exact (a b : Int) (h1 : -2 ^ 63 ≤ a - b) (h2 : a - b < 2 ^ 63) :
    i64Sub a b = a - b := by
  unfold i64Sub i64Wrap
  omega

theorem firstDTS_mem (pks : List AVPacket) (pk : AVPacket) (h : pk ∈ pks) :
    ∃ q ∈ pks, firstDTS pks pk.stream_index = q.dts := by
  unfold firstDTS
  cases hf : pks.find? (fun q => q.stream_index = pk.stream_index) with
  | none =>
    have := List.find?_eq_none.1 hf pk h
    simp at this
  | some q => exact ⟨q, List.mem_of_find?_eq_some hf, rfl⟩

theorem keptPackets_subset (lib : Lib) (hlib : LibOk lib) (sIn : Demuxer)
    (pks : List AVPacket) (hy : Yields sIn pks) (fStartTime fEndTime : ℚ)
    (hv : ValidWindow fStartTime fEndTime) :
    ∀ pk ∈ keptPackets lib sIn fStartTime fEndTime, pk ∈ pks := by
  intro pk hpk
  unfold keptPackets at hpk
  rw [saveAs_ok lib hlib sIn pks hy fStartTime fEndTime hv] at hpk
  exact (readUpTo_initial _ _ _ _).subset (List.mem_of_mem_filter hpk)

theorem timestampsBelow_dts (pks : List AVPacket) (hb : TimestampsBelow pks) :
    ∀ pk ∈ pks, pk.dts ≠ AV_NOPTS_VALUE := by
  intro pk hpk h
  have := hb pk hpk
  rw [h] at this
  simp only [AV_NOPTS_VALUE] at this
  omega

/-- What a clip run writes, in closed form, for timestamps whose arithmetic does
not overflow. -/
theorem saveAs_written_exact (lib : Lib) (hlib : LibOk lib) (sIn : Demuxer)
    (pks : List AVPacket) (hy : Yields sIn pks) (fStartTime fEndTime : ℚ)
    (hv : ValidWindow fStartTime fEndTime) (hw : fStartTime ≠ 0 ∨ fEndTime ≠ 0)
    (hb : TimestampsBelow pks) :
    (saveAs lib sIn fStartTime fEndTime).written =
      (keptPackets lib sIn fStartTime fEndTime).map fun pk =>
        { pk with
          pts := lib.av_packet_rescale_ts (streamAt sIn.streams pk.stream_index).time_base
            (lib.out_time_base pk.stream_index)
            (pk.pts - (firstDTS (keptPackets lib sIn fStartTime fEndTime) pk.stream_index
              - (pk.pts - pk.dts)))
          dts := lib.av_packet_rescale_ts (streamAt sIn.streams pk.stream_index).time_base
            (lib.out_time_base pk.stream_index)
            (pk.dts - firstDTS (keptPackets lib sIn fStartTime fEndTime) pk.stream_index)
          pos := -1 } := by
  rw [saveAs_written lib hlib sIn pks hy fStartTime fEndTime hv hw
    (timestampsBelow_dts pks hb)]
  apply List.map_congr_left
  intro pk hpk
  have hsub := keptPackets_subset lib hlib sIn pks hy fStartTime fEndTime hv
  obtain ⟨q, hq, hD⟩ := firstDTS_mem _ pk hpk
  have hpkb := hb pk (hsub pk hpk)
  have hqb := hb q (hsub q hq)
  rw [hD]
  have e1 : i64Sub pk.pts pk.dts = pk.pts - pk.dts := i64Sub_exact _ _ (by omega) (by omega)
  have e2 : i64Sub q.dts (pk.pts - pk.dts) = q.dts - (pk.pts - pk.dts) :=
    i64Sub_exact _ _ (by omega) (by omega)
  have e3 : i64Sub pk.pts (q.dts - (pk.pts - pk.dts)) = pk.pts - (q.dts - (pk.pts - pk.dts)) :=
    i64Sub_exact _ _ (by omega) (by omega)
  have e4 : i64Sub pk.dts q.dts = pk.dts - q.dts := i64Sub_exact _ _ (by omega) (by omega)
  rw [e1, e2, e3, e4]

/-- C15, counterexample: clipping `clipInput` to the window from 10 to 40, with a
rescale step that leaves timestamps as they are, writes the second packet
(`pts` 40, `dts` 38, first decode timestamp 10) with `dts` 28 and `pts` 32, while
subtracting the first decode timestamp from both gives 28 and 30; and for a packet
without presentation timestamp (`pts = AV_NOPTS_VALUE`, `dts` 12, first decode
timestamp 10) the subtractions of line 146 overflow and give -22. -/
theorem saveAs_pts_shifted_twice :
    (saveAs libPlain clipInput 10 40).written.map (fun w => (w.dts, w.pts))
      = [(0, 0), (28, 32)] ∧
    firstDTS (keptPackets libPlain clipInput 10 40) 0 = 10 ∧
    ((28 : Int), (32 : Int)) ≠ (38 - 10, 40 - 10) ∧
    i64Sub AV_NOPTS_VALUE (i64Sub 10 (i64Sub AV_NOPTS_VALUE 12)) = -22 := by
  decide!

/-- C15, amended: in a clip with a non-zero window in which every library call
succeeds, on an input whose timestamps all lie strictly between `-2 ^ 61` and
`2 ^ 61`, each written packet `p` of stream `s` is handed to the rescale step with
decode timestamp `dts(p) - D` and presentation timestamp
`pts(p) - (D - (pts(p) - dts(p)))`, that is `pts(p) - D + (pts(p) - dts(p))`, where
`D` is the decode timestamp of the first written packet of `s`; the presentation
timestamp is `pts(p) - D` exactly when `pts(p) = dts(p)`. -/
theorem saveAs_rebases (lib : Lib) (hlib : LibOk lib) (sIn : Demuxer)
    (pks : List AVPacket) (hy : Yields sIn pks) (fStartTime fEndTime : ℚ)
    (hv : ValidWindow fStartTime fEndTime) (hw : fStartTime ≠ 0 ∨ fEndTime ≠ 0)
    (hb : TimestampsBelow pks) :
    (saveAs lib sIn fStartTime fEndTime).written =
      ((saveAs lib sIn fStartTime fEndTime).read.filter
        (inWindow sIn.streams fEndTime)).map (fun pk =>
        { pk with
          pts := lib.av_packet_rescale_ts (streamAt sIn.streams pk.stream_index).time_base
            (lib.out_time_base pk.stream_index)
            (pk.pts - (firstDTS ((saveAs lib sIn fStartTime fEndTime).read.filter
                (inWindow sIn.streams fEndTime)) pk.stream_index - (pk.pts - pk.dts)))
          dts := lib.av_packet_rescale_ts (streamAt sIn.streams pk.stream_index).time_base
            (lib.out_time_base pk.stream_index)
            (pk.dts - firstDTS ((saveAs lib sIn fStartTime fEndTime).read.filter
                (inWindow sIn.streams fEndTime)) pk.stream_index)
          pos := -1 }) ∧
    (∀ (pk : AVPacket) (D : Int),
      pk.pts - (D - (pk.pts - pk.dts)) = (pk.pts - D) + (pk.pts - pk.dts)) ∧
    (∀ (pk : AVPacket) (D : Int),
      pk.pts - (D - (pk.pts - pk.dts)) = pk.pts - D ↔ pk.pts = pk.dts) := by
  refine ⟨saveAs_written_exact lib hlib sIn pks hy fStartTime fEndTime hv hw hb, ?_, ?_⟩
  · intro pk D; omega
  · intro pk D; omega

theorem clipPackets_below : TimestampsBelow clipPackets := by
  unfold TimestampsBelow clipPackets
  decide

theorem saveAs_rebases_witness :
    (saveAs libPlain clipInput 10 40).written =
      ((saveAs libPlain clipInput 10 40).read.filter
        (inWindow clipInput.streams 40)).map (fun pk =>
        { pk with
          pts := libPlain.av_packet_rescale_ts
            (streamAt clipInput.streams pk.stream_index).time_base
            (libPlain.out_time_base pk.stream_index)
            (pk.pts - (firstDTS ((saveAs libPlain clipInput 10 40).read.filter
                (inWindow clipInput.streams 40)) pk.stream_index - (pk.pts - pk.dts)))
          dts := libPlain.av_packet_rescale_ts
            (streamAt clipInput.streams pk.stream_index).time_base
            (libPlain.out_time_base pk.stream_index)
            (pk.dts - firstDTS ((saveAs libPlain clipInput 10 40).read.filter
                (inWindow clipInput.streams 40)) pk.stream_index)
          pos := -1 }) :=
  (saveAs_rebases libPlain libPlain_ok clipInput clipPackets clipInput_yields 10 40
    (by unfold ValidWindow; norm_num) (Or.inl (by norm_num)) clipPackets_below).1

theorem interleave_nil_right {α : Type} : ∀ xs : List α, interleave xs [] = xs
  | [] => rfl
  | _ :: _ => rfl

theorem interleave_take_drop {α : Type} (xs ys : List α) :
    interleave xs ys = xs.take 1 ++ ys.take 1 ++ interleave (xs.drop 1) (ys.drop 1) := by
  cases xs with
  | nil => cases ys <;> simp [interleave]
  | cons x xs =>
    cases ys with
    | nil => simp [interleave, interleave_nil_right]
    | cons y ys => simp [interleave]

theorem muxVideo_part (lib : Lib) (hlib : LibOk lib) (stVideoIn stVideoOut : AVStream)
    (st : MuxState) (vs : List AVPacket) (hf : st.videoFrames = vs.map Frame.packet)
    (he : st.bVideoInEOF = true → vs = []) :
    ∃ st1, (if !st.bVideoInEOF then muxVideo lib stVideoIn stVideoOut st else Muxed.done st)
        = Muxed.done st1 ∧
      st1.videoFrames = (vs.drop 1).map Frame.packet ∧
      (st1.bVideoInEOF = true → vs.drop 1 = []) ∧
      (st1.bVideoInEOF = true ↔ vs = []) ∧
      st1.written = st.written ++ (vs.take 1).map (retimeMux lib stVideoIn stVideoOut) ∧
      st1.readVideo = st.readVideo ++ vs.take 1 ∧
      st1.bAudioInEOF = st.bAudioInEOF ∧ st1.audioFrames = st.audioFrames ∧
      st1.readAudio = st.readAudio := by
  have hw : ¬ (0 > lib.av_interleaved_write_frame st.written.length) := by
    have := hlib.write_frame st.written.length
    omega
  cases hb : st.bVideoInEOF
  · cases vs with
    | nil =>
      refine ⟨{ st with allocs := st.allocs + 1, bVideoInEOF := true, iError := AVERROR_EOF }, ?_, ?_⟩
      · simp only [Bool.not_false, if_true, muxVideo, hlib.packet_alloc, Bool.not_true,
          Bool.false_eq_true, if_false]
        simp only [List.map_nil] at hf
        rw [hf]
      · simp [hf]
    | cons v vs' =>
      refine ⟨{ st with
                allocs := st.allocs + 1
                videoFrames := vs'.map Frame.packet
                readVideo := st.readVideo ++ [v]
                written := st.written ++ [retimeMux lib stVideoIn stVideoOut v]
                iError := lib.av_interleaved_write_frame st.written.length }, ?_, ?_⟩
      · simp only [Bool.not_false, if_true, muxVideo, hlib.packet_alloc, Bool.not_true,
          Bool.false_eq_true, if_false]
        simp only [List.map_cons] at hf
        rw [hf]
        simp only [hw, if_false]
      · simp [hb]
  · have hvs := he hb
    subst hvs
    exact ⟨st, by simp, by simpa using hf, by simp, by simp [hb], by simp, by simp, rfl, rfl, rfl⟩

theorem muxAudio_part (lib : Lib) (hlib : LibOk lib) (stAudioIn stAudioOut : AVStream)
    (st : MuxState) (as : List AVPacket) (hf : st.audioFrames = as.map Frame.packet)
    (he : st.bAudioInEOF = true → as = []) :
    ∃ st1, (if !st.bAudioInEOF then muxAudio lib stAudioIn stAudioOut st else Muxed.done st)
        = Muxed.done st1 ∧
      st1.audioFrames = (as.drop 1).map Frame.packet ∧
      (st1.bAudioInEOF = true → as.drop 1 = []) ∧
      (st1.bAudioInEOF = true ↔ as = []) ∧
      st1.written = st.written ++ (as.take 1).map (retimeMux lib stAudioIn stAudioOut) ∧
      st1.readAudio = st.readAudio ++ as.take 1 ∧
      st1.bVideoInEOF = st.bVideoInEOF ∧ st1.videoFrames = st.videoFrames ∧
      st1.readVideo = st.readVideo := by
  have hw : ¬ (0 > lib.av_interleaved_write_frame st.written.length) := by
    have := hlib.write_frame st.written.length
    omega
  cases hb : st.bAudioInEOF
  · cases as with
    | nil =>
      refine ⟨{ st with allocs := st.allocs + 1, bAudioInEOF := true, iError := AVERROR_EOF }, ?_, ?_⟩
      · simp only [Bool.not_false, if_true, muxAudio, hlib.packet_alloc, Bool.not_true,
          Bool.false_eq_true, if_false]
        simp only [List.map_nil] at hf
        rw [hf]
      · simp [hf]
    | cons v as' =>
      refine ⟨{ st with
                allocs := st.allocs + 1
                audioFrames := as'.map Frame.packet
                readAudio := st.readAudio ++ [v]
                written := st.written ++ [retimeMux lib stAudioIn stAudioOut v]
                iError := lib.av_interleaved_write_frame st.written.length }, ?_, ?_⟩
      · simp only [Bool.not_false, if_true, muxAudio, hlib.packet_alloc, Bool.not_true,
          Bool.false_eq_true, if_false]
        simp only [List.map_cons] at hf
        rw [hf]
        simp only [hw, if_false]
      · simp [hb]
  · have hvs := he hb
    subst hvs
    exact ⟨st, by simp, by simpa using hf, by simp, by simp [hb], by simp, by simp, rfl, rfl, rfl⟩


theorem muxLoop_spec (lib : Lib) (hlib : LibOk lib)
    (stVideoIn stAudioIn stVideoOut stAudioOut : AVStream) :
    ∀ (fuel : Nat) (st : MuxState) (vs as : List AVPacket),
      st.videoFrames = vs.map Frame.packet → st.audioFrames = as.map Frame.packet →
      (st.bVideoInEOF = true → vs = []) → (st.bAudioInEOF = true → as = []) →
      muxNeed st vs as < fuel →
      ∃ st', muxLoop lib stVideoIn stAudioIn stVideoOut stAudioOut fuel st
          = some (Muxed.done st') ∧
        st'.written = st.written ++
          interleave (vs.map (retimeMux lib stVideoIn stVideoOut))
            (as.map (retimeMux lib stAudioIn stAudioOut)) ∧
        st'.readVideo = st.readVideo ++ vs ∧ st'.readAudio = st.readAudio ++ as := by
  intro fuel
  induction fuel with
  | zero => intro st vs as _ _ _ _ h; omega
  | succ fuel ih =>
    intro st vs as hfv hfa hev hea hneed
    unfold muxLoop
    by_cases hboth : (!st.bVideoInEOF || !st.bAudioInEOF) = true
    · rw [if_pos hboth]
      obtain ⟨st1, h1, hv1, hve1, hviff, hw1, hr1, ha1, haf1, har1⟩ :=
        muxVideo_part lib hlib stVideoIn stVideoOut st vs hfv hev
      rw [h1]
      simp only
      obtain ⟨st2, h2, ha2, hae2, haiff, hw2, hr2, hb2, hvf2, hvr2⟩ :=
        muxAudio_part lib hlib stAudioIn stAudioOut st1 as (by rw [haf1]; exact hfa)
          (by rw [ha1]; exact hea)
      rw [h2]
      simp only
      have hneed2 : muxNeed st2 (vs.drop 1) (as.drop 1) < fuel := by
        unfold muxNeed at hneed ⊢
        have hlenv : (vs.drop 1).length = vs.length - 1 := by simp
        have hlena : (as.drop 1).length = as.length - 1 := by simp
        rw [hlenv, hlena]
        have hbv2 : st2.bVideoInEOF = true ↔ vs.length = 0 := by
          rw [hb2, hviff]; exact List.length_eq_zero.symm
        have hba2 : st2.bAudioInEOF = true ↔ as.length = 0 := by
          rw [haiff]; exact List.length_eq_zero.symm
        have hev' : st.bVideoInEOF = true → vs.length = 0 := fun h => by simp [hev h]
        have hea' : st.bAudioInEOF = true → as.length = 0 := fun h => by simp [hea h]
        cases hb : st.bVideoInEOF <;> cases hc : st.bAudioInEOF <;>
          cases hd : st2.bVideoInEOF <;> cases hf : st2.bAudioInEOF <;>
          simp only [hb, hc, hd, hf, Bool.false_eq_true, if_false, if_true, false_iff,
            true_iff, iff_true, iff_false, forall_true_left, not_true_eq_false,
            Bool.not_true, Bool.not_false, Bool.or_self, Bool.or_true, Bool.or_false,
            false_implies, true_implies]
            at hneed hboth hev' hea' hbv2 hba2 ⊢ <;>
          omega
      obtain ⟨st', h3, hw3, hrv3, hra3⟩ := ih st2 (vs.drop 1) (as.drop 1)
        (by rw [hvf2]; exact hv1) ha2 (by rw [hb2]; exact hve1) hae2 hneed2
      refine ⟨st', h3, ?_, ?_, ?_⟩
      · rw [hw3, hw2, hw1,
          interleave_take_drop (vs.map (retimeMux lib stVideoIn stVideoOut))
            (as.map (retimeMux lib stAudioIn stAudioOut))]
        simp [List.map_take, List.map_drop, List.append_assoc]
      · rw [hrv3, hvr2, hr1, List.append_assoc, List.take_append_drop]
      · rw [hra3, hr2, har1, List.append_assoc, List.take_append_drop]
    · rw [if_neg hboth]
      have hbv : st.bVideoInEOF = true := by
        cases h : st.bVideoInEOF <;> simp [h] at hboth ⊢
      have hba : st.bAudioInEOF = true := by
        cases h : st.bAudioInEOF <;> simp [h] at hboth ⊢
      have hvs := hev hbv
      have has := hea hba
      subst hvs
      subst has
      exact ⟨st, rfl, by simp [interleave], by simp, by simp⟩
/-- A mux run in which every library call succeeds. -/
theorem saveAsMux_ok (lib : Lib) (hlib : LibOk lib) (sVideoIn sAudioIn : Demuxer)
    (stVideoIn stAudioIn : AVStream) (vs as : List AVPacket) (fuel : Nat)
    (hsv : findStream AVMediaType.AVMEDIA_TYPE_VIDEO sVideoIn.streams = some stVideoIn)
    (hsa : findStream AVMediaType.AVMEDIA_TYPE_AUDIO sAudioIn.streams = some stAudioIn)
    (hfv : sVideoIn.frames = vs.map Frame.packet)
    (hfa : sAudioIn.frames = as.map Frame.packet)
    (hfuel : max vs.length as.length + 1 < fuel) :
    saveAsMux lib sVideoIn sAudioIn fuel = some
      { bResult := true, sLastError := "", inputsOpened := 2,
        outputOpened := !lib.AVFMT_NOFILE,
        stVideoIn := some stVideoIn, stAudioIn := some stAudioIn,
        outStreams := [newStream lib 0 { stVideoIn.codecpar with codec_tag := 0 },
                       newStream lib 1 { stAudioIn.codecpar with codec_tag := 0 }],
        readVideo := vs, readAudio := as,
        written := interleave
          (vs.map (retimeMux lib stVideoIn
            (newStream lib 0 { stVideoIn.codecpar with codec_tag := 0 })))
          (as.map (retimeMux lib stAudioIn
            (newStream lib 1 { stAudioIn.codecpar with codec_tag := 0 }))) } := by
  obtain ⟨st', hloop, hw, hrv, hra⟩ := muxLoop_spec lib hlib stVideoIn stAudioIn
    (newStream lib 0 { stVideoIn.codecpar with codec_tag := 0 })
    (newStream lib 1 { stAudioIn.codecpar with codec_tag := 0 }) fuel
    { bVideoInEOF := false, bAudioInEOF := false,
      videoFrames := sVideoIn.frames, audioFrames := sAudioIn.frames,
      allocs := 0, readVideo := [], readAudio := [], written := [],
      iError := lib.avformat_write_header } vs as hfv hfa (by simp) (by simp)
    (by simp only [muxNeed, Bool.false_eq_true, if_false]; omega)
  have h1 : ∀ n, ¬ (0 > lib.avformat_open_input n) := fun n => by
    have := hlib.open_input n; omega
  have h2 : ∀ n, ¬ (0 > lib.avformat_find_stream_info n) := fun n => by
    have := hlib.find_stream_info n; omega
  have h3 : ¬ (0 > lib.avformat_alloc_output_context2) := by have := hlib.alloc_output; omega
  have h4 : ¬ (0 > lib.avio_open) := by have := hlib.avio_open; omega
  have h5 : ∀ n, ¬ (0 > lib.avcodec_parameters_copy n) := fun n => by
    have := hlib.parameters_copy n; omega
  have h6 : ¬ (0 > lib.avformat_write_header) := by have := hlib.write_header; omega
  have h7 : ¬ (0 > lib.av_write_trailer) := by have := hlib.write_trailer; omega
  unfold saveAsMux
  simp only [hlib.alloc_context, hlib.new_stream, Bool.not_true, Bool.false_eq_true, if_false,
    h1, h2, h3, h4, h5, h6, h7, hsv, hsa, decide_False, Bool.and_false, hloop, hw, hrv, hra,
    List.nil_append, MuxResult.start]

theorem interleave_perm {α : Type} : ∀ xs ys : List α, (interleave xs ys).Perm (xs ++ ys)
  | [], ys => by simp [interleave]
  | x :: xs, [] => by simp [interleave]
  | x :: xs, y :: ys => by
    have ih := interleave_perm xs ys
    simp only [interleave, List.cons_append]
    refine List.Perm.cons x ?_
    exact (List.Perm.cons y ih).trans List.perm_middle.symm

theorem interleave_getElem? {α : Type} :
    ∀ (i : Nat) (xs ys : List α), i < xs.length → i < ys.length →
      (interleave xs ys)[2 * i]? = xs[i]? ∧ (interleave xs ys)[2 * i + 1]? = ys[i]? := by
  intro i
  induction i with
  | zero =>
    intro xs ys hx hy
    cases xs with
    | nil => simp at hx
    | cons x xs =>
      cases ys with
      | nil => simp at hy
      | cons y ys => simp [interleave]
  | succ i ih =>
    intro xs ys hx hy
    cases xs with
    | nil => simp at hx
    | cons x xs =>
      cases ys with
      | nil => simp at hy
      | cons y ys =>
        have := ih xs ys (by simpa using hx) (by simpa using hy)
        have e1 : 2 * (i + 1) = 2 * i + 1 + 1 := by omega
        have e2 : 2 * (i + 1) + 1 = 2 * i + 1 + 1 + 1 := by omega
        simp only [interleave, e1, e2, List.getElem?_cons_succ]
        exact this

theorem interleave_drop {α : Type} :
    ∀ (xs ys : List α),
      (interleave xs ys).drop (2 * min xs.length ys.length)
        = xs.drop (min xs.length ys.length) ++ ys.drop (min xs.length ys.length)
  | [], ys => by simp [interleave]
  | x :: xs, [] => by simp [interleave]
  | x :: xs, y :: ys => by
    have ih := interleave_drop xs ys
    have e : 2 * min (x :: xs).length (y :: ys).length
        = 2 * min xs.length ys.length + 1 + 1 := by
      simp only [List.length_cons]; omega
    have e' : min (x :: xs).length (y :: ys).length = min xs.length ys.length + 1 := by
      simp only [List.length_cons]; omega
    rw [e, e']
    simp only [interleave, List.drop_succ_cons]
    exact ih

theorem interleave_map {α β : Type} (f : α → β) :
    ∀ xs ys : List α, (interleave xs ys).map f = interleave (xs.map f) (ys.map f)
  | [], ys => by simp [interleave]
  | x :: xs, [] => by simp [interleave]
  | x :: xs, y :: ys => by simp [interleave, interleave_map f xs ys]

/-! ## Mux -/

/-- C17: when every library call succeeds, the mux overload writes the packets of the
two inputs in round-robin order, the `i`-th video packet at place `2 i` and the
`i`-th audio packet at place `2 i + 1` as long as both inputs last, and then the
rest of the longer input in its read order; which packet comes at which place is
fixed by the places in the two inputs alone, not by `pts` or `dts`. -/
theorem saveAsMux_round_robin (lib : Lib) (hlib : LibOk lib) (sVideoIn sAudioIn : Demuxer)
    (stVideoIn stAudioIn : AVStream) (vs as : List AVPacket) (fuel : Nat)
    (hsv : findStream AVMediaType.AVMEDIA_TYPE_VIDEO sVideoIn.streams = some stVideoIn)
    (hsa : findStream AVMediaType.AVMEDIA_TYPE_AUDIO sAudioIn.streams = some stAudioIn)
    (hfv : sVideoIn.frames = vs.map Frame.packet)
    (hfa : sAudioIn.frames = as.map Frame.packet)
    (hfuel : max vs.length as.length + 1 < fuel) :
    ∃ r, saveAsMux lib sVideoIn sAudioIn fuel = some r ∧ r.bResult = true ∧
      r.written.map (fun w => (w.stream_index, w.data))
        = interleave (vs.map fun pk => (0, pk.data)) (as.map fun pk => (1, pk.data)) ∧
      (∀ i, i < vs.length → i < as.length →
        (r.written[2 * i]?).map (fun w => (w.stream_index, w.data))
            = (vs[i]?).map (fun pk => (0, pk.data)) ∧
        (r.written[2 * i + 1]?).map (fun w => (w.stream_index, w.data))
            = (as[i]?).map (fun pk => (1, pk.data))) ∧
      (r.written.drop (2 * min vs.length as.length)).map (fun w => (w.stream_index, w.data))
        = (vs.drop (min vs.length as.length)).map (fun pk => (0, pk.data))
          ++ (as.drop (min vs.length as.length)).map (fun pk => (1, pk.data)) := by
  refine ⟨_, saveAsMux_ok lib hlib sVideoIn sAudioIn stVideoIn stAudioIn vs as fuel hsv hsa
    hfv hfa hfuel, rfl, ?_⟩
  simp only
  have hkey : (interleave
        (vs.map (retimeMux lib stVideoIn
          (newStream lib 0 { stVideoIn.codecpar with codec_tag := 0 })))
        (as.map (retimeMux lib stAudioIn
          (newStream lib 1 { stAudioIn.codecpar with codec_tag := 0 })))).map
        (fun w => (w.stream_index, w.data))
      = interleave (vs.map fun pk => (0, pk.data)) (as.map fun pk => (1, pk.data)) := by
    rw [interleave_map, List.map_map, List.map_map]
    rfl
  generalize interleave
      (vs.map (retimeMux lib stVideoIn
        (newStream lib 0 { stVideoIn.codecpar with codec_tag := 0 })))
      (as.map (retimeMux lib stAudioIn
        (newStream lib 1 { stAudioIn.codecpar with codec_tag := 0 }))) = W at hkey ⊢
  refine ⟨hkey, ?_, ?_⟩
  · intro i hv ha
    have := interleave_getElem? i (vs.map fun pk => ((0 : Nat), pk.data))
      (as.map fun pk => ((1 : Nat), pk.data)) (by simpa using hv) (by simpa using ha)
    have e1 : ∀ k : Nat, (W[k]?).map (fun w : AVPacket => (w.stream_index, w.data))
        = (W.map (fun w : AVPacket => (w.stream_index, w.data)))[k]? := fun k =>
      (List.getElem?_map _ _ _).symm
    rw [e1, e1, hkey, this.1, this.2, List.getElem?_map, List.getElem?_map]
    exact ⟨rfl, rfl⟩
  · have := interleave_drop (vs.map fun pk => ((0 : Nat), pk.data))
      (as.map fun pk => ((1 : Nat), pk.data))
    simp only [List.length_map] at this
    rw [List.map_drop, hkey, this, List.map_drop, List.map_drop]

theorem saveAsMux_round_robin_witness :
    ∃ r, saveAsMux libPlain videoOnly audioOnly 5 = some r ∧ r.bResult = true ∧
      r.written.map (fun w => (w.stream_index, w.data))
        = interleave (videoPackets.map fun pk => (0, pk.data))
            (audioPackets.map fun pk => (1, pk.data)) ∧
      (∀ i, i < videoPackets.length → i < audioPackets.length →
        (r.written[2 * i]?).map (fun w => (w.stream_index, w.data))
            = (videoPackets[i]?).map (fun pk => (0, pk.data)) ∧
        (r.written[2 * i + 1]?).map (fun w => (w.stream_index, w.data))
            = (audioPackets[i]?).map (fun pk => (1, pk.data))) ∧
      (r.written.drop (2 * min videoPackets.length audioPackets.length)).map
          (fun w => (w.stream_index, w.data))
        = (videoPackets.drop (min videoPackets.length audioPackets.length)).map
            (fun pk => (0, pk.data))
          ++ (audioPackets.drop (min videoPackets.length audioPackets.length)).map
            (fun pk => (1, pk.data)) :=
  saveAsMux_round_robin libPlain libPlain_ok videoOnly audioOnly (videoStream 0)
    (audioStream 0) videoPackets audioPackets 5 rfl rfl rfl rfl (by decide)

/-- C18: when every library call succeeds, the mux overload creates exactly two
output streams, index 0 with the codec parameters of the chosen video stream and
index 1 with those of the chosen audio stream (tag 0), and writes `m + n` packets:
every packet read from the video input once, to stream 0, and every packet read from
the audio input once, to stream 1, with `pts` and `dts` passed only through
`av_packet_rescale_ts`. -/
theorem saveAsMux_complete (lib : Lib) (hlib : LibOk lib) (sVideoIn sAudioIn : Demuxer)
    (stVideoIn stAudioIn : AVStream) (vs as : List AVPacket) (fuel : Nat)
    (hsv : findStream AVMediaType.AVMEDIA_TYPE_VIDEO sVideoIn.streams = some stVideoIn)
    (hsa : findStream AVMediaType.AVMEDIA_TYPE_AUDIO sAudioIn.streams = some stAudioIn)
    (hfv : sVideoIn.frames = vs.map Frame.packet)
    (hfa : sAudioIn.frames = as.map Frame.packet)
    (hfuel : max vs.length as.length + 1 < fuel) :
    ∃ r, saveAsMux lib sVideoIn sAudioIn fuel = some r ∧ r.bResult = true ∧
      r.outStreams =
        [{ index := 0, codecpar := { stVideoIn.codecpar with codec_tag := 0 },
           time_base := lib.out_time_base 0 },
         { index := 1, codecpar := { stAudioIn.codecpar with codec_tag := 0 },
           time_base := lib.out_time_base 1 }] ∧
      r.readVideo = vs ∧ r.readAudio = as ∧
      r.written.length = vs.length + as.length ∧
      r.written.Perm
        (vs.map (fun pk =>
            { pk with
              pts := lib.av_packet_rescale_ts stVideoIn.time_base (lib.out_time_base 0) pk.pts
              dts := lib.av_packet_rescale_ts stVideoIn.time_base (lib.out_time_base 0) pk.dts
              pos := -1
              stream_index := 0 })
          ++ as.map (fun pk =>
            { pk with
              pts := lib.av_packet_rescale_ts stAudioIn.time_base (lib.out_time_base 1) pk.pts
              dts := lib.av_packet_rescale_ts stAudioIn.time_base (lib.out_time_base 1) pk.dts
              pos := -1
              stream_index := 1 })) ∧
      r.written.countP (fun w => w.stream_index = 0) = vs.length ∧
      r.written.countP (fun w => w.stream_index = 1) = as.length := by
  refine ⟨_, saveAsMux_ok lib hlib sVideoIn sAudioIn stVideoIn stAudioIn vs as fuel hsv hsa
    hfv hfa hfuel, rfl, rfl, rfl, rfl, ?_⟩
  simp only
  have hperm := interleave_perm
    (vs.map (retimeMux lib stVideoIn
      (newStream lib 0 { stVideoIn.codecpar with codec_tag := 0 })))
    (as.map (retimeMux lib stAudioIn
      (newStream lib 1 { stAudioIn.codecpar with codec_tag := 0 })))
  refine ⟨?_, hperm, ?_, ?_⟩
  · rw [hperm.length_eq]; simp
  · rw [hperm.countP_eq, List.countP_append, List.countP_map, List.countP_map]
    have h0 : vs.countP ((fun w : AVPacket => decide (w.stream_index = 0)) ∘
        retimeMux lib stVideoIn (newStream lib 0 { stVideoIn.codecpar with codec_tag := 0 }))
        = vs.length := by
      rw [List.countP_eq_length]; intro pk _; simp [retimeMux, newStream]
    have h1 : as.countP ((fun w : AVPacket => decide (w.stream_index = 0)) ∘
        retimeMux lib stAudioIn (newStream lib 1 { stAudioIn.codecpar with codec_tag := 0 }))
        = 0 := by
      rw [List.countP_eq_zero]; intro pk _; simp [retimeMux, newStream]
    rw [h0, h1]; rfl
  · rw [hperm.countP_eq, List.countP_append, List.countP_map, List.countP_map]
    have h0 : vs.countP ((fun w : AVPacket => decide (w.stream_index = 1)) ∘
        retimeMux lib stVideoIn (newStream lib 0 { stVideoIn.codecpar with codec_tag := 0 }))
        = 0 := by
      rw [List.countP_eq_zero]; intro pk _; simp [retimeMux, newStream]
    have h1 : as.countP ((fun w : AVPacket => decide (w.stream_index = 1)) ∘
        retimeMux lib stAudioIn (newStream lib 1 { stAudioIn.codecpar with codec_tag := 0 }))
        = as.length := by
      rw [List.countP_eq_length]; intro pk _; simp [retimeMux, newStream]
    rw [h0, h1]; simp

theorem saveAsMux_complete_witness :
    ∃ r, saveAsMux libPlain videoOnly audioOnly 5 = some r ∧ r.bResult = true ∧
      r.outStreams.length = 2 ∧ r.written.length = videoPackets.length + audioPackets.length :=
  match saveAsMux_complete libPlain libPlain_ok videoOnly audioOnly (videoStream 0)
    (audioStream 0) videoPackets audioPackets 5 rfl rfl rfl rfl (by decide) with
  | ⟨r, h, hb, hs, _, _, hl, _⟩ => ⟨r, h, hb, by rw [hs]; rfl, hl⟩

theorem muxVideo_thrown (lib : Lib) (stIn stOut : AVStream) (st st' : MuxState)
    (what : String) (h : muxVideo lib stIn stOut st = Muxed.thrown st' what) :
    firstChar what = some 'a' ∧ what ≠ "" := by
  unfold muxVideo at h
  split at h
  · simp only [Muxed.thrown.injEq] at h; rw [← h.2]; decide
  · simp only at h
    split at h
    · simp at h
    · split at h
      · simp at h
      · simp only [Muxed.thrown.injEq] at h; rw [← h.2]; decide
    · split at h
      · simp only [Muxed.thrown.injEq] at h; rw [← h.2]; decide
      · simp at h

theorem muxAudio_thrown (lib : Lib) (stIn stOut : AVStream) (st st' : MuxState)
    (what : String) (h : muxAudio lib stIn stOut st = Muxed.thrown st' what) :
    firstChar what = some 'a' ∧ what ≠ "" := by
  unfold muxAudio at h
  split at h
  · simp only [Muxed.thrown.injEq] at h; rw [← h.2]; decide
  · simp only at h
    split at h
    · simp at h
    · split at h
      · simp at h
      · simp only [Muxed.thrown.injEq] at h; rw [← h.2]; decide
    · split at h
      · simp only [Muxed.thrown.injEq] at h; rw [← h.2]; decide
      · simp at h

theorem muxLoop_thrown (lib : Lib) (stVideoIn stAudioIn stVideoOut stAudioOut : AVStream) :
    ∀ (fuel : Nat) (st st' : MuxState) (what : String),
      muxLoop lib stVideoIn stAudioIn stVideoOut stAudioOut fuel st
        = some (Muxed.thrown st' what) →
      firstChar what = some 'a' ∧ what ≠ "" := by
  intro fuel
  induction fuel with
  | zero => intro st st' what h; simp [muxLoop] at h
  | succ fuel ih =>
    intro st st' what h
    unfold muxLoop at h
    split at h
    · cases hv : (if !st.bVideoInEOF then muxVideo lib stVideoIn stVideoOut st
          else Muxed.done st) with
      | thrown s1 w1 =>
        rw [hv] at h
        simp only [Option.some.injEq, Muxed.thrown.injEq] at h
        rw [← h.2]
        split at hv
        · exact muxVideo_thrown lib _ _ _ _ _ hv
        · simp at hv
      | done s1 =>
        rw [hv] at h
        simp only at h
        cases ha : (if !s1.bAudioInEOF then muxAudio lib stAudioIn stAudioOut s1
            else Muxed.done s1) with
        | thrown s2 w2 =>
          rw [ha] at h
          simp only [Option.some.injEq, Muxed.thrown.injEq] at h
          rw [← h.2]
          split at ha
          · exact muxAudio_thrown lib _ _ _ _ _ ha
          · simp at ha
        | done s2 =>
          rw [ha] at h
          exact ih _ _ _ h
    · simp at h

theorem findStream_eq_find? (codec_type : AVMediaType) :
    ∀ streams : List AVStream,
      findStream codec_type streams
        = streams.find? (fun st => decide (st.codecpar.codec_type = codec_type)) := by
  intro streams
  induction streams with
  | nil => rfl
  | cons st rest ih =>
    rw [findStream, List.find?_cons, ih]
    by_cases h : codec_type = st.codecpar.codec_type
    · simp [h]
    · have h' : ¬ st.codecpar.codec_type = codec_type := fun hh => h hh.symm
      simp [h, h']

theorem findStream_lowest (codec_type : AVMediaType) :
    ∀ (streams : List AVStream) (st : AVStream), findStream codec_type streams = some st →
      ∃ i : Nat, streams[i]? = some st ∧ st.codecpar.codec_type = codec_type ∧
        ∀ (j : Nat) (st' : AVStream), j < i → streams[j]? = some st' →
          st'.codecpar.codec_type ≠ codec_type := by
  intro streams
  induction streams with
  | nil => intro st h; simp [findStream] at h
  | cons s rest ih =>
    intro st h
    rw [findStream] at h
    by_cases hs : codec_type = s.codecpar.codec_type
    · rw [if_pos hs] at h
      simp only [Option.some.injEq] at h
      subst h
      exact ⟨0, by simp, hs.symm, fun j st' hj _ => absurd hj (Nat.not_lt_zero j)⟩
    · rw [if_neg hs] at h
      obtain ⟨i, hi, hty, hmin⟩ := ih st h
      refine ⟨i + 1, by simpa using hi, hty, ?_⟩
      intro j st' hj hst'
      cases j with
      | zero =>
        simp only [List.getElem?_cons_zero, Option.some.injEq] at hst'
        subst hst'
        exact fun hh => hs hh.symm
      | succ j =>
        exact hmin j st' (by omega) (by simpa using hst')

/-- With both streams found, the last error of a mux run is empty or starts with
the letter a, and the chosen streams are the ones found. -/
theorem saveAsMux_found (lib : Lib) (sVideoIn sAudioIn : Demuxer)
    (stVideoIn stAudioIn : AVStream)
    (ha : ∀ n, lib.avformat_alloc_context n = true)
    (ho : ∀ n, 0 ≤ lib.avformat_open_input n)
    (hi : ∀ n, 0 ≤ lib.avformat_find_stream_info n)
    (hsv : findStream AVMediaType.AVMEDIA_TYPE_VIDEO sVideoIn.streams = some stVideoIn)
    (hsa : findStream AVMediaType.AVMEDIA_TYPE_AUDIO sAudioIn.streams = some stAudioIn)
    (fuel : Nat) (r : MuxResult) (h : saveAsMux lib sVideoIn sAudioIn fuel = some r) :
    r.stVideoIn = some stVideoIn ∧ r.stAudioIn = some stAudioIn ∧
      firstChar r.sLastError ≠ some 'C' := by
  have h1 : ∀ n, ¬ (0 > lib.avformat_open_input n) := fun n => by have := ho n; omega
  have h2 : ∀ n, ¬ (0 > lib.avformat_find_stream_info n) := fun n => by have := hi n; omega
  have hc : ∀ (what : String) (e : Int), firstChar what = some 'a' ∧ what ≠ "" →
      firstChar (caught lib what e) ≠ some 'C' := by
    intro what e hw
    rw [firstChar_caught lib what e hw.2, hw.1]
    decide
  unfold saveAsMux at h
  simp only [ha, Bool.not_true, Bool.false_eq_true, if_false, h1, h2, hsv, hsa,
    MuxResult.start] at h
  split at h
  · simp only [Option.some.injEq] at h; subst h; exact ⟨rfl, rfl, hc _ _ (by decide)⟩
  · split at h
    · simp only [Option.some.injEq] at h; subst h; exact ⟨rfl, rfl, hc _ _ (by decide)⟩
    · split at h
      · simp only [Option.some.injEq] at h; subst h; exact ⟨rfl, rfl, hc _ _ (by decide)⟩
      · split at h
        · simp only [Option.some.injEq] at h; subst h; exact ⟨rfl, rfl, hc _ _ (by decide)⟩
        · split at h
          · simp only [Option.some.injEq] at h; subst h
            exact ⟨rfl, rfl, hc _ _ (by decide)⟩
          · split at h
            · simp only [Option.some.injEq] at h; subst h
              exact ⟨rfl, rfl, hc _ _ (by decide)⟩
            · split at h
              · simp only [Option.some.injEq] at h; subst h
                exact ⟨rfl, rfl, hc _ _ (by decide)⟩
              · split at h
                · simp at h
                · rename_i hl
                  simp only [Option.some.injEq] at h; subst h
                  exact ⟨rfl, rfl, hc _ _ (muxLoop_thrown lib _ _ _ _ _ _ _ _ hl)⟩
                · split at h
                  · simp only [Option.some.injEq] at h; subst h
                    exact ⟨rfl, rfl, hc _ _ (by decide)⟩
                  · simp only [Option.some.injEq] at h; subst h
                    exact ⟨rfl, rfl, by simp [firstChar]⟩

/-- C19: when both inputs open, the mux overload takes the lowest-indexed video
stream of the first input and the lowest-indexed audio stream of the second. Without
a video stream in the first input it returns false with the text "Could not find any
video stream in the video input file"; with one, but without an audio stream in the
second, it returns false with "Could not find any audio stream in the audio input
file"; both times no output stream has been created. With both streams found, no run
ends with either text. -/
theorem saveAsMux_stream_choice (lib : Lib) (sVideoIn sAudioIn : Demuxer)
    (ha : ∀ n, lib.avformat_alloc_context n = true)
    (ho : ∀ n, 0 ≤ lib.avformat_open_input n)
    (hi : ∀ n, 0 ≤ lib.avformat_find_stream_info n) :
    (∀ (codec_type : AVMediaType) (streams : List AVStream) (st : AVStream),
      findStream codec_type streams = some st →
      ∃ i : Nat, streams[i]? = some st ∧ st.codecpar.codec_type = codec_type ∧
        ∀ (j : Nat) (st' : AVStream), j < i → streams[j]? = some st' →
          st'.codecpar.codec_type ≠ codec_type) ∧
    (∀ (codec_type : AVMediaType) (streams : List AVStream),
      findStream codec_type streams = none ↔
        ∀ st ∈ streams, st.codecpar.codec_type ≠ codec_type) ∧
    (findStream AVMediaType.AVMEDIA_TYPE_VIDEO sVideoIn.streams = none →
      ∀ fuel, saveAsMux lib sVideoIn sAudioIn fuel = some
        { bResult := false,
          sLastError := "Could not find any video stream in the video input file",
          inputsOpened := 1, outputOpened := false, stVideoIn := none, stAudioIn := none,
          outStreams := [], readVideo := [], readAudio := [], written := [] }) ∧
    (∀ stVideoIn,
      findStream AVMediaType.AVMEDIA_TYPE_VIDEO sVideoIn.streams = some stVideoIn →
      findStream AVMediaType.AVMEDIA_TYPE_AUDIO sAudioIn.streams = none →
      ∀ fuel, saveAsMux lib sVideoIn sAudioIn fuel = some
        { bResult := false,
          sLastError := "Could not find any audio stream in the audio input file",
          inputsOpened := 2, outputOpened := false, stVideoIn := some stVideoIn,
          stAudioIn := none, outStreams := [], readVideo := [], readAudio := [],
          written := [] }) ∧
    (∀ stVideoIn stAudioIn,
      findStream AVMediaType.AVMEDIA_TYPE_VIDEO sVideoIn.streams = some stVideoIn →
      findStream AVMediaType.AVMEDIA_TYPE_AUDIO sAudioIn.streams = some stAudioIn →
      ∀ fuel r, saveAsMux lib sVideoIn sAudioIn fuel = some r →
        r.stVideoIn = some stVideoIn ∧ r.stAudioIn = some stAudioIn ∧
        r.sLastError ≠ "Could not find any video stream in the video input file" ∧
        r.sLastError ≠ "Could not find any audio stream in the audio input file") := by
  have h1 : ∀ n, ¬ (0 > lib.avformat_open_input n) := fun n => by have := ho n; omega
  have h2 : ∀ n, ¬ (0 > lib.avformat_find_stream_info n) := fun n => by have := hi n; omega
  refine ⟨findStream_lowest, ?_, ?_, ?_, ?_⟩
  · intro ty streams
    rw [findStream_eq_find?, List.find?_eq_none]
    simp
  · intro hv fuel
    unfold saveAsMux
    simp only [ha, Bool.not_true, Bool.false_eq_true, if_false, h1, h2, hv, MuxResult.start,
      caught]
  · intro sv hv hna fuel
    unfold saveAsMux
    simp only [ha, Bool.not_true, Bool.false_eq_true, if_false, h1, h2, hv, hna,
      MuxResult.start, caught]
  · intro sv sa hv hna fuel r hr
    obtain ⟨e1, e2, e3⟩ := saveAsMux_found lib sVideoIn sAudioIn sv sa ha ho hi hv hna fuel r hr
    refine ⟨e1, e2, ?_, ?_⟩
    · intro hh; rw [hh] at e3; exact e3 (by decide)
    · intro hh; rw [hh] at e3; exact e3 (by decide)

theorem saveAsMux_stream_choice_witness :
    (∀ fuel, saveAsMux libPlain audioOnly audioOnly fuel = some
        { bResult := false,
          sLastError := "Could not find any video stream in the video input file",
          inputsOpened := 1, outputOpened := false, stVideoIn := none, stAudioIn := none,
          outStreams := [], readVideo := [], readAudio := [], written := [] }) ∧
    (∀ fuel, saveAsMux libPlain mixedInput videoOnly fuel = some
        { bResult := false,
          sLastError := "Could not find any audio stream in the audio input file",
          inputsOpened := 2, outputOpened := false, stVideoIn := some (videoStream 1),
          stAudioIn := none, outStreams := [], readVideo := [], readAudio := [],
          written := [] }) :=
  ⟨(saveAsMux_stream_choice libPlain audioOnly audioOnly (fun _ => rfl)
      (fun _ => Int.le_refl 0) (fun _ => Int.le_refl 0)).2.2.1 rfl,
   (saveAsMux_stream_choice libPlain mixedInput videoOnly (fun _ => rfl)
      (fun _ => Int.le_refl 0) (fun _ => Int.le_refl 0)).2.2.2.1 (videoStream 1) rfl rfl⟩


/-! ## The end of the copy loop -/

theorem endScan_eq_iff (fEndTime : ℚ) (fLastTime : Nat → ℚ) :
    ∀ n k, endScan fEndTime fLastTime n k = k + n ↔
      ∀ i, i < n → ¬ (fEndTime = 0 ∨ fLastTime (k + i) ≤ fEndTime) := by
  intro n
  induction n with
  | zero => intro k; simp [endScan]
  | succ n ih =>
    intro k
    have hle : ∀ m j, endScan fEndTime fLastTime m j ≤ j + m := by
      intro m
      induction m with
      | zero => intro j; simp [endScan]
      | succ m ihm =>
        intro j
        rw [endScan]
        split
        · omega
        · have := ihm (j + 1); omega
    rw [endScan]
    by_cases h : fEndTime = 0 ∨ fLastTime k ≤ fEndTime
    · rw [if_pos h]
      constructor
      · intro hk; omega
      · intro hall; exact absurd h (by simpa using hall 0 (Nat.succ_pos n))
    · rw [if_neg h]
      have := ih (k + 1)
      rw [show k + 1 + n = k + (n + 1) by omega] at this
      rw [this]
      constructor
      · intro hall i hi
        rcases Nat.eq_zero_or_pos i with h0 | h0
        · subst h0; simpa using h
        · have := hall (i - 1) (by omega)
          rwa [show k + 1 + (i - 1) = k + i by omega] at this
      · intro hall i hi
        have := hall (i + 1) (by omega)
        rwa [show k + (i + 1) = k + 1 + i by omega] at this

theorem endScan_allPast (streams : List AVStream) (fEndTime : ℚ) (fLastTime : Nat → ℚ) :
    endScan fEndTime fLastTime streams.length 0 = streams.length ↔
      AllPast streams fEndTime fLastTime := by
  have := endScan_eq_iff fEndTime fLastTime streams.length 0
  simp only [Nat.zero_add] at this
  rw [this]
  unfold AllPast
  constructor
  · intro h k hk
    have := h k hk
    simp only [not_or, not_le] at this
    exact this
  · intro h k hk
    have := h k hk
    simp only [not_or, not_le]
    exact this

theorem readUpTo_ne_nil (streams : List AVStream) (fEndTime : ℚ) (pk : AVPacket)
    (rest : List AVPacket) (fLastTime : Nat → ℚ) :
    readUpTo streams fEndTime (pk :: rest) fLastTime ≠ [] := by
  rw [readUpTo]; simp

theorem readUpTo_stops (streams : List AVStream) (fEndTime : ℚ) :
    ∀ (pks : List AVPacket) (fLastTime : Nat → ℚ),
      ((readUpTo streams fEndTime pks fLastTime).length < pks.length →
        readUpTo streams fEndTime pks fLastTime ≠ [] ∧
        AllPast streams fEndTime
          (lastTimes streams (readUpTo streams fEndTime pks fLastTime) fLastTime)) ∧
      (∀ j, 1 ≤ j → j ≤ (readUpTo streams fEndTime pks fLastTime).length → j < pks.length →
        ¬ AllPast streams fEndTime (lastTimes streams (pks.take j) fLastTime) →
        j < (readUpTo streams fEndTime pks fLastTime).length) := by
  intro pks
  induction pks with
  | nil => intro f; simp [readUpTo]
  | cons pk rest ih =>
    intro f
    rw [readUpTo]
    by_cases hstop : endScan fEndTime (lastSeen streams f pk) streams.length 0 = streams.length
    · rw [if_pos hstop]
      have hpast := (endScan_allPast streams fEndTime _).1 hstop
      refine ⟨fun _ => ⟨by simp, by simpa [lastTimes] using hpast⟩, ?_⟩
      intro j h1 hj _ hnot
      simp only [List.length_singleton] at hj
      have : j = 1 := by omega
      subst this
      exact absurd (by simpa [lastTimes] using hpast) hnot
    · rw [if_neg hstop]
      obtain ⟨ihA, ihB⟩ := ih (lastSeen streams f pk)
      refine ⟨fun hlen => ⟨by simp, ?_⟩, ?_⟩
      · have := (ihA (by simpa using hlen)).2
        simpa [lastTimes] using this
      · intro j h1 hj hjl hnot
        simp only [List.length_cons] at hj hjl ⊢
        rcases Nat.lt_or_ge 1 j with h2 | h2
        · obtain ⟨m, rfl⟩ : ∃ m, j = m + 1 := ⟨j - 1, by omega⟩
          have := ihB m (by omega) (by omega) (by omega)
            (by simpa [lastTimes] using hnot)
          omega
        · have hj1 : j = 1 := by omega
          subst hj1
          cases rest with
          | nil => simp at hjl
          | cons q rest' =>
            have := readUpTo_ne_nil streams fEndTime q rest' (lastSeen streams f pk)
            have := List.length_pos.2 this
            omega

theorem lastTimes_untouched (streams : List AVStream) (k : Nat) :
    ∀ (pks : List AVPacket) (fLastTime : Nat → ℚ),
      (∀ pk ∈ pks, pk.stream_index ≠ k) →
      lastTimes streams pks fLastTime k = fLastTime k := by
  intro pks
  induction pks with
  | nil => intro f _; rfl
  | cons pk rest ih =>
    intro f h
    have h1 := h pk (List.mem_cons_self pk rest)
    show lastTimes streams rest (lastSeen streams f pk) k = f k
    rw [ih _ (fun q hq => h q (List.mem_cons_of_mem pk hq))]
    unfold lastSeen
    rw [Function.update_noteq (Ne.symm h1)]


/-- C24: in a run of the clip overload in which every library call succeeds, the
packets read are an initial segment of the input; the loop leaves packets unread
only when `fEndTime` is not 0 and, after the last packet read, the last seen time of
every input stream exceeds `fEndTime`; after `j` packets read, if some input stream's
last seen time (0 for a stream without a packet so far) is at most `fEndTime`, the
next packet is read as well; so an input with a stream that carries no packet is
read to its end, and so is every input when `fEndTime` is 0. -/
theorem saveAs_waits_for_slowest (lib : Lib) (hlib : LibOk lib) (sIn : Demuxer)
    (pks : List AVPacket) (hy : Yields sIn pks) (fStartTime fEndTime : ℚ)
    (hv : ValidWindow fStartTime fEndTime) :
    (saveAs lib sIn fStartTime fEndTime).read <+: pks ∧
    ((saveAs lib sIn fStartTime fEndTime).read.length < pks.length →
      fEndTime ≠ 0 ∧ (saveAs lib sIn fStartTime fEndTime).read ≠ [] ∧
      ∀ k, k < sIn.streams.length →
        fEndTime < lastTimes sIn.streams (saveAs lib sIn fStartTime fEndTime).read
          (fun _ => 0) k) ∧
    (∀ j, 1 ≤ j → j ≤ (saveAs lib sIn fStartTime fEndTime).read.length → j < pks.length →
      (∃ k, k < sIn.streams.length ∧
        lastTimes sIn.streams (pks.take j) (fun _ => 0) k ≤ fEndTime) →
      j < (saveAs lib sIn fStartTime fEndTime).read.length) ∧
    ((∃ k, k < sIn.streams.length ∧ ∀ pk ∈ pks, pk.stream_index ≠ k) →
      (saveAs lib sIn fStartTime fEndTime).read = pks) ∧
    (fEndTime = 0 → (saveAs lib sIn fStartTime fEndTime).read = pks) := by
  rw [saveAs_ok lib hlib sIn pks hy fStartTime fEndTime hv]
  simp only
  obtain ⟨hA, hB⟩ := readUpTo_stops sIn.streams fEndTime pks (fun _ => 0)
  have hpre := readUpTo_initial sIn.streams fEndTime pks (fun _ => 0)
  have hearly : (readUpTo sIn.streams fEndTime pks (fun _ => 0)).length < pks.length →
      fEndTime ≠ 0 ∧ readUpTo sIn.streams fEndTime pks (fun _ => 0) ≠ [] ∧
      ∀ k, k < sIn.streams.length →
        fEndTime < lastTimes sIn.streams (readUpTo sIn.streams fEndTime pks (fun _ => 0))
          (fun _ => 0) k := by
    intro hlen
    obtain ⟨hne, hpast⟩ := hA hlen
    have hpos : 0 < sIn.streams.length := by
      cases pks with
      | nil => simp at hlen
      | cons pk rest =>
        exact Nat.lt_of_le_of_lt (Nat.zero_le _) (hy.2 pk (List.mem_cons_self pk rest))
    exact ⟨(hpast 0 hpos).1, hne, fun k hk => (hpast k hk).2⟩
  refine ⟨hpre, hearly, ?_, ?_, ?_⟩
  · intro j h1 hj hjl ⟨k, hk, hle⟩
    exact hB j h1 hj hjl (fun hpast => absurd (hpast k hk).2 (not_lt.2 hle))
  · rintro ⟨k, hk, hnone⟩
    by_contra hne
    have hlen : (readUpTo sIn.streams fEndTime pks (fun _ => 0)).length < pks.length := by
      rcases Nat.lt_or_ge (readUpTo sIn.streams fEndTime pks (fun _ => 0)).length pks.length
        with h | h
      · exact h
      · exact absurd (hpre.eq_of_length_le h) hne
    have h1 := (hearly hlen).2.2 k hk
    rw [lastTimes_untouched sIn.streams k _ _
      (fun pk hpk => hnone pk (hpre.subset hpk))] at h1
    unfold ValidWindow at hv
    simp only [not_or, not_lt] at hv
    exact absurd h1 (not_lt.2 hv.2.1)
  · intro h0
    subst h0
    exact readUpTo_unbounded sIn.streams pks _ hy.2

theorem twoStreamInput_yields : Yields twoStreamInput twoStreamPackets := by
  refine ⟨rfl, ?_⟩
  decide

theorem saveAs_waits_for_slowest_witness :
    (saveAs libPlain twoStreamInput 5 20).read = twoStreamPackets.take 4 ∧
    ((saveAs libPlain twoStreamInput 5 20).read <+: twoStreamPackets ∧
    ((saveAs libPlain twoStreamInput 5 20).read.length < twoStreamPackets.length →
      (20 : ℚ) ≠ 0 ∧ (saveAs libPlain twoStreamInput 5 20).read ≠ [] ∧
      ∀ k, k < twoStreamInput.streams.length →
        20 < lastTimes twoStreamInput.streams (saveAs libPlain twoStreamInput 5 20).read
          (fun _ => 0) k) ∧
    (∀ j, 1 ≤ j → j ≤ (saveAs libPlain twoStreamInput 5 20).read.length →
      j < twoStreamPackets.length →
      (∃ k, k < twoStreamInput.streams.length ∧
        lastTimes twoStreamInput.streams (twoStreamPackets.take j) (fun _ => 0) k ≤ 20) →
      j < (saveAs libPlain twoStreamInput 5 20).read.length) ∧
    ((∃ k, k < twoStreamInput.streams.length ∧
        ∀ pk ∈ twoStreamPackets, pk.stream_index ≠ k) →
      (saveAs libPlain twoStreamInput 5 20).read = twoStreamPackets) ∧
    ((20 : ℚ) = 0 → (saveAs libPlain twoStreamInput 5 20).read = twoStreamPackets)) :=
  ⟨by decide!,
   saveAs_waits_for_slowest libPlain libPlain_ok twoStreamInput twoStreamPackets
     twoStreamInput_yields 5 20 (by unfold ValidWindow; norm_num)⟩


end AVTools

namespace MainWindow

/-! ## The clip planner -/

/-- C20, at the failing input: with total 95, clip length 30, leading 5 and trailing 5
the planner calls `saveAs` three times and passes the third window as (65, 95), not
as (65, 85): the window runs to second 95, through the 5 trailing seconds. -/
theorem plan_windows_not_shortened :
    (createMultipleClips fiTalk 95 30 5 5 4).map Plan.windows
      = some [(5, 35), (35, 65), (65, 95)] ∧
    (createMultipleClips fiTalk 95 30 5 5 4).map Plan.totalClips = some (some 3) ∧
    (createMultipleClips fiTalk 95 30 5 5 4).map Plan.windows
      ≠ some [(5, 35), (35, 65), (65, 85)] ∧
    (95 : ℚ) > 95 - 5 := by
  decide!

/-! ## The planning loop in closed form -/

theorem ceil_facts (T c : Nat) (hc : 1 ≤ c) :
    T ≤ (T + c - 1) / c * c ∧ (T + c - 1) / c * c < T + c ∧
      (1 ≤ T → ((T + c - 1) / c - 1) * c < T) ∧ (T + c - 1) / c ≤ T := by
  have h1 : (T + c - 1) / c * c ≤ T + c - 1 := Nat.div_mul_le_self _ _
  have h2 : T + c - 1 < ((T + c - 1) / c + 1) * c := by
    rw [Nat.mul_comm]
    exact Nat.lt_mul_div_succ _ (by omega)
  have h3 : ((T + c - 1) / c + 1) * c = (T + c - 1) / c * c + c := Nat.succ_mul _ _
  have h4 : (T + c - 1) / c ≤ (T + c - 1) / c * c := Nat.le_mul_of_pos_right _ (by omega)
  refine ⟨by omega, by omega, ?_, ?_⟩
  · intro hT
    have hn : 1 ≤ (T + c - 1) / c := by
      rw [Nat.le_div_iff_mul_le (by omega)]; omega
    obtain ⟨m, hm⟩ : ∃ m, (T + c - 1) / c = m + 1 := ⟨(T + c - 1) / c - 1, by omega⟩
    rw [hm] at h1 ⊢
    have : (m + 1) * c = m * c + c := Nat.succ_mul _ _
    simp only [Nat.add_sub_cancel]
    omega
  · rcases Nat.eq_zero_or_pos T with h0 | h0
    · subst h0
      have : (0 + c - 1) / c = 0 := by
        rw [Nat.div_eq_zero_iff (by omega)]; omega
      omega
    · have hT : (T + c - 1) / c * 1 ≤ (T + c - 1) / c * c := Nat.mul_le_mul_left _ hc
      by_contra hcon
      have hcon' : T + 1 ≤ (T + c - 1) / c := by omega
      have : (T + 1) * c ≤ (T + c - 1) / c * c := Nat.mul_le_mul_right c hcon'
      have h5 : (T + 1) * c = T * c + c := Nat.succ_mul _ _
      have h6 : T * 1 ≤ T * c := Nat.mul_le_mul_left _ hc
      omega

theorem clipLoop_spec (fiTarget : QFileInfo) (T c uiLeadingSize : Nat) (hc : 1 ≤ c)
    (hT : T + c ≤ 2 ^ 32) :
    ∀ m i extra, i + m = (T + c - 1) / c →
      clipLoop fiTarget T c uiLeadingSize (m + 1 + extra) (i * c) i
        = some ((List.range' i m).map (plannedCall fiTarget c uiLeadingSize),
                (T + c - 1) / c) := by
  obtain ⟨hcov, hlt, hlast, hnT⟩ := ceil_facts T c hc
  intro m
  induction m with
  | zero =>
    intro i extra hi
    simp only [Nat.add_zero] at hi
    subst hi
    rw [show 0 + 1 + extra = extra + 1 by omega, clipLoop, if_neg (by omega)]
    rfl
  | succ m ih =>
    intro i extra hi
    have hile : i * c ≤ ((T + c - 1) / c - 1) * c := Nat.mul_le_mul_right c (by omega)
    have hT1 : 1 ≤ T := by
      by_contra h0
      have : T = 0 := by omega
      subst this
      have : (0 + c - 1) / c = 0 := by
        rw [Nat.div_eq_zero_iff (by omega)]; omega
      omega
    have hlt' := hlast hT1
    have hnext : (i + 1) * c = i * c + c := Nat.succ_mul _ _
    have hnext_le : (i + 1) * c ≤ (T + c - 1) / c * c := Nat.mul_le_mul_right c (by omega)
    have hk : u32Add (i * c) c = (i + 1) * c := by
      unfold u32Add u32Size; omega
    have hn : u32Add i 1 = i + 1 := by
      unfold u32Add u32Size; omega
    rw [show m + 1 + 1 + extra = (m + 1 + extra) + 1 by omega, clipLoop,
      if_pos (by omega)]
    simp only [hk, hn]
    rw [ih (i + 1) extra (by omega)]
    simp only [List.range'_succ, List.map_cons, plannedCall]

theorem createMultipleClips_spec (fiTarget : QFileInfo)
    (uiSourceSize uiClipSize uiLeadingSize uiTrailingSize : Nat)
    (hex : fiTarget.fileExists = true) (hclip : uiClipSize ≠ 0)
    (hc : 1 ≤ clamped uiClipSize (trimmed uiSourceSize uiLeadingSize uiTrailingSize))
    (hT : trimmed uiSourceSize uiLeadingSize uiTrailingSize
      + clamped uiClipSize (trimmed uiSourceSize uiLeadingSize uiTrailingSize) ≤ 2 ^ 32)
    (fuel : Nat)
    (hfuel : (trimmed uiSourceSize uiLeadingSize uiTrailingSize
      + clamped uiClipSize (trimmed uiSourceSize uiLeadingSize uiTrailingSize) - 1)
      / clamped uiClipSize (trimmed uiSourceSize uiLeadingSize uiTrailingSize) < fuel) :
    createMultipleClips fiTarget uiSourceSize uiClipSize uiLeadingSize uiTrailingSize fuel
      = some
        { calls := (List.range
            ((trimmed uiSourceSize uiLeadingSize uiTrailingSize
              + clamped uiClipSize (trimmed uiSourceSize uiLeadingSize uiTrailingSize) - 1)
              / clamped uiClipSize (trimmed uiSourceSize uiLeadingSize uiTrailingSize))).map
            (plannedCall fiTarget
              (clamped uiClipSize (trimmed uiSourceSize uiLeadingSize uiTrailingSize))
              uiLeadingSize)
          totalClips := some
            ((trimmed uiSourceSize uiLeadingSize uiTrailingSize
              + clamped uiClipSize (trimmed uiSourceSize uiLeadingSize uiTrailingSize) - 1)
              / clamped uiClipSize (trimmed uiSourceSize uiLeadingSize uiTrailingSize)) } := by
  generalize hTdef : trimmed uiSourceSize uiLeadingSize uiTrailingSize = T at *
  generalize hcdef : clamped uiClipSize T = c at *
  obtain ⟨extra, rfl⟩ : ∃ extra, fuel = (T + c - 1) / c + 1 + extra :=
    ⟨fuel - ((T + c - 1) / c + 1), by omega⟩
  have hloop := clipLoop_spec fiTarget T c uiLeadingSize hc hT ((T + c - 1) / c) 0 extra
    (by omega)
  simp only [Nat.zero_mul] at hloop
  unfold createMultipleClips
  simp only [hex, if_true, hclip, ne_eq, not_false_eq_true]
  unfold trimmed at hTdef
  unfold clamped at hcdef
  simp only [hTdef, hcdef, hloop, List.range_eq_range']

theorem trimmed_exact (S L R : Nat) (h : L + R ≤ S) (hS : S < 2 ^ 32) :
    trimmed S L R = S - L - R := by
  unfold trimmed u32Sub u32Add u32Size
  omega

theorem clamped_eq_min (c T : Nat) : clamped c T = min c T := by
  unfold clamped
  split <;> omega

/-- The plan of a call whose arithmetic does not wrap, in closed form. -/
theorem createMultipleClips_closed (fiTarget : QFileInfo)
    (S C L R : Nat) (hex : fiTarget.fileExists = true) (hC : 1 ≤ C) (hlt : L + R < S)
    (hbound : S + C < 2 ^ 32) (fuel : Nat)
    (hfuel : (S - L - R + min C (S - L - R) - 1) / min C (S - L - R) < fuel) :
    createMultipleClips fiTarget S C L R fuel
      = some
        { calls := (List.range ((S - L - R + min C (S - L - R) - 1) / min C (S - L - R))).map
            (plannedCall fiTarget (min C (S - L - R)) L)
          totalClips := some ((S - L - R + min C (S - L - R) - 1) / min C (S - L - R)) } := by
  have hT := trimmed_exact S L R (by omega) (by omega)
  have hc := clamped_eq_min C (S - L - R)
  have := createMultipleClips_spec fiTarget S C L R hex (by omega)
    (by rw [hT, hc]; omega) (by rw [hT, hc]; omega) fuel (by rw [hT, hc]; exact hfuel)
  rw [hT, hc] at this
  exact this

theorem plannedCall_window (fiTarget : QFileInfo) (c L k : Nat)
    (h : k * c + L + c ≤ 2 ^ 24) :
    ((plannedCall fiTarget c L k).fStartTime, (plannedCall fiTarget c L k).fEndTime)
      = (((L + k * c : Nat) : ℚ), ((L + k * c + c : Nat) : ℚ)) := by
  have h1 : u32Add (k * c) L = L + k * c := by
    unfold u32Add u32Size; omega
  have h2 : u32Add (L + k * c) c = L + k * c + c := by
    unfold u32Add u32Size; omega
  unfold plannedCall floatOfUInt
  simp only [h1, h2]
  rw [IEEE.toFloat_natCast _ (by omega), IEEE.toFloat_natCast _ (by omega)]

/-- The windows of a plan whose times are `float` values (`uiSourceSize + uiClipSize`
at most `2 ^ 24`), in closed form, with the facts about the number of windows. -/
theorem plan_windows_closed (fiTarget : QFileInfo)
    (S C L R : Nat) (hex : fiTarget.fileExists = true) (hC : 1 ≤ C) (hlt : L + R < S)
    (hbound : S + C ≤ 2 ^ 24) (fuel : Nat)
    (hfuel : (S - L - R + min C (S - L - R) - 1) / min C (S - L - R) < fuel) :
    ∃ plan n, createMultipleClips fiTarget S C L R fuel = some plan ∧
      n = (S - L - R + min C (S - L - R) - 1) / min C (S - L - R) ∧
      plan.calls.length = n ∧ plan.totalClips = some n ∧
      plan.windows = (List.range n).map
        (fun k => (((L + k * min C (S - L - R) : Nat) : ℚ),
          ((L + k * min C (S - L - R) + min C (S - L - R) : Nat) : ℚ))) ∧
      1 ≤ n ∧ S - L - R ≤ n * min C (S - L - R) ∧ (n - 1) * min C (S - L - R) < S - L - R := by
  have hplan := createMultipleClips_closed fiTarget S C L R hex hC hlt
    (by have : (2 : Nat) ^ 24 < 2 ^ 32 := by decide
        omega) fuel hfuel
  have hc1 : 1 ≤ min C (S - L - R) := by omega
  have hcC : min C (S - L - R) ≤ C := by omega
  have hTS : S - L - R + L + R = S := by omega
  obtain ⟨hcov, hlt', hlast, hnT⟩ := ceil_facts (S - L - R) (min C (S - L - R)) hc1
  generalize S - L - R = T at *
  generalize min C T = c at *
  generalize (T + c - 1) / c = n at *
  have hn1 : 1 ≤ n := by
    by_contra h0
    have : n = 0 := by omega
    subst this
    omega
  refine ⟨_, n, hplan, rfl, by simp, rfl, ?_, hn1, hcov, hlast (by omega)⟩
  simp only [Plan.windows, List.map_map]
  apply List.map_congr_left
  intro k hk
  have hk' := List.mem_range.1 hk
  have hle : k * c ≤ (n - 1) * c := Nat.mul_le_mul_right _ (by omega)
  have := hlast (by omega)
  exact plannedCall_window fiTarget _ L k (by omega)

/-! ## The windows of a plan -/

theorem ceilDiv_eq (T c : Nat) : T ⌈/⌉ c = (T + c - 1) / c :=
  Nat.ceilDiv_eq_add_pred_div T c

theorem range_map_getElem? {α : Type} (f : Nat → α) (n i : Nat) (a : α)
    (h : ((List.range n).map f)[i]? = some a) : i < n ∧ a = f i := by
  rw [List.getElem?_map] at h
  rcases Nat.lt_or_ge i n with hi | hi
  · rw [List.getElem?_range hi] at h
    simp only [Option.map_some', Option.some.injEq] at h
    exact ⟨hi, h.symm⟩
  · rw [List.getElem?_eq_none (by simpa using hi)] at h
    simp at h

/-- C29: for an existing source and 32-bit values with `uiClipSize ≥ 1`,
`uiLeadingSize + uiTrailingSize < uiSourceSize` and `uiSourceSize + uiClipSize < 2 ^ 32`,
the planning loop ends (any fuel above the number of clips is enough), calls `saveAs`
exactly `ceil(T / min(uiClipSize, T))` times, where
`T = uiSourceSize - uiLeadingSize - uiTrailingSize`, and logs that number as the
total. -/
theorem createMultipleClips_count (fiTarget : QFileInfo) (S C L R : Nat)
    (hex : fiTarget.fileExists = true) (hC : 1 ≤ C) (hlt : L + R < S)
    (hbound : S + C < 2 ^ 32) (fuel : Nat)
    (hfuel : (S - L - R) ⌈/⌉ min C (S - L - R) < fuel) :
    ∃ plan, createMultipleClips fiTarget S C L R fuel = some plan ∧
      plan.calls.length = (S - L - R) ⌈/⌉ min C (S - L - R) ∧
      plan.totalClips = some ((S - L - R) ⌈/⌉ min C (S - L - R)) := by
  rw [ceilDiv_eq] at hfuel ⊢
  exact ⟨_, createMultipleClips_closed fiTarget S C L R hex hC hlt hbound fuel hfuel,
    by simp, rfl⟩

theorem createMultipleClips_count_witness :
    ∃ plan, createMultipleClips fiTalk 95 30 5 5 4 = some plan ∧
      plan.calls.length = (95 - 5 - 5) ⌈/⌉ min 30 (95 - 5 - 5) ∧
      plan.totalClips = some ((95 - 5 - 5) ⌈/⌉ min 30 (95 - 5 - 5)) :=
  createMultipleClips_count fiTalk 95 30 5 5 rfl (by decide) (by decide) (by decide) 4
    (by rw [ceilDiv_eq]; decide)

/-- C21, counterexample: with total 100, clip length 30 and no trim the planner
passes four windows, and the last one ends at 120, past the total of 100. -/
theorem plan_last_window_past_total :
    (createMultipleClips fiTalk 100 30 0 0 5).map Plan.windows
      = some [(0, 30), (30, 60), (60, 90), (90, 120)] ∧
    ¬ (∀ plan, createMultipleClips fiTalk 100 30 0 0 5 = some plan →
        ∀ w ∈ plan.windows, w.2 ≤ 100 - 0) := by
  have hmap : (createMultipleClips fiTalk 100 30 0 0 5).map Plan.windows
      = some [(0, 30), (30, 60), (60, 90), (90, 120)] := by
    decide!
  refine ⟨hmap, fun h => ?_⟩
  cases hc : createMultipleClips fiTalk 100 30 0 0 5 with
  | none => rw [hc] at hmap; simp at hmap
  | some plan =>
    rw [hc] at hmap
    simp only [Option.map_some', Option.some.injEq] at hmap
    have := h plan hc (90, 120) (by rw [hmap]; simp)
    norm_num at this

/-- C21, amended: for an existing source and values with `uiClipSize ≥ 1`,
`uiLeadingSize + uiTrailingSize < uiSourceSize` and `uiSourceSize + uiClipSize`
at most `2 ^ 24`, the first window starts at `uiLeadingSize`, each later window
starts where the one before ends, every window but the last is `min(uiClipSize, T)`
long and ends before `uiSourceSize - uiTrailingSize`, and the last window starts
before `uiSourceSize - uiTrailingSize`; when `min(uiClipSize, T)` divides
`T = uiSourceSize - uiLeadingSize - uiTrailingSize` the last window ends at
`uiSourceSize - uiTrailingSize`; when `uiTrailingSize` is 0 the last window is
`min(uiClipSize, T)` long as well and ends at or after `uiSourceSize`. -/
theorem plan_windows_cover (fiTarget : QFileInfo) (S C L R : Nat)
    (hex : fiTarget.fileExists = true) (hC : 1 ≤ C) (hlt : L + R < S)
    (hbound : S + C ≤ 2 ^ 24) (fuel : Nat)
    (hfuel : (S - L - R) ⌈/⌉ min C (S - L - R) < fuel) :
    ∃ plan last, createMultipleClips fiTarget S C L R fuel = some plan ∧
      (∃ e, plan.windows[0]? = some ((L : ℚ), e)) ∧
      (∀ i a b, plan.windows[i]? = some a → plan.windows[i + 1]? = some b → b.1 = a.2) ∧
      (∀ i a, i + 1 < plan.windows.length → plan.windows[i]? = some a →
        a.2 = a.1 + (min C (S - L - R) : Nat) ∧ a.2 < ((S - R : Nat) : ℚ)) ∧
      plan.windows[plan.windows.length - 1]? = some last ∧
      last.1 < ((S - R : Nat) : ℚ) ∧
      (min C (S - L - R) ∣ S - L - R → last.2 = ((S - R : Nat) : ℚ)) ∧
      (R = 0 → last.2 = last.1 + (min C (S - L - R) : Nat) ∧ (S : ℚ) ≤ last.2) := by
  rw [ceilDiv_eq] at hfuel
  obtain ⟨plan, n, hplan, _, _, _, hw, hn1, hcov, hlast⟩ :=
    plan_windows_closed fiTarget S C L R hex hC hlt hbound fuel hfuel
  have hc1 : 1 ≤ min C (S - L - R) := by omega
  have hTS : S - L - R + L + R = S := by omega
  generalize S - L - R = T at *
  generalize min C T = c at *
  have hlen : plan.windows.length = n := by simp [hw]
  have hn1c : (n - 1) * c + c = n * c := by
    obtain ⟨m, rfl⟩ : ∃ m, n = m + 1 := ⟨n - 1, by omega⟩
    simp [Nat.succ_mul]
  refine ⟨plan, (((L + (n - 1) * c : Nat) : ℚ), ((L + (n - 1) * c + c : Nat) : ℚ)), hplan,
    ⟨((L + 0 * c + c : Nat) : ℚ), ?_⟩, ?_, ?_, ?_, ?_, ?_, ?_⟩
  · rw [hw, List.getElem?_map, List.getElem?_range (by omega)]
    simp
  · intro i a b ha hb
    rw [hw] at ha hb
    obtain ⟨_, rfl⟩ := range_map_getElem? _ n i a ha
    obtain ⟨_, rfl⟩ := range_map_getElem? _ n (i + 1) b hb
    show ((L + (i + 1) * c : Nat) : ℚ) = ((L + i * c + c : Nat) : ℚ)
    rw [Nat.succ_mul, Nat.add_assoc]
  · intro i a hi ha
    rw [hlen] at hi
    rw [hw] at ha
    obtain ⟨_, rfl⟩ := range_map_getElem? _ n i a ha
    have hle : (i + 1) * c ≤ (n - 1) * c := Nat.mul_le_mul_right _ (by omega)
    have hs : (i + 1) * c = i * c + c := Nat.succ_mul _ _
    refine ⟨by show ((L + i * c + c : Nat) : ℚ) = ((L + i * c : Nat) : ℚ) + (c : ℚ)
               push_cast; ring, ?_⟩
    show ((L + i * c + c : Nat) : ℚ) < ((S - R : Nat) : ℚ)
    exact_mod_cast (by omega : L + i * c + c < S - R)
  · rw [hlen, hw, List.getElem?_map, List.getElem?_range (by omega)]
    rfl
  · show ((L + (n - 1) * c : Nat) : ℚ) < ((S - R : Nat) : ℚ)
    exact_mod_cast (by omega : L + (n - 1) * c < S - R)
  · rintro ⟨q, hq⟩
    rw [Nat.mul_comm] at hq
    have h1 : (n - 1) * c < q * c := by omega
    have h2 : q * c ≤ n * c := by omega
    have h3 : n - 1 < q := Nat.lt_of_mul_lt_mul_right h1
    have h4 : q ≤ n := Nat.le_of_mul_le_mul_right h2 (by omega)
    have : q = n := by omega
    subst this
    show ((L + (q - 1) * c + c : Nat) : ℚ) = ((S - R : Nat) : ℚ)
    exact_mod_cast (by omega : L + (q - 1) * c + c = S - R)
  · intro hR
    refine ⟨by show ((L + (n - 1) * c + c : Nat) : ℚ) = ((L + (n - 1) * c : Nat) : ℚ) + (c : ℚ)
               push_cast; ring, ?_⟩
    show (S : ℚ) ≤ ((L + (n - 1) * c + c : Nat) : ℚ)
    exact_mod_cast (by omega : S ≤ L + (n - 1) * c + c)

theorem plan_windows_cover_witness :
    ∃ plan last, createMultipleClips fiTalk 90 30 0 0 4 = some plan ∧
      (∃ e, plan.windows[0]? = some (((0 : Nat) : ℚ), e)) ∧
      (∀ i a b, plan.windows[i]? = some a → plan.windows[i + 1]? = some b → b.1 = a.2) ∧
      (∀ i a, i + 1 < plan.windows.length → plan.windows[i]? = some a →
        a.2 = a.1 + (min 30 (90 - 0 - 0) : Nat) ∧ a.2 < ((90 - 0 : Nat) : ℚ)) ∧
      plan.windows[plan.windows.length - 1]? = some last ∧
      last.1 < ((90 - 0 : Nat) : ℚ) ∧
      (min 30 (90 - 0 - 0) ∣ 90 - 0 - 0 → last.2 = ((90 - 0 : Nat) : ℚ)) ∧
      ((0 : Nat) = 0 → last.2 = last.1 + (min 30 (90 - 0 - 0) : Nat) ∧
        ((90 : Nat) : ℚ) ≤ last.2) :=
  plan_windows_cover fiTalk 90 30 0 0 rfl (by decide) (by decide) (by decide) 4
    (by rw [ceilDiv_eq]; decide)

/-- C22: for an existing source and values with `uiClipSize ≥ 1`,
`uiLeadingSize + uiTrailingSize < uiSourceSize` and `uiSourceSize + uiClipSize` at
most `2 ^ 24` (every call the window makes: `uiSourceSize` is a `uint` number of
milliseconds divided by 1000, and the clip size is at most `uiSourceSize`), the
`float` windows passed to `saveAs` are such that the first starts at `uiLeadingSize`,
each later one starts exactly where the one before ends, and every one has its
start before its end and passes the time-range test of `saveAs`; when `uiClipSize`
is at least the trimmed duration there is
exactly one window, from `uiLeadingSize` to `uiLeadingSize` plus the trimmed
duration. -/
theorem plan_windows_contiguous (fiTarget : QFileInfo) (S C L R : Nat)
    (hex : fiTarget.fileExists = true) (hC : 1 ≤ C) (hlt : L + R < S)
    (hbound : S + C ≤ 2 ^ 24) (fuel : Nat)
    (hfuel : (S - L - R) ⌈/⌉ min C (S - L - R) < fuel) :
    ∃ plan, createMultipleClips fiTarget S C L R fuel = some plan ∧
      (∃ e, plan.windows[0]? = some ((L : ℚ), e)) ∧
      (∀ i a b, plan.windows[i]? = some a → plan.windows[i + 1]? = some b → b.1 = a.2) ∧
      (∀ w ∈ plan.windows, w.1 < w.2 ∧ AVTools.ValidWindow w.1 w.2) ∧
      (S - L - R ≤ C → plan.windows = [((L : ℚ), ((L + (S - L - R) : Nat) : ℚ))]) := by
  rw [ceilDiv_eq] at hfuel
  obtain ⟨plan, n, hplan, hn, _, _, hw, hn1, hcov, hlast⟩ :=
    plan_windows_closed fiTarget S C L R hex hC hlt hbound fuel hfuel
  have hc1 : 1 ≤ min C (S - L - R) := by omega
  have hmin : S - L - R ≤ C → min C (S - L - R) = S - L - R := by omega
  have hT1 : 1 ≤ S - L - R := by omega
  generalize S - L - R = T at *
  generalize min C T = c at *
  refine ⟨plan, hplan, ⟨((L + 0 * c + c : Nat) : ℚ), ?_⟩, ?_, ?_, ?_⟩
  · rw [hw, List.getElem?_map, List.getElem?_range (by omega)]
    simp
  · intro i a b ha hb
    rw [hw] at ha hb
    obtain ⟨_, rfl⟩ := range_map_getElem? _ n i a ha
    obtain ⟨_, rfl⟩ := range_map_getElem? _ n (i + 1) b hb
    show ((L + (i + 1) * c : Nat) : ℚ) = ((L + i * c + c : Nat) : ℚ)
    rw [Nat.succ_mul, Nat.add_assoc]
  · intro w hmem
    rw [hw] at hmem
    obtain ⟨k, _, rfl⟩ := List.mem_map.1 hmem
    have hlt2 : ((L + k * c : Nat) : ℚ) < ((L + k * c + c : Nat) : ℚ) := by
      exact_mod_cast (by omega : L + k * c < L + k * c + c)
    have h0 : (0 : ℚ) ≤ ((L + k * c : Nat) : ℚ) := Nat.cast_nonneg _
    refine ⟨hlt2, ?_⟩
    show ¬ (0 > ((L + k * c : Nat) : ℚ) ∨ 0 > ((L + k * c + c : Nat) : ℚ)
      ∨ 0 > ((L + k * c + c : Nat) : ℚ) - ((L + k * c : Nat) : ℚ))
    rintro (h | h | h) <;> linarith
  · intro hle
    have hcT := hmin hle
    subst hcT
    have h1 : (n - 1) * c < 1 * c := by omega
    have h2 := Nat.lt_of_mul_lt_mul_right h1
    have hn' : n = 1 := by omega
    rw [hw, hn']
    show [(((L + 0 * c : Nat) : ℚ), ((L + 0 * c + c : Nat) : ℚ))]
      = [((L : ℚ), ((L + c : Nat) : ℚ))]
    rw [Nat.zero_mul, Nat.add_zero]

theorem plan_windows_contiguous_witness :
    ∃ plan, createMultipleClips fiTalk 100 30 5 5 4 = some plan ∧
      (∃ e, plan.windows[0]? = some (((5 : Nat) : ℚ), e)) ∧
      (∀ i a b, plan.windows[i]? = some a → plan.windows[i + 1]? = some b → b.1 = a.2) ∧
      (∀ w ∈ plan.windows, w.1 < w.2 ∧ AVTools.ValidWindow w.1 w.2) ∧
      (100 - 5 - 5 ≤ 30 →
        plan.windows = [(((5 : Nat) : ℚ), ((5 + (100 - 5 - 5) : Nat) : ℚ))]) :=
  plan_windows_contiguous fiTalk 100 30 5 5 rfl (by decide) (by decide) (by decide) 4
    (by rw [ceilDiv_eq]; decide)

/-- C23, at a failing input: with total 10, clip length 5, leading 8 and trailing 8
the subtraction of line 609 wraps to 4294967290, and the planner calls `saveAs`
858993458 times, first with the windows (8, 13) and (13, 18); with total 16 and the
same trims, and with clip length 0, it makes no call. -/
theorem plan_negative_interval_not_empty :
    (∃ plan, createMultipleClips fiTalk 10 5 8 8 858993459 = some plan ∧
      plan.calls.length = 858993458 ∧ plan.totalClips = some 858993458 ∧
      plan.windows[0]? = some (8, 13) ∧ plan.windows[1]? = some (13, 18)) ∧
    trimmed 10 8 8 = 4294967290 ∧
    createMultipleClips fiTalk 16 5 8 8 1 = some { calls := [], totalClips := some 0 } ∧
    createMultipleClips fiTalk 10 0 8 8 1 = some { calls := [], totalClips := none } := by
  refine ⟨?_, by decide, by decide, by decide⟩
  have h := createMultipleClips_spec fiTalk 10 5 8 8 rfl (by decide) (by decide) (by decide)
    858993459 (by decide)
  have hT : trimmed 10 8 8 = 4294967290 := by decide
  have hc : clamped 5 4294967290 = 5 := by decide
  rw [hT, hc] at h
  have hn : (4294967290 + 5 - 1) / 5 = 858993458 := by decide
  rw [hn] at h
  refine ⟨_, h, by simp, rfl, ?_, ?_⟩
  · simp only [Plan.windows, List.map_map, List.getElem?_map]
    rw [List.getElem?_range (by decide)]
    decide!
  · simp only [Plan.windows, List.map_map, List.getElem?_map]
    rw [List.getElem?_range (by decide)]
    decide!

/-! ## The name of a clip -/

theorem pieces_plain_append (cs rest : List Char) (h : '%' ∉ cs) :
    pieces ArgState.plain (cs ++ rest) = cs.map Piece.char ++ pieces ArgState.plain rest := by
  induction cs with
  | nil => rfl
  | cons c cs ih =>
    have hc : c ≠ '%' := fun e => h (by rw [e]; exact List.mem_cons_self _ _)
    have hcs : '%' ∉ cs := fun e => h (List.mem_cons_of_mem _ e)
    show pieces ArgState.plain (c :: (cs ++ rest)) = _
    rw [pieces, if_neg hc, ih hcs]
    rfl

theorem minEscape_chars (cs : List Char) (ps : List Piece) :
    minEscape (cs.map Piece.char ++ ps) = minEscape ps := by
  induction cs with
  | nil => rfl
  | cons c cs ih => simpa [minEscape] using ih

theorem replaceArgEscapes_chars (m w : Nat) (a la : List Char) (f : Char) (cs : List Char)
    (ps : List Piece) :
    replaceArgEscapes m w a la f (cs.map Piece.char ++ ps)
      = cs ++ replaceArgEscapes m w a la f ps := by
  induction cs with
  | nil => rfl
  | cons c cs ih => simp [replaceArgEscapes, ih]

theorem arg2_template (a b : String) :
    arg2 "%1/%2.%3.%4" a b = String.mk (a.data ++ '/' :: b.data ++ ".%3.%4".data) := by
  have hp : pieces ArgState.plain "%1/%2.%3.%4".data
      = [marker1 false '1', Piece.char '/', marker1 false '2', Piece.char '.',
         marker1 false '3', Piece.char '.', marker1 false '4'] := by decide
  have hm : minEscape [marker1 false '1', Piece.char '/', marker1 false '2', Piece.char '.',
         marker1 false '3', Piece.char '.', marker1 false '4'] = some 1 := by decide
  have hn : nextEscape 1 [marker1 false '1', Piece.char '/', marker1 false '2', Piece.char '.',
         marker1 false '3', Piece.char '.', marker1 false '4'] = some 2 := by decide
  unfold arg2
  rw [hp, hm]
  simp only [hn]
  have h1 : digitValue '1' = 1 := by decide
  have h2 : digitValue '2' = 2 := by decide
  have h3 : digitValue '3' = 3 := by decide
  have h4 : digitValue '4' = 4 := by decide
  simp [multiArg, marker1, h1, h2, h3, h4]

theorem digitChar_facts (m : Nat) (h : m < 10) :
    Nat.digitChar m ≠ '%' ∧ (Nat.digitChar m).toNat - 48 = m := by
  interval_cases m <;> exact ⟨by decide, by decide⟩

theorem toDigitsCore_append (fuel : Nat) :
    ∀ n ds, Nat.toDigitsCore 10 fuel n ds = Nat.toDigitsCore 10 fuel n [] ++ ds := by
  induction fuel with
  | zero => intro n ds; rfl
  | succ fuel ih =>
    intro n ds
    simp only [Nat.toDigitsCore]
    split
    · rfl
    · rw [ih (n / 10) (Nat.digitChar (n % 10) :: ds), ih (n / 10) [Nat.digitChar (n % 10)]]
      simp

theorem toDigitsCore_spec (fuel : Nat) :
    ∀ n, n < fuel →
      '%' ∉ Nat.toDigitsCore 10 fuel n [] ∧
      (Nat.toDigitsCore 10 fuel n []).foldl (fun a c => 10 * a + (c.toNat - 48)) 0 = n := by
  induction fuel with
  | zero => intro n h; omega
  | succ fuel ih =>
    intro n hn
    obtain ⟨hd1, hd2⟩ := digitChar_facts (n % 10) (Nat.mod_lt n (by decide))
    simp only [Nat.toDigitsCore]
    split
    · rename_i h0
      refine ⟨by simpa using hd1.symm, ?_⟩
      simp only [List.foldl_cons, List.foldl_nil, Nat.mul_zero, Nat.zero_add, hd2]
      omega
    · rename_i h0
      obtain ⟨i1, i2⟩ := ih (n / 10) (by omega)
      rw [toDigitsCore_append]
      refine ⟨?_, ?_⟩
      · simp only [List.mem_append, List.mem_singleton, not_or]
        exact ⟨i1, hd1.symm⟩
      · rw [List.foldl_append, i2]
        simp only [List.foldl_cons, List.foldl_nil, hd2]
        omega

theorem toString_data (k : Nat) : (toString k).data = Nat.toDigitsCore 10 (k + 1) k [] := rfl

theorem padded_data (k : Nat) :
    (padded k).data = List.replicate (3 - (toString k).length) '0' ++ (toString k).data := by
  simp [padded, String.data_append]

theorem padded_no_percent (k : Nat) : '%' ∉ (padded k).data := by
  rw [padded_data, toString_data]
  simp only [List.mem_append, not_or]
  refine ⟨fun h => ?_, (toDigitsCore_spec (k + 1) k (by omega)).1⟩
  have := List.eq_of_mem_replicate h
  exact absurd this (by decide)

theorem foldl_zeros (z : Nat) (cs : List Char) :
    (List.replicate z '0' ++ cs).foldl (fun a c => 10 * a + (c.toNat - 48)) 0
      = cs.foldl (fun a c => 10 * a + (c.toNat - 48)) 0 := by
  induction z with
  | zero => rfl
  | succ z ih =>
    rw [List.replicate_succ, List.cons_append, List.foldl_cons]
    have : 10 * 0 + ('0'.toNat - 48) = 0 := by decide
    rw [this, ih]

theorem padded_value (k : Nat) :
    (padded k).data.foldl (fun a c => 10 * a + (c.toNat - 48)) 0 = k := by
  rw [padded_data, foldl_zeros, toString_data]
  exact (toDigitsCore_spec (k + 1) k (by omega)).2

theorem padded_injective (k k' : Nat) (h : padded k = padded k') : k = k' := by
  have := congrArg (fun s : String => s.data.foldl (fun a c => 10 * a + (c.toNat - 48)) 0) h
  simpa [padded_value] using this

theorem arg_of_pieces (s a la : String) (w : Nat) (f : Char) (P R : List Char)
    (hs : s.data = P ++ R) (hP : '%' ∉ P) (m : Nat)
    (hm : minEscape (pieces ArgState.plain R) = some m) :
    arg s a la w f
      = String.mk (P ++ replaceArgEscapes m w a.data la.data f (pieces ArgState.plain R)) := by
  unfold arg
  rw [hs, pieces_plain_append P R hP, minEscape_chars, hm]
  simp only [replaceArgEscapes_chars]

/-- For a source whose directory and base name hold no `%`, the clip with number `k`
is named "directory/base name.k.suffix", with `k` in decimal padded with '0' to at
least 3 digits, and clips with different numbers get different names. -/
theorem targetClip_plain (fiTarget : QFileInfo) (k : Nat)
    (h1 : '%' ∉ fiTarget.absolutePath.data) (h2 : '%' ∉ fiTarget.completeBaseName.data) :
    targetClip fiTarget k = namedClip fiTarget k ∧
    ∀ k', k ≠ k' → targetClip fiTarget k ≠ targetClip fiTarget k' := by
  have key : ∀ j, targetClip fiTarget j = namedClip fiTarget j := by
    intro j
    have hP : '%' ∉ fiTarget.absolutePath.data ++ '/' :: fiTarget.completeBaseName.data := by
      simp only [List.mem_append, List.mem_cons, not_or]
      exact ⟨h1, by decide, h2⟩
    have hR : pieces ArgState.plain ".%3.%4".data
        = [Piece.char '.', marker1 false '3', Piece.char '.', marker1 false '4'] := by decide
    have hm : minEscape [Piece.char '.', marker1 false '3', Piece.char '.', marker1 false '4']
        = some 3 := by decide
    have h3 : digitValue '3' = 3 := by decide
    have h4 : digitValue '4' = 4 := by decide
    have step1 := arg_of_pieces
      (String.mk (fiTarget.absolutePath.data ++ '/' :: fiTarget.completeBaseName.data
        ++ ".%3.%4".data))
      (toString j) (toString j) 3 '0'
      (fiTarget.absolutePath.data ++ '/' :: fiTarget.completeBaseName.data) ".%3.%4".data
      (by simp) hP 3 (by rw [hR, hm])
    rw [hR] at step1
    simp only [replaceArgEscapes, marker1, h3, h4, if_true, Bool.false_eq_true, if_false,
      show (4 : Nat) = 3 ↔ False from by decide, List.append_nil] at step1
    have hQ : '%' ∉ fiTarget.absolutePath.data ++ '/' :: fiTarget.completeBaseName.data
        ++ '.' :: ((padded j).data ++ ['.']) := by
      simp only [List.mem_append, List.mem_cons, List.mem_singleton, not_or]
      exact ⟨⟨h1, by decide, h2⟩, by decide, padded_no_percent j, by decide⟩
    have hR2 : pieces ArgState.plain ['%', '4'] = [marker1 false '4'] := by decide
    have hm2 : minEscape [marker1 false '4'] = some 4 := by decide
    have step2 := arg_of_pieces
      (String.mk (fiTarget.absolutePath.data ++ '/' :: fiTarget.completeBaseName.data
        ++ '.' :: ((padded j).data ++ ['.']) ++ ['%', '4']))
      fiTarget.suffix fiTarget.suffix 0 (Char.ofNat 32)
      (fiTarget.absolutePath.data ++ '/' :: fiTarget.completeBaseName.data
        ++ '.' :: ((padded j).data ++ ['.'])) ['%', '4']
      rfl hQ 4 (by rw [hR2, hm2])
    rw [hR2] at step2
    simp only [replaceArgEscapes, marker1, h4, if_true, Bool.false_eq_true, if_false,
      Nat.zero_sub, List.replicate_zero, List.nil_append, List.append_nil] at step2
    unfold targetClip
    rw [arg2_template, step1]
    have hshape : (fiTarget.absolutePath.data ++ '/' :: fiTarget.completeBaseName.data ++
          '.' :: (List.replicate (3 - (toString j).data.length) '0' ++ (toString j).data ++
            '.' :: ['%', '4']))
        = fiTarget.absolutePath.data ++ '/' :: fiTarget.completeBaseName.data
          ++ '.' :: ((padded j).data ++ ['.']) ++ ['%', '4'] := by
      rw [padded_data]
      simp only [String.length, List.append_assoc, List.cons_append, List.nil_append]
      rfl
    rw [hshape, step2]
    apply String.ext
    simp [namedClip, String.data_append]
  refine ⟨key k, fun k' hne heq => ?_⟩
  rw [key k, key k'] at heq
  have hd := congrArg String.data heq
  simp only [namedClip, String.data_append, List.append_assoc, List.append_cancel_left_eq]
    at hd
  have hp : (padded k).data = (padded k').data := by
    have hlen := congrArg List.length hd
    simp only [List.length_append] at hlen
    exact List.append_inj_left hd (by omega)
  exact hne (padded_injective k k' (String.ext hp))

/-- C26, at failing inputs: for the source `/videos/talk.mp4` clip 1 is named
`/videos/talk.001.mp4`; for a source in a directory named `%1` the clip number
replaces that `%1`, so that clip 1 is named `/videos/001/talk.mp4.%4`, not
`/videos/%1/talk.001.mp4`; and for a source in a directory named `%%1` the clips 10
and 20 of one plan of 20 windows get the same name. -/
theorem targetClip_place_marker_in_path :
    targetClip fiTalk 1 = "/videos/talk.001.mp4" ∧
    namedClip fiMarker 1 = "/videos/%1/talk.001.mp4" ∧
    targetClip fiMarker 1 = "/videos/001/talk.mp4.%4" ∧
    targetClip fiTwoPercent 10 = "/videos/mp40/talk.%3.%4" ∧
    targetClip fiTwoPercent 20 = "/videos/mp40/talk.%3.%4" ∧
    (createMultipleClips fiTwoPercent 100 5 0 0 21).map
        (fun plan => (plan.calls.length,
          (plan.calls.map (fun call => call.sTargetClip))[9]?,
          (plan.calls.map (fun call => call.sTargetClip))[19]?))
      = some (20, some "/videos/mp40/talk.%3.%4", some "/videos/mp40/talk.%3.%4") := by
  decide

/-! ## The audio track -/

theorem entryAt_append (pre : List MediaEntry) (e : MediaEntry) (rest : List MediaEntry) :
    entryAt (pre ++ e :: rest) pre.length = e := by
  induction pre with
  | nil => rfl
  | cons p pre ih => simpa [entryAt] using ih

/-- The search loop when the test of line 366 fails: it ends with the last
audio-only entry of the subtype and the last audio-only entry, if there are any. -/
theorem searchAudio_no_break (getSubtype : String → String) (melList : List MediaEntry)
    (iMediaIndex : Nat) (video : MediaEntry)
    (hq : video.sVideoQuality ≠ (entryAt melList iMediaIndex).sAudioQuality) :
    ∀ (l pre : List MediaEntry) (st : AudioSearch), melList = pre ++ l →
      searchAudio getSubtype melList iMediaIndex (getSubtype video.sMIMEType)
          video.sVideoQuality l.length pre.length st
        = { iAudioIndex := st.iAudioIndex
            i2ndBestAudioIndex :=
              if lastIndex (sameSubtype getSubtype video) l pre.length ≠ -1 then
                lastIndex (sameSubtype getSubtype video) l pre.length
              else st.i2ndBestAudioIndex
            iWorstAudioIndex :=
              if lastIndex isAudio l pre.length ≠ -1 then lastIndex isAudio l pre.length
              else st.iWorstAudioIndex } := by
  intro l
  induction l with
  | nil => intro pre st _; simp [searchAudio, lastIndex]
  | cons e rest ih =>
    intro pre st hl
    have hat : entryAt melList pre.length = e := by rw [hl]; exact entryAt_append pre e rest
    have hnext : melList = (pre ++ [e]) ++ rest := by rw [hl]; simp
    have hlen : (pre ++ [e]).length = pre.length + 1 := by simp
    have hpos : ((pre.length : Nat) : Int) ≠ -1 := by omega
    simp only [List.length_cons, searchAudio, hat, if_neg hq]
    by_cases ha : MediaType.MT_AUDIO_ONLY = e.mtMediaType
    · have ha' : isAudio e = true := by simp [isAudio, ha.symm]
      by_cases hs : getSubtype video.sMIMEType = getSubtype e.sMIMEType
      · have hs' : sameSubtype getSubtype video e = true := by simp [sameSubtype, ha', hs]
        rw [if_pos ha, if_pos hs]
        have := ih (pre ++ [e]) { st with iWorstAudioIndex := pre.length,
                                          i2ndBestAudioIndex := pre.length } hnext
        rw [hlen] at this
        rw [this]
        simp only [lastIndex, ha', hs', if_true]
        congr 1
        · split <;> simp_all
        · split <;> simp_all
      · have hs' : sameSubtype getSubtype video e = false := by simp [sameSubtype, hs]
        rw [if_pos ha, if_neg hs]
        have := ih (pre ++ [e]) { st with iWorstAudioIndex := pre.length } hnext
        rw [hlen] at this
        rw [this]
        simp only [lastIndex, ha', hs', if_true]
        congr 1
        · split <;> simp_all
        · split <;> simp_all
    · have ha' : isAudio e = false := by
        simp only [isAudio, decide_eq_false_iff_not]
        exact fun h => ha h.symm
      have hs' : sameSubtype getSubtype video e = false := by simp [sameSubtype, ha']
      rw [if_neg ha]
      have := ih (pre ++ [e]) st hnext
      rw [hlen] at this
      rw [this]
      simp only [lastIndex, ha', hs']
      congr 1
      · split <;> simp_all
      · split <;> simp_all

/-- When the selected video-only entry has an audio quality other than its video
quality, the search returns the last audio-only entry of its subtype, failing that
the last audio-only entry, failing that -1; this is the track the words name when
no audio-only entry of the subtype has the quality of the video. -/
theorem audioIndex_fallback (getSubtype : String → String) (melList : List MediaEntry)
    (iMediaIndex : Nat)
    (hv : (entryAt melList iMediaIndex).mtMediaType = MediaType.MT_VIDEO_ONLY)
    (hq : (entryAt melList iMediaIndex).sVideoQuality
      ≠ (entryAt melList iMediaIndex).sAudioQuality) :
    audioIndex getSubtype melList iMediaIndex
      = (if lastIndex (sameSubtype getSubtype (entryAt melList iMediaIndex)) melList 0 ≠ -1
         then lastIndex (sameSubtype getSubtype (entryAt melList iMediaIndex)) melList 0
         else lastIndex isAudio melList 0) ∧
    (firstIndex (isPerfect getSubtype (entryAt melList iMediaIndex)) melList 0 = -1 →
      audioIndex getSubtype melList iMediaIndex
        = perfectAudioIndex getSubtype melList (entryAt melList iMediaIndex)) := by
  have hloop := searchAudio_no_break getSubtype melList iMediaIndex
    (entryAt melList iMediaIndex) hq melList []
    { iAudioIndex := -1, i2ndBestAudioIndex := -1, iWorstAudioIndex := -1 } rfl
  simp only [List.length_nil] at hloop
  have hmain : audioIndex getSubtype melList iMediaIndex
      = (if lastIndex (sameSubtype getSubtype (entryAt melList iMediaIndex)) melList 0 ≠ -1
         then lastIndex (sameSubtype getSubtype (entryAt melList iMediaIndex)) melList 0
         else lastIndex isAudio melList 0) := by
    unfold audioIndex
    have hsel : (-1 : Int) ≠ (iMediaIndex : Int) := by omega
    simp only [Int.toNat_ofNat, hv, hsel, ne_eq, not_false_eq_true, if_true, hloop]
    by_cases h2 : lastIndex (sameSubtype getSubtype (entryAt melList iMediaIndex)) melList 0
        = -1
    · by_cases h3 : lastIndex isAudio melList 0 = -1
      · simp [h2, h3]
      · simp [h2, h3]
    · have h2' : ¬ (-1 : Int)
          = lastIndex (sameSubtype getSubtype (entryAt melList iMediaIndex)) melList 0 :=
        fun h => h2 h.symm
      simp [h2, h2']
  refine ⟨hmain, fun hnone => ?_⟩
  rw [hmain, perfectAudioIndex]
  simp [hnone]

/-- C27, at a failing input: for a video-only entry of quality "medium" followed by
two audio-only entries of its subtype, of audio quality "medium" and "low", the
search returns index 2, the last entry of the subtype, although index 1 holds an
entry of the subtype whose audio quality equals the video quality: line 366
compares the video quality with the audio quality of the video entry itself. -/
theorem audioIndex_skips_perfect_track (getSubtype : String → String)
    (h : getSubtype "video/mp4" = getSubtype "audio/mp4") :
    audioIndex getSubtype melTwoAudio 0 = 2 ∧
    perfectAudioIndex getSubtype melTwoAudio (entryAt melTwoAudio 0) = 1 := by
  constructor
  · simp [audioIndex, searchAudio, melTwoAudio, entryAt, h]
  · simp [perfectAudioIndex, firstIndex, lastIndex, isPerfect, sameSubtype, isAudio,
      melTwoAudio, entryAt, h]

theorem audioIndex_skips_perfect_track_witness :
    audioIndex subtypeMp4 melTwoAudio 0 = 2 ∧
    perfectAudioIndex subtypeMp4 melTwoAudio (entryAt melTwoAudio 0) = 1 :=
  audioIndex_skips_perfect_track subtypeMp4 rfl

end MainWindow
